import Mathlib

/-!
Verification of the reconciliation engine of unboundCLI (github.com/jeeftor/unboundCLI).

The Go sources are shallowly embedded:
* Go strings are modeled as lists of characters (`Str`);
* Go maps are modeled as association lists with overwrite-on-insert (`GoMap`),
  `range` iteration is modeled as iteration in list order;
* the HTTP clients are modeled as oracles over an explicit environment
  (`Env`) holding the remote systems' state, with injectable per-call
  failures (`Faults`) and a trace of the external calls made (`Event`).
Each definition's doc comment names the Go function or snippet it embeds.
-/

namespace UnboundCLI

/-- Go strings, modeled as lists of characters. -/
abbrev Str := List Char

/-- Embed a Lean string literal into the model string type. -/
def str (s : String) : Str := s.data

/-- `containsDot` (internal/exec/sync/sync_exec.go): reports whether a
hostname contains a `'.'` character, by iterating over its characters. -/
def containsDot (hostname : Str) : Bool :=
  hostname.any (fun c => c = '.')

/-- `isLegacyDescription` (cmd/cloudflare-sync.go and the sync package):
reports whether `desc` equals any of the legacy description strings. -/
def isLegacyDescription (desc : Str) (legacy : List Str) : Bool :=
  legacy.any (fun v => desc = v)

/-- `strings.HasPrefix(hostStr, "*.")`: the wildcard test used by the
Caddy hostname extractor. -/
def startsWithStarDot : Str → Bool
  | c1 :: c2 :: _ => c1 = '*' && c2 = '.'
  | _ => false

/-- `strings.Contains(hostStr, ":")`: the port-suffix test used by the
Caddy hostname extractor. -/
def containsColon (s : Str) : Bool :=
  s.any (fun c => c = ':')

/-- `strings.Split(hostStr, ":")[0]`: the part of the string before its
first colon (the whole string when there is no colon). -/
def colonHead : Str → Str
  | [] => []
  | c :: cs => if c = ':' then [] else c :: colonHead cs

/-- Helper for `strings.SplitN(s, ".", 2)`: locate the first `'.'` and
return the parts before and after it, or `none` when there is no dot. -/
def breakAtDot : Str → Option (Str × Str)
  | [] => none
  | c :: cs =>
      if c = '.' then some ([], cs)
      else
        match breakAtDot cs with
        | some p => some (c :: p.1, p.2)
        | none => none

/-- `strings.SplitN(s, ".", 2)`: a list of one part (no dot present) or
exactly two parts (split at the first dot). -/
def goSplitN2 (s : Str) : List Str :=
  match breakAtDot s with
  | none => [s]
  | some p => [p.1, p.2]

/-! ### Go map model -/

/-- A Go `map[string]α`, modeled as an association list whose insert
overwrites an existing binding in place. -/
abbrev GoMap (α : Type) := List (Str × α)

/-- `m[k] = v`: insert-or-overwrite. -/
def mapInsert {α : Type} : GoMap α → Str → α → GoMap α
  | [], k, v => [(k, v)]
  | (k', v') :: rest, k, v =>
      if k' = k then (k, v) :: rest else (k', v') :: mapInsert rest k v

/-- `v, ok := m[k]`: lookup (first binding; maps built by `mapInsert`
have at most one binding per key). -/
def mapFind {α : Type} : GoMap α → Str → Option α
  | [], _ => none
  | (k', v') :: rest, k => if k' = k then some v' else mapFind rest k

/-- The keys of a Go map. -/
def mapKeys {α : Type} (m : GoMap α) : List Str := m.map Prod.fst

/-! ### OPNSense Unbound data model (internal/api, part of the `api` package) -/

/-- `api.DNSOverride` (the OPNSense Unbound host-override record). -/
structure DNSOverride where
  uuid : Str := []
  enabled : Str := []
  host : Str := []
  domain : Str := []
  rr : Str := []
  mxprio : Str := []
  mx : Str := []
  server : Str := []
  description : Str := []
deriving DecidableEq, Repr, Inhabited

/-- `fmt.Sprintf("%s.%s", override.Host, override.Domain)`: the key under
which an override is stored in the owned/foreign classification maps. -/
def overrideKey (o : DNSOverride) : Str := o.host ++ '.' :: o.domain

/-- `api.Rewrite` (the AdguardHome DNS rewrite record). -/
structure Rewrite where
  domain : Str := []
  answer : Str := []
deriving DecidableEq, Repr, Inhabited

/-! ### Ownership classification (the loop shared by
`syncCaddyWithUnboundInternal`, `SyncCloudflareWithUnbound` and
`SyncCaddyWithCloudflare`) -/

/-- Whether an override's description marks it as created by this tool:
it equals the current entry description or one of the legacy ones. -/
def descOwned (desc entryDescription : Str) (legacy : List Str) : Bool :=
  desc = entryDescription || isLegacyDescription desc legacy

/-- The classification loop of `syncCaddyWithUnboundInternal`
(internal/exec/sync/sync_exec.go): each override is keyed by
`host.domain` and inserted into the sync-created map when its
description matches the current or a legacy description, and into the
"other" (foreign) map otherwise. -/
def classifyLoop (entryDescription : Str) (legacy : List Str)
    (acc : GoMap DNSOverride × GoMap DNSOverride) :
    List DNSOverride → GoMap DNSOverride × GoMap DNSOverride
  | [] => acc
  | o :: rest =>
      let key := overrideKey o
      let acc' :=
        if descOwned o.description entryDescription legacy then
          (mapInsert acc.1 key o, acc.2)
        else
          (acc.1, mapInsert acc.2 key o)
      classifyLoop entryDescription legacy acc' rest

/-- Classify the fetched overrides into sync-created and other maps,
starting from two empty maps. -/
def classifyOverrides (existing : List DNSOverride) (entryDescription : Str)
    (legacy : List Str) : GoMap DNSOverride × GoMap DNSOverride :=
  classifyLoop entryDescription legacy ([], []) existing

/-! ### The Unbound-style diff engine -/

/-- `api.CaddySyncOptions` / `sync.CaddySyncOptions`: options for the
Caddy-to-Unbound sync. -/
structure CaddySyncOptions where
  dryRun : Bool := false
  caddyServerIP : Str := []
  caddyServerPort : Int := 0
  entryDescription : Str := []
  legacyDescriptions : List Str := []
  verbose : Bool := false

/-- The `for hostname, serverIP := range hostnameMap` loop of
`syncCaddyWithUnboundInternal` (sync_exec.go lines 1016–1040): skip
hostnames without a dot; absent from both maps → to-add; present only in
the foreign map → leave alone; present in the sync map → to-update when
the server IP differs, else to-update-description when the description
differs. Returns (toAdd, toUpdate, toUpdateDesc) in iteration order. -/
def processHostnames (syncM otherM : GoMap DNSOverride)
    (entryDescription : Str) :
    List (Str × Str) → List Str × List Str × List Str
  | [] => ([], [], [])
  | (hostname, serverIP) :: rest =>
      let tl := processHostnames syncM otherM entryDescription rest
      if containsDot hostname then
        match mapFind syncM hostname with
        | none =>
            if (mapFind otherM hostname).isSome then tl
            else (hostname :: tl.1, tl.2.1, tl.2.2)
        | some ovr =>
            if ovr.server ≠ serverIP then (tl.1, hostname :: tl.2.1, tl.2.2)
            else if ovr.description ≠ entryDescription then
              (tl.1, tl.2.1, hostname :: tl.2.2)
            else tl
      else tl

/-- The "find entries to remove" loop of `syncCaddyWithUnboundInternal`
(sync_exec.go lines 1043–1048): every key of the sync-created map that is
absent from the hostname map. -/
def findToRemove {α : Type} (hostnameMap : GoMap Str) :
    GoMap α → List Str
  | [] => []
  | (k, _) :: rest =>
      if (mapFind hostnameMap k).isSome then findToRemove hostnameMap rest
      else k :: findToRemove hostnameMap rest

/-- The four change sets of a sync run. -/
structure DiffSets where
  toAdd : List Str := []
  toUpdate : List Str := []
  toUpdateDesc : List Str := []
  toRemove : List Str := []
deriving DecidableEq, Repr

/-- The pure diff phase of `syncCaddyWithUnboundInternal`
(sync_exec.go lines 999–1048): classify the existing overrides, then
compute the four change sets. Also returns the two classification maps. -/
def computeUnboundChangeSets (options : CaddySyncOptions)
    (hostnameMap : GoMap Str) (existing : List DNSOverride) :
    DiffSets × GoMap DNSOverride × GoMap DNSOverride :=
  let c := classifyOverrides existing options.entryDescription
    options.legacyDescriptions
  let aud := processHostnames c.1 c.2 options.entryDescription hostnameMap
  let r := findToRemove hostnameMap c.1
  (⟨aud.1, aud.2.1, aud.2.2, r⟩, c.1, c.2)

/-! ### Basic lemmas about the Go map model -/

theorem mapFind_insert_self {α : Type} (m : GoMap α) (k : Str) (v : α) :
    mapFind (mapInsert m k v) k = some v := by
  induction m with
  | nil => simp [mapInsert, mapFind]
  | cons hd tl ih =>
      cases hd with
      | mk k' v' =>
          by_cases h : k' = k
          · simp [mapInsert, h, mapFind]
          · simp [mapInsert, h, mapFind, ih]

theorem mapFind_insert_ne {α : Type} (m : GoMap α) (k k' : Str) (v : α)
    (h : k' ≠ k) : mapFind (mapInsert m k v) k' = mapFind m k' := by
  have h' : ¬ k = k' := fun hh => h hh.symm
  induction m with
  | nil => simp [mapInsert, mapFind, h']
  | cons hd tl ih =>
      cases hd with
      | mk k0 v0 =>
          by_cases h0 : k0 = k
          · subst h0
            simp [mapInsert, mapFind, h']
          · by_cases h1 : k0 = k'
            · simp [mapInsert, mapFind, h0, h1, h]
            · simp [mapInsert, mapFind, h0, h1, ih]

theorem mapFind_mem {α : Type} {m : GoMap α} {k : Str} {v : α}
    (h : mapFind m k = some v) : (k, v) ∈ m := by
  induction m with
  | nil => simp [mapFind] at h
  | cons hd tl ih =>
      cases hd with
      | mk k0 v0 =>
          by_cases h0 : k0 = k
          · subst h0
            simp [mapFind] at h
            simp [h]
          · simp [mapFind, h0] at h
            exact List.mem_cons_of_mem _ (ih h)

theorem mem_mapInsert {α : Type} {m : GoMap α} {k : Str} {v : α} {p : Str × α}
    (h : p ∈ mapInsert m k v) : p ∈ m ∨ p = (k, v) := by
  induction m with
  | nil => simp [mapInsert] at h; simp [h]
  | cons hd tl ih =>
      cases hd with
      | mk k0 v0 =>
          by_cases h0 : k0 = k
          · subst h0
            simp [mapInsert] at h
            rcases h with h | h
            · right; simp [h]
            · left; exact List.mem_cons_of_mem _ h
          · simp [mapInsert, h0] at h
            rcases h with h | h
            · left; simp [h]
            · rcases ih h with h' | h'
              · left; exact List.mem_cons_of_mem _ h'
              · right; exact h'

theorem mapFind_isSome_of_mem {α : Type} {m : GoMap α} {k : Str} {v : α}
    (h : (k, v) ∈ m) : (mapFind m k).isSome := by
  induction m with
  | nil => simp at h
  | cons hd tl ih =>
      cases hd with
      | mk k0 v0 =>
          rcases List.mem_cons.1 h with h' | h'
          · cases h'
            simp [mapFind]
          · by_cases h0 : k0 = k
            · simp [mapFind, h0]
            · simp [mapFind, h0]
              exact ih h'

theorem mapFind_insert_isSome_mono {α : Type} {m : GoMap α} {k k' : Str}
    {v : α} (h : (mapFind m k').isSome) :
    (mapFind (mapInsert m k v) k').isSome := by
  by_cases hk : k' = k
  · subst hk; simp [mapFind_insert_self]
  · rw [mapFind_insert_ne m k k' v hk]; exact h

theorem mem_mapKeys_insert {α : Type} {m : GoMap α} {k k' : Str} {v : α}
    (h : k' ∈ mapKeys (mapInsert m k v)) : k' ∈ mapKeys m ∨ k' = k := by
  rcases List.mem_map.1 h with ⟨p, hp, hpk⟩
  rcases mem_mapInsert hp with h' | h'
  · exact Or.inl (hpk ▸ List.mem_map_of_mem Prod.fst h')
  · subst h'
    exact Or.inr hpk.symm

theorem keysNodup_mapInsert {α : Type} {m : GoMap α} (k : Str) (v : α)
    (h : (mapKeys m).Nodup) : (mapKeys (mapInsert m k v)).Nodup := by
  induction m with
  | nil => simp [mapInsert, mapKeys]
  | cons hd tl ih =>
      cases hd with
      | mk k0 v0 =>
          simp only [mapKeys, List.map_cons, List.nodup_cons] at h
          by_cases h0 : k0 = k
          · subst h0
            have he : mapInsert ((k0, v0) :: tl) k0 v = (k0, v) :: tl := by
              simp [mapInsert]
            rw [he]
            exact List.nodup_cons.2 h
          · have h1 := ih h.2
            simp only [mapInsert, h0, if_false, mapKeys, List.map_cons,
              List.nodup_cons]
            refine ⟨fun hc => ?_, h1⟩
            rcases mem_mapKeys_insert hc with hc' | hc'
            · exact h.1 hc'
            · exact h0 hc'

theorem goFindToRemoveSel_eq {α : Type} (hostnameMap : GoMap Str)
    (S : GoMap α) :
    findToRemove hostnameMap S =
      S.filterMap (fun p =>
        if (mapFind hostnameMap p.1).isSome then none else some p.1) := by
  induction S with
  | nil => simp [findToRemove]
  | cons hd tl ih =>
      cases hd with
      | mk k0 v0 =>
          by_cases h0 : (mapFind hostnameMap k0).isSome
          · simp [findToRemove, h0, ih]
          · simp [findToRemove, h0, ih]

theorem mapFind_eq_of_mem_nodup {α : Type} {m : GoMap α} {k : Str} {v : α}
    (hnd : (mapKeys m).Nodup) (h : (k, v) ∈ m) : mapFind m k = some v := by
  induction m with
  | nil => simp at h
  | cons hd tl ih =>
      cases hd with
      | mk k0 v0 =>
          simp only [mapKeys, List.map_cons, List.nodup_cons] at hnd
          rcases List.mem_cons.1 h with h' | h'
          · cases h'
            simp [mapFind]
          · by_cases h0 : k0 = k
            · exfalso
              apply hnd.1
              subst h0
              exact List.mem_map_of_mem _ h'
            · simp only [mapFind, h0, if_false]
              exact ih hnd.2 h'

theorem mem_pairs_unique {α : Type} {m : GoMap α} {k : Str} {a b : α}
    (hnd : (mapKeys m).Nodup) (ha : (k, a) ∈ m) (hb : (k, b) ∈ m) :
    a = b := by
  have h1 := mapFind_eq_of_mem_nodup hnd ha
  have h2 := mapFind_eq_of_mem_nodup hnd hb
  exact Option.some_inj.1 (h1.symm.trans h2)

/-! ### Lemmas about dots and splitting -/

theorem containsDot_iff {s : Str} : containsDot s = true ↔ '.' ∈ s := by
  simp only [containsDot, List.any_eq_true, decide_eq_true_eq]
  constructor
  · rintro ⟨c, hc, rfl⟩; exact hc
  · intro h; exact ⟨'.', h, rfl⟩

theorem containsDot_overrideKey (o : DNSOverride) :
    containsDot (overrideKey o) = true := by
  rw [containsDot_iff, overrideKey]
  exact List.mem_append.2 (Or.inr (List.mem_cons_self _ _))

theorem breakAtDot_isSome {s : Str} (h : containsDot s = true) :
    (breakAtDot s).isSome := by
  induction s with
  | nil => simp [containsDot] at h
  | cons c cs ih =>
      by_cases hc : c = '.'
      · simp [breakAtDot, hc]
      · have : containsDot cs = true := by
          rw [containsDot_iff] at h ⊢
          rcases List.mem_cons.1 h with h' | h'
          · exact absurd h'.symm hc
          · exact h'
        have h2 := ih this
        simp only [breakAtDot, hc, if_false]
        obtain ⟨p, hp⟩ := Option.isSome_iff_exists.1 h2
        simp [hp]

theorem goSplitN2_length {s : Str} (h : containsDot s = true) :
    (goSplitN2 s).length = 2 := by
  obtain ⟨p, hp⟩ := Option.isSome_iff_exists.1 (breakAtDot_isSome h)
  simp [goSplitN2, hp]

/-! ### Characterization of the ownership classification -/

theorem classifyLoop_sync_mem {d : Str} {L : List Str}
    {acc : GoMap DNSOverride × GoMap DNSOverride}
    {E : List DNSOverride} {k : Str} {e : DNSOverride}
    (h : (k, e) ∈ (classifyLoop d L acc E).1) :
    (k, e) ∈ acc.1 ∨
      (e ∈ E ∧ k = overrideKey e ∧ descOwned e.description d L = true) := by
  induction E generalizing acc with
  | nil => exact Or.inl h
  | cons o rest ih =>
      simp only [classifyLoop] at h
      by_cases ho : descOwned o.description d L = true
      · simp only [ho, if_true] at h
        rcases ih h with h' | h'
        · rcases mem_mapInsert h' with h'' | h''
          · exact Or.inl h''
          · refine Or.inr ?_
            have hk : k = overrideKey o ∧ e = o := by
              constructor
              · exact congrArg Prod.fst h''
              · exact congrArg Prod.snd h''
            refine ⟨?_, ?_, ?_⟩
            · rw [hk.2]; exact List.mem_cons_self _ _
            · rw [hk.1, hk.2]
            · rw [hk.2]; exact ho
        · exact Or.inr ⟨List.mem_cons_of_mem _ h'.1, h'.2⟩
      · simp only [eq_false_of_ne_true ho, Bool.false_eq_true, if_false] at h
        rcases ih h with h' | h'
        · exact Or.inl h'
        · exact Or.inr ⟨List.mem_cons_of_mem _ h'.1, h'.2⟩

theorem classifyLoop_other_mem {d : Str} {L : List Str}
    {acc : GoMap DNSOverride × GoMap DNSOverride}
    {E : List DNSOverride} {k : Str} {e : DNSOverride}
    (h : (k, e) ∈ (classifyLoop d L acc E).2) :
    (k, e) ∈ acc.2 ∨
      (e ∈ E ∧ k = overrideKey e ∧ descOwned e.description d L = false) := by
  induction E generalizing acc with
  | nil => exact Or.inl h
  | cons o rest ih =>
      simp only [classifyLoop] at h
      by_cases ho : descOwned o.description d L = true
      · simp only [ho, if_true] at h
        rcases ih h with h' | h'
        · exact Or.inl h'
        · exact Or.inr ⟨List.mem_cons_of_mem _ h'.1, h'.2⟩
      · simp only [eq_false_of_ne_true ho, Bool.false_eq_true, if_false] at h
        rcases ih h with h' | h'
        · rcases mem_mapInsert h' with h'' | h''
          · exact Or.inl h''
          · refine Or.inr ?_
            have hk : k = overrideKey o ∧ e = o := by
              constructor
              · exact congrArg Prod.fst h''
              · exact congrArg Prod.snd h''
            refine ⟨?_, ?_, ?_⟩
            · rw [hk.2]; exact List.mem_cons_self _ _
            · rw [hk.1, hk.2]
            · rw [hk.2]; exact eq_false_of_ne_true ho
        · exact Or.inr ⟨List.mem_cons_of_mem _ h'.1, h'.2⟩

theorem classifyLoop_other_isSome_mono {d : Str} {L : List Str}
    {E : List DNSOverride} {k : Str}
    (acc : GoMap DNSOverride × GoMap DNSOverride)
    (h : (mapFind acc.2 k).isSome) :
    (mapFind (classifyLoop d L acc E).2 k).isSome := by
  induction E generalizing acc with
  | nil => exact h
  | cons o rest ih =>
      simp only [classifyLoop]
      by_cases ho : descOwned o.description d L = true
      · simp only [ho, if_true]
        exact ih _ h
      · simp only [eq_false_of_ne_true ho, Bool.false_eq_true, if_false]
        exact ih _ (mapFind_insert_isSome_mono h)

theorem classifyLoop_other_isSome {d : Str} {L : List Str}
    {E : List DNSOverride} {e : DNSOverride}
    (acc : GoMap DNSOverride × GoMap DNSOverride)
    (hmem : e ∈ E) (hf : descOwned e.description d L = false) :
    (mapFind (classifyLoop d L acc E).2 (overrideKey e)).isSome := by
  induction E generalizing acc with
  | nil => simp at hmem
  | cons o rest ih =>
      simp only [classifyLoop]
      rcases List.mem_cons.1 hmem with h' | h'
      · subst h'
        simp only [hf, Bool.false_eq_true, if_false]
        exact classifyLoop_other_isSome_mono _ (by simp [mapFind_insert_self])
      · by_cases ho : descOwned o.description d L = true
        · simp only [ho, if_true]
          exact ih _ h'
        · simp only [eq_false_of_ne_true ho, Bool.false_eq_true, if_false]
          exact ih _ h'

theorem classifyLoop_sync_keysNodup {d : Str} {L : List Str}
    {E : List DNSOverride}
    (acc : GoMap DNSOverride × GoMap DNSOverride)
    (h : (mapKeys acc.1).Nodup) :
    (mapKeys (classifyLoop d L acc E).1).Nodup := by
  induction E generalizing acc with
  | nil => exact h
  | cons o rest ih =>
      simp only [classifyLoop]
      by_cases ho : descOwned o.description d L = true
      · simp only [ho, if_true]
        exact ih _ (keysNodup_mapInsert _ _ h)
      · simp only [eq_false_of_ne_true ho, Bool.false_eq_true, if_false]
        exact ih _ h

/-! ### Characterization of the diff loops.

The loops are shown equal to `filterMap`s of per-pair selectors, from
which membership characterizations follow. The selectors are proof-layer
helpers, not part of the embedding. -/

/-- Selector deciding whether a mapping pair lands in `toAdd`. -/
def addSel (S O : GoMap DNSOverride) (p : Str × Str) : Option Str :=
  if containsDot p.1 then
    match mapFind S p.1 with
    | none => if (mapFind O p.1).isSome then none else some p.1
    | some _ => none
  else none

/-- Selector deciding whether a mapping pair lands in `toUpdate`. -/
def updSel (S : GoMap DNSOverride) (p : Str × Str) : Option Str :=
  if containsDot p.1 then
    match mapFind S p.1 with
    | none => none
    | some ovr => if ovr.server ≠ p.2 then some p.1 else none
  else none

/-- Selector deciding whether a mapping pair lands in `toUpdateDesc`. -/
def descSel (S : GoMap DNSOverride) (d : Str) (p : Str × Str) : Option Str :=
  if containsDot p.1 then
    match mapFind S p.1 with
    | none => none
    | some ovr =>
        if ovr.server ≠ p.2 then none
        else if ovr.description ≠ d then some p.1 else none
  else none

theorem processHostnames_eq (S O : GoMap DNSOverride) (d : Str)
    (M : List (Str × Str)) :
    processHostnames S O d M =
      (M.filterMap (addSel S O), M.filterMap (updSel S),
        M.filterMap (descSel S d)) := by
  induction M with
  | nil => simp [processHostnames]
  | cons p rest ih =>
      cases p with
      | mk h0 ip0 =>
          simp only [processHostnames, ih, List.filterMap_cons]
          by_cases hdot : containsDot h0 = true
          · cases hS : mapFind S h0 with
            | none =>
                by_cases hO : (mapFind O h0).isSome
                · simp [addSel, updSel, descSel, hdot, hS, hO]
                · simp [addSel, updSel, descSel, hdot, hS, hO]
            | some ovr =>
                by_cases hup : ovr.server = ip0
                · by_cases hdd : ovr.description = d
                  · simp [addSel, updSel, descSel, hdot, hS, hup, hdd]
                  · simp [addSel, updSel, descSel, hdot, hS, hup, hdd]
                · simp [addSel, updSel, descSel, hdot, hS, hup]
          · simp [addSel, updSel, descSel, hdot]

theorem addSel_eq_some {S O : GoMap DNSOverride} {p : Str × Str} {h : Str}
    (hs : addSel S O p = some h) :
    p.1 = h ∧ containsDot h = true ∧ mapFind S h = none ∧
      mapFind O h = none := by
  by_cases hdot : containsDot p.1 = true
  · cases hS : mapFind S p.1 with
    | none =>
        by_cases hO : (mapFind O p.1).isSome
        · simp [addSel, hdot, hS, hO] at hs
        · simp only [addSel, hdot, if_true, hS, hO, if_false] at hs
          have hp : p.1 = h := Option.some_inj.1 hs
          subst hp
          exact ⟨rfl, hdot, hS, Option.not_isSome_iff_eq_none.1 hO⟩
    | some ovr => simp [addSel, hdot, hS] at hs
  · simp [addSel, hdot] at hs

theorem updSel_eq_some {S : GoMap DNSOverride} {p : Str × Str} {h : Str}
    (hs : updSel S p = some h) :
    p.1 = h ∧ containsDot h = true ∧
      ∃ ovr, mapFind S h = some ovr ∧ ovr.server ≠ p.2 := by
  by_cases hdot : containsDot p.1 = true
  · cases hS : mapFind S p.1 with
    | none => simp [updSel, hdot, hS] at hs
    | some ovr =>
        by_cases hup : ovr.server = p.2
        · simp [updSel, hdot, hS, hup] at hs
        · simp only [updSel, hdot, if_true, hS] at hs
          rw [if_pos hup] at hs
          have hp : p.1 = h := Option.some_inj.1 hs
          subst hp
          exact ⟨rfl, hdot, ovr, hS, hup⟩
  · simp [updSel, hdot] at hs

theorem descSel_eq_some {S : GoMap DNSOverride} {d : Str} {p : Str × Str}
    {h : Str} (hs : descSel S d p = some h) :
    p.1 = h ∧ containsDot h = true ∧
      ∃ ovr, mapFind S h = some ovr ∧ ovr.server = p.2 ∧
        ovr.description ≠ d := by
  by_cases hdot : containsDot p.1 = true
  · cases hS : mapFind S p.1 with
    | none => simp [descSel, hdot, hS] at hs
    | some ovr =>
        by_cases hup : ovr.server = p.2
        · by_cases hdd : ovr.description = d
          · simp [descSel, hdot, hS, hup, hdd] at hs
          · simp only [descSel, hdot, if_true, hS] at hs
            rw [if_neg (not_not_intro hup)] at hs
            rw [if_pos hdd] at hs
            have hp : p.1 = h := Option.some_inj.1 hs
            subst hp
            exact ⟨rfl, hdot, ovr, hS, hup, hdd⟩
        · simp [descSel, hdot, hS, hup] at hs
  · simp [descSel, hdot] at hs

theorem mem_toAdd {S O : GoMap DNSOverride} {d : Str}
    {M : List (Str × Str)} {h : Str}
    (hmem : h ∈ (processHostnames S O d M).1) :
    (∃ ip, (h, ip) ∈ M) ∧ containsDot h = true ∧
      mapFind S h = none ∧ mapFind O h = none := by
  rw [processHostnames_eq] at hmem
  simp only [List.mem_filterMap] at hmem
  obtain ⟨p, hp, hsel⟩ := hmem
  obtain ⟨hp1, hrest⟩ := addSel_eq_some hsel
  refine ⟨⟨p.2, ?_⟩, hrest⟩
  rw [← hp1]
  exact hp

theorem mem_toUpdate {S O : GoMap DNSOverride} {d : Str}
    {M : List (Str × Str)} {h : Str}
    (hmem : h ∈ (processHostnames S O d M).2.1) :
    ∃ ip, (h, ip) ∈ M ∧ containsDot h = true ∧
      ∃ ovr, mapFind S h = some ovr ∧ ovr.server ≠ ip := by
  rw [processHostnames_eq] at hmem
  simp only [List.mem_filterMap] at hmem
  obtain ⟨p, hp, hsel⟩ := hmem
  obtain ⟨hp1, hdot, ovr, hS, hne⟩ := updSel_eq_some hsel
  refine ⟨p.2, ?_, hdot, ovr, hS, hne⟩
  rw [← hp1]
  exact hp

theorem mem_toUpdateDesc {S O : GoMap DNSOverride} {d : Str}
    {M : List (Str × Str)} {h : Str}
    (hmem : h ∈ (processHostnames S O d M).2.2) :
    ∃ ip, (h, ip) ∈ M ∧ containsDot h = true ∧
      ∃ ovr, mapFind S h = some ovr ∧ ovr.server = ip ∧
        ovr.description ≠ d := by
  rw [processHostnames_eq] at hmem
  simp only [List.mem_filterMap] at hmem
  obtain ⟨p, hp, hsel⟩ := hmem
  obtain ⟨hp1, hdot, ovr, hS, heq, hne⟩ := descSel_eq_some hsel
  refine ⟨p.2, ?_, hdot, ovr, hS, heq, hne⟩
  rw [← hp1]
  exact hp

theorem toUpdate_of_conds {S O : GoMap DNSOverride} {d : Str}
    {M : List (Str × Str)} {h ip : Str} {ovr : DNSOverride}
    (hm : (h, ip) ∈ M) (hdot : containsDot h = true)
    (hS : mapFind S h = some ovr) (hne : ovr.server ≠ ip) :
    h ∈ (processHostnames S O d M).2.1 := by
  rw [processHostnames_eq]
  simp only [List.mem_filterMap]
  refine ⟨(h, ip), hm, ?_⟩
  simp [updSel, hdot, hS, hne]

theorem toUpdateDesc_of_conds {S O : GoMap DNSOverride} {d : Str}
    {M : List (Str × Str)} {h ip : Str} {ovr : DNSOverride}
    (hm : (h, ip) ∈ M) (hdot : containsDot h = true)
    (hS : mapFind S h = some ovr) (heq : ovr.server = ip)
    (hne : ovr.description ≠ d) :
    h ∈ (processHostnames S O d M).2.2 := by
  rw [processHostnames_eq]
  simp only [List.mem_filterMap]
  refine ⟨(h, ip), hm, ?_⟩
  simp [descSel, hdot, hS, heq, hne]

theorem mem_findToRemove {α : Type} {hostnameMap : GoMap Str}
    {S : GoMap α} {k : Str} :
    k ∈ findToRemove hostnameMap S ↔
      (∃ v, (k, v) ∈ S) ∧ mapFind hostnameMap k = none := by
  rw [goFindToRemoveSel_eq]
  simp only [List.mem_filterMap]
  constructor
  · rintro ⟨p, hp, hsel⟩
    by_cases h0 : (mapFind hostnameMap p.1).isSome
    · simp [h0] at hsel
    · simp only [h0, Bool.false_eq_true, if_false] at hsel
      have hp1 : p.1 = k := Option.some_inj.1 hsel
      subst hp1
      exact ⟨⟨p.2, hp⟩, Option.not_isSome_iff_eq_none.1 h0⟩
  · rintro ⟨⟨v, hv⟩, hnone⟩
    refine ⟨(k, v), hv, ?_⟩
    simp [hnone]

theorem sync_mem_of_mapFind {options : CaddySyncOptions}
    {hostnameMap : GoMap Str} {existing : List DNSOverride}
    {h : Str} {e : DNSOverride}
    (hfind : mapFind
      (computeUnboundChangeSets options hostnameMap existing).2.1 h =
        some e) :
    e ∈ existing ∧ h = overrideKey e ∧
      descOwned e.description options.entryDescription
        options.legacyDescriptions = true := by
  have hmem : (h, e) ∈
      (classifyOverrides existing options.entryDescription
        options.legacyDescriptions).1 := mapFind_mem hfind
  rcases classifyLoop_sync_mem hmem with h' | h'
  · simp at h'
  · exact h'

/-! ### Claim theorems about the diff engine -/

/-- **C6**: for every owned entry whose key is present in the source
mapping, a value mismatch queues it in `toUpdate` only; it is queued in
`toUpdateDesc` only when its value already equals the target but its
description differs from the current one; and no hostname is ever in
both `toUpdate` and `toUpdateDesc` in the same run
(`syncCaddyWithUnboundInternal`, sync_exec.go lines 1030–1039; the same
loop appears in cmd/cloudflare-sync.go lines 112–126). -/
theorem updateWinsOverDescUpdate
    (options : CaddySyncOptions) (hostnameMap : GoMap Str)
    (existing : List DNSOverride) (h : Str) (e : DNSOverride) (ip : Str)
    (hNodup : (mapKeys hostnameMap).Nodup)
    (hSync : mapFind
      (computeUnboundChangeSets options hostnameMap existing).2.1 h =
        some e)
    (hMap : mapFind hostnameMap h = some ip) :
    (e.server ≠ ip →
      h ∈ (computeUnboundChangeSets options hostnameMap existing).1.toUpdate ∧
      h ∉ (computeUnboundChangeSets options hostnameMap
        existing).1.toUpdateDesc) ∧
    (e.server = ip ∧ e.description ≠ options.entryDescription →
      h ∈ (computeUnboundChangeSets options hostnameMap
        existing).1.toUpdateDesc ∧
      h ∉ (computeUnboundChangeSets options hostnameMap
        existing).1.toUpdate) ∧
    ¬(h ∈ (computeUnboundChangeSets options hostnameMap
        existing).1.toUpdate ∧
      h ∈ (computeUnboundChangeSets options hostnameMap
        existing).1.toUpdateDesc) := by
  obtain ⟨hmemE, hkey, hown⟩ := sync_mem_of_mapFind hSync
  have hdot : containsDot h = true := hkey ▸ containsDot_overrideKey e
  have hMapMem : (h, ip) ∈ hostnameMap := mapFind_mem hMap
  have hUrfl : (computeUnboundChangeSets options hostnameMap
      existing).1.toUpdate =
    (processHostnames
      (classifyOverrides existing options.entryDescription
        options.legacyDescriptions).1
      (classifyOverrides existing options.entryDescription
        options.legacyDescriptions).2
      options.entryDescription hostnameMap).2.1 := rfl
  have hDrfl : (computeUnboundChangeSets options hostnameMap
      existing).1.toUpdateDesc =
    (processHostnames
      (classifyOverrides existing options.entryDescription
        options.legacyDescriptions).1
      (classifyOverrides existing options.entryDescription
        options.legacyDescriptions).2
      options.entryDescription hostnameMap).2.2 := rfl
  have hSrfl : (computeUnboundChangeSets options hostnameMap
      existing).2.1 =
    (classifyOverrides existing options.entryDescription
      options.legacyDescriptions).1 := rfl
  rw [hSrfl] at hSync
  have hnotD : e.server ≠ ip → h ∉ (computeUnboundChangeSets options
      hostnameMap existing).1.toUpdateDesc := by
    intro hne hinD
    rw [hDrfl] at hinD
    obtain ⟨ip', hm', _, ovr', hS', heq', _⟩ := mem_toUpdateDesc hinD
    have hovr : ovr' = e := Option.some_inj.1 (hS'.symm.trans hSync)
    have hip : ip = ip' := mem_pairs_unique hNodup hMapMem hm'
    exact hne (by rw [← hovr, heq', ← hip])
  have hnotU : e.server = ip → h ∉ (computeUnboundChangeSets options
      hostnameMap existing).1.toUpdate := by
    intro heq hinU
    rw [hUrfl] at hinU
    obtain ⟨ip', hm', _, ovr', hS', hne'⟩ := mem_toUpdate hinU
    have hovr : ovr' = e := Option.some_inj.1 (hS'.symm.trans hSync)
    have hip : ip = ip' := mem_pairs_unique hNodup hMapMem hm'
    exact hne' (by rw [hovr, heq, hip])
  refine ⟨fun hne => ⟨?_, hnotD hne⟩, fun hcond => ⟨?_, hnotU hcond.1⟩, ?_⟩
  · rw [hUrfl]
    exact toUpdate_of_conds hMapMem hdot hSync hne
  · rw [hDrfl]
    exact toUpdateDesc_of_conds hMapMem hdot hSync hcond.1 hcond.2
  · rintro ⟨hinU, hinD⟩
    by_cases heq : e.server = ip
    · exact hnotU heq hinU
    · exact hnotD heq hinD

/-- Concrete options for the C6 witness run. -/
def optW6 : CaddySyncOptions := { entryDescription := str r"managed" }

/-- Concrete hostname mapping for the C6 witness run. -/
def mapW6 : GoMap Str := [(str r"svc.example.com", str r"10.0.0.5")]

/-- Concrete existing override for the C6 witness run: owned, stale IP. -/
def ovrW6 : DNSOverride :=
  { host := str r"svc", domain := str r"example.com",
    server := str r"10.0.0.9", description := str r"managed" }

/-- Witness for C6: a concrete owned entry with a stale value is queued
for update and not for description update. -/
theorem updateWinsOverDescUpdate_witness :
    str r"svc.example.com" ∈
      (computeUnboundChangeSets optW6 mapW6 [ovrW6]).1.toUpdate ∧
    str r"svc.example.com" ∉
      (computeUnboundChangeSets optW6 mapW6 [ovrW6]).1.toUpdateDesc :=
  (updateWinsOverDescUpdate optW6 mapW6 [ovrW6]
    (str r"svc.example.com") ovrW6 (str r"10.0.0.5")
    (by decide) (by decide) (by decide)).1 (by decide)

/-- **C4**: an existing entry whose description matches neither the
current nor any legacy description is never itself placed in any change
set: its key is never in `toAdd`; whenever its key occurs in `toUpdate`,
`toUpdateDesc` or `toRemove`, the entry designated by that key (the
sync-created map's binding, which is what the apply phase mutates) is a
distinct, tool-owned entry; and when no owned entry shares its key, its
key is in none of the four change sets
(`syncCaddyWithUnboundInternal`, sync_exec.go lines 1003–1048;
the same logic appears in cmd/cloudflare-sync.go lines 104–126). -/
theorem foreignEntryNeverQueued
    (options : CaddySyncOptions) (hostnameMap : GoMap Str)
    (existing : List DNSOverride) (e : DNSOverride)
    (hmem : e ∈ existing)
    (hforeign : descOwned e.description options.entryDescription
      options.legacyDescriptions = false) :
    overrideKey e ∉
      (computeUnboundChangeSets options hostnameMap existing).1.toAdd ∧
    ((overrideKey e ∈ (computeUnboundChangeSets options hostnameMap
        existing).1.toUpdate ∨
      overrideKey e ∈ (computeUnboundChangeSets options hostnameMap
        existing).1.toUpdateDesc ∨
      overrideKey e ∈ (computeUnboundChangeSets options hostnameMap
        existing).1.toRemove) →
      ∃ e', mapFind (computeUnboundChangeSets options hostnameMap
          existing).2.1 (overrideKey e) = some e' ∧
        descOwned e'.description options.entryDescription
          options.legacyDescriptions = true ∧ e' ≠ e) ∧
    ((∀ e' ∈ existing, overrideKey e' = overrideKey e →
        descOwned e'.description options.entryDescription
          options.legacyDescriptions = false) →
      overrideKey e ∉ (computeUnboundChangeSets options hostnameMap
        existing).1.toUpdate ∧
      overrideKey e ∉ (computeUnboundChangeSets options hostnameMap
        existing).1.toUpdateDesc ∧
      overrideKey e ∉ (computeUnboundChangeSets options hostnameMap
        existing).1.toRemove) := by
  set k := overrideKey e with hk
  have hArfl : (computeUnboundChangeSets options hostnameMap
      existing).1.toAdd =
    (processHostnames
      (classifyOverrides existing options.entryDescription
        options.legacyDescriptions).1
      (classifyOverrides existing options.entryDescription
        options.legacyDescriptions).2
      options.entryDescription hostnameMap).1 := rfl
  have hUrfl : (computeUnboundChangeSets options hostnameMap
      existing).1.toUpdate =
    (processHostnames
      (classifyOverrides existing options.entryDescription
        options.legacyDescriptions).1
      (classifyOverrides existing options.entryDescription
        options.legacyDescriptions).2
      options.entryDescription hostnameMap).2.1 := rfl
  have hDrfl : (computeUnboundChangeSets options hostnameMap
      existing).1.toUpdateDesc =
    (processHostnames
      (classifyOverrides existing options.entryDescription
        options.legacyDescriptions).1
      (classifyOverrides existing options.entryDescription
        options.legacyDescriptions).2
      options.entryDescription hostnameMap).2.2 := rfl
  have hRrfl : (computeUnboundChangeSets options hostnameMap
      existing).1.toRemove =
    findToRemove hostnameMap
      (classifyOverrides existing options.entryDescription
        options.legacyDescriptions).1 := rfl
  have hSrfl : (computeUnboundChangeSets options hostnameMap
      existing).2.1 =
    (classifyOverrides existing options.entryDescription
      options.legacyDescriptions).1 := rfl
  have hOther : (mapFind (classifyOverrides existing
      options.entryDescription options.legacyDescriptions).2 k).isSome :=
    classifyLoop_other_isSome _ hmem hforeign
  have hSyncNodup : (mapKeys (classifyOverrides existing
      options.entryDescription options.legacyDescriptions).1).Nodup :=
    classifyLoop_sync_keysNodup _ (by simp [mapKeys])
  refine ⟨?_, ?_, ?_⟩
  · intro hinA
    rw [hArfl] at hinA
    obtain ⟨_, _, _, hO⟩ := mem_toAdd hinA
    rw [hO] at hOther
    simp at hOther
  · intro hin
    have hfound : ∃ e', mapFind (classifyOverrides existing
        options.entryDescription options.legacyDescriptions).1 k =
          some e' := by
      rcases hin with hin | hin | hin
      · rw [hUrfl] at hin
        obtain ⟨_, _, _, ovr', hS', _⟩ := mem_toUpdate hin
        exact ⟨ovr', hS'⟩
      · rw [hDrfl] at hin
        obtain ⟨_, _, _, ovr', hS', _⟩ := mem_toUpdateDesc hin
        exact ⟨ovr', hS'⟩
      · rw [hRrfl] at hin
        obtain ⟨⟨v, hv⟩, _⟩ := mem_findToRemove.1 hin
        exact ⟨v, mapFind_eq_of_mem_nodup hSyncNodup hv⟩
    obtain ⟨e', hS'⟩ := hfound
    have hmem' : (k, e') ∈ (classifyOverrides existing
        options.entryDescription options.legacyDescriptions).1 :=
      mapFind_mem hS'
    rcases classifyLoop_sync_mem hmem' with habs | ⟨_, _, hown'⟩
    · simp at habs
    · refine ⟨e', by rw [hSrfl]; exact hS', hown', fun heq => ?_⟩
      rw [heq] at hown'
      rw [hforeign] at hown'
      exact Bool.false_ne_true hown'
  · intro hall
    have hnone : mapFind (classifyOverrides existing
        options.entryDescription options.legacyDescriptions).1 k =
          none := by
      cases hfind : mapFind (classifyOverrides existing
          options.entryDescription options.legacyDescriptions).1 k with
      | none => rfl
      | some e' =>
          exfalso
          have hmem' := mapFind_mem hfind
          rcases classifyLoop_sync_mem hmem' with habs | ⟨hmemE', hkey', hown'⟩
          · simp at habs
          · have := hall e' hmemE' hkey'.symm
            rw [this] at hown'
            exact Bool.false_ne_true hown'
    refine ⟨?_, ?_, ?_⟩
    · intro hin
      rw [hUrfl] at hin
      obtain ⟨_, _, _, ovr', hS', _⟩ := mem_toUpdate hin
      rw [hnone] at hS'
      exact Option.noConfusion hS'
    · intro hin
      rw [hDrfl] at hin
      obtain ⟨_, _, _, ovr', hS', _⟩ := mem_toUpdateDesc hin
      rw [hnone] at hS'
      exact Option.noConfusion hS'
    · intro hin
      rw [hRrfl] at hin
      obtain ⟨⟨v, hv⟩, _⟩ := mem_findToRemove.1 hin
      have := mapFind_isSome_of_mem hv
      rw [hnone] at this
      simp at this

/-- Concrete foreign override for the C4 witness run: its hostname
collides with a mapping key but its description is not tool-owned. -/
def ovrW4 : DNSOverride :=
  { host := str r"svc", domain := str r"example.com",
    server := str r"10.0.0.7", description := str r"hand made" }

/-- Witness for C4: the concrete foreign entry is in none of the four
change sets even though its hostname collides with a mapping key. -/
theorem foreignEntryNeverQueued_witness :
    overrideKey ovrW4 ∉
      (computeUnboundChangeSets optW6 mapW6 [ovrW4]).1.toUpdate ∧
    overrideKey ovrW4 ∉
      (computeUnboundChangeSets optW6 mapW6 [ovrW4]).1.toUpdateDesc ∧
    overrideKey ovrW4 ∉
      (computeUnboundChangeSets optW6 mapW6 [ovrW4]).1.toRemove :=
  (foreignEntryNeverQueued optW6 mapW6 [ovrW4] ovrW4
    (by decide) (by decide)).2.2 (by decide)

/-- **C10**: every hostname placed in `toAdd` contains at least one dot
(the diff engine's fully-qualified-name filter, sync_exec.go lines
1016–1019), so `strings.SplitN(hostname, ".", 2)` in the apply path
(cloudflare.go lines 160–162) and render path (sync_exec.go lines 70–74)
yields exactly two parts and the `parts[1]` access is in bounds. -/
theorem toAddSplitsInTwo
    (options : CaddySyncOptions) (hostnameMap : GoMap Str)
    (existing : List DNSOverride) (h : Str)
    (hmem : h ∈
      (computeUnboundChangeSets options hostnameMap existing).1.toAdd) :
    containsDot h = true ∧ (goSplitN2 h).length = 2 := by
  have hArfl : (computeUnboundChangeSets options hostnameMap
      existing).1.toAdd =
    (processHostnames
      (classifyOverrides existing options.entryDescription
        options.legacyDescriptions).1
      (classifyOverrides existing options.entryDescription
        options.legacyDescriptions).2
      options.entryDescription hostnameMap).1 := rfl
  rw [hArfl] at hmem
  obtain ⟨_, hdot, _, _⟩ := mem_toAdd hmem
  exact ⟨hdot, goSplitN2_length hdot⟩

/-- Witness for C10: the concrete add-queued hostname splits into
exactly two parts. -/
theorem toAddSplitsInTwo_witness :
    containsDot (str r"svc.example.com") = true ∧
      (goSplitN2 (str r"svc.example.com")).length = 2 :=
  toAddSplitsInTwo optW6 mapW6 [] (str r"svc.example.com") (by decide)

/-! ### The Caddy configuration tree and hostname extractor
(internal/api/caddy.go). Go's untyped `interface{}` tree is modeled as a
JSON-like inductive; a failed Go type assertion corresponds to a
non-matching constructor. -/

/-- A JSON-like value: the Go `interface{}` configuration tree. -/
inductive JVal where
  | jnull
  | jbool (b : Bool)
  | jnum (n : Int)
  | jstr (s : Str)
  | jarr (elems : List JVal)
  | jobj (fields : List (Str × JVal))

/-- Lookup of a key in a JSON object's field list (Go map indexing;
JSON object keys are unique). -/
def jGet : List (Str × JVal) → Str → Option JVal
  | [], _ => none
  | (k, v) :: rest, key => if k = key then some v else jGet rest key

/-- `containsString` (caddy.go): whether a string is in the slice. -/
def containsString (slice : List Str) (s : Str) : Bool :=
  slice.any (fun x => x = s)

/-- The `for _, host := range hosts` loop of `extractHostsFromMatch`
(caddy.go lines 133–156): skip non-strings and wildcard (`*.`) patterns;
for a pattern with a colon, de-duplicate and append the part before the
colon; otherwise de-duplicate and append the pattern itself. -/
def hostLoop (hostnames : List Str) : List JVal → List Str
  | [] => hostnames
  | h :: rest =>
      match h with
      | JVal.jstr hostStr =>
          if startsWithStarDot hostStr then hostLoop hostnames rest
          else if containsColon hostStr then
            let hostBase := colonHead hostStr
            if containsString hostnames hostBase then hostLoop hostnames rest
            else hostLoop (hostnames ++ [hostBase]) rest
          else
            if containsString hostnames hostStr then hostLoop hostnames rest
            else hostLoop (hostnames ++ [hostStr]) rest
      | _ => hostLoop hostnames rest

/-- The `for _, matchCondition := range matchList` loop of
`extractHostsFromMatch` (caddy.go lines 126–158): for each object
condition carrying a "host" array, run the host loop. -/
def matchCondLoop (hostnames : List Str) : List JVal → List Str
  | [] => hostnames
  | c :: rest =>
      match c with
      | JVal.jobj fields =>
          match jGet fields (str r"host") with
          | some (JVal.jarr hosts) =>
              matchCondLoop (hostLoop hostnames hosts) rest
          | _ => matchCondLoop hostnames rest
      | _ => matchCondLoop hostnames rest

/-- `extractHostsFromMatch` (caddy.go lines 120–159): a failed type
assertion on the match value returns the accumulator unchanged. -/
def extractHostsFromMatch (matchVal : Option JVal)
    (hostnames : List Str) : List Str :=
  match matchVal with
  | some (JVal.jarr matchList) => matchCondLoop hostnames matchList
  | _ => hostnames

theorem jGet_sizeOf_lt {fields : List (Str × JVal)} {k : Str} {v : JVal}
    (h : jGet fields k = some v) : sizeOf v < sizeOf (JVal.jobj fields) := by
  induction fields with
  | nil => simp [jGet] at h
  | cons hd tl ih =>
      cases hd with
      | mk k0 v0 =>
          by_cases h0 : k0 = k
          · simp only [jGet, h0, if_true] at h
            have hv : v = v0 := (Option.some_inj.1 h).symm
            subst hv
            simp
            omega
          · simp only [jGet, h0, if_false] at h
            have := ih h
            simp at this ⊢
            omega

mutual

/-- `processRoutes` (caddy.go lines 86–117): extract hosts from each
route's match conditions and recurse into subroute handlers. -/
def processRoutes : List JVal → List Str → List Str
  | [], hostnames => hostnames
  | r :: rs, hostnames => processRoutes rs (processRoute r hostnames)
termination_by l _ => sizeOf l
decreasing_by
  all_goals (simp <;> omega)

/-- One iteration of the `processRoutes` loop body: skip non-objects,
extract hosts from the route's match, then walk its handle list. -/
def processRoute : JVal → List Str → List Str
  | JVal.jobj fields, hostnames =>
      let h1 := extractHostsFromMatch (jGet fields (str r"match")) hostnames
      match hh : jGet fields (str r"handle") with
      | some (JVal.jarr handlers) => processHandlers handlers h1
      | _ => h1
  | _, hostnames => hostnames
termination_by v _ => sizeOf v
decreasing_by
  · have := jGet_sizeOf_lt hh
    simp at this ⊢
    omega

/-- The `for _, handler := range handle` loop of `processRoutes`. -/
def processHandlers : List JVal → List Str → List Str
  | [], hostnames => hostnames
  | hv :: rest, hostnames => processHandlers rest (processHandler hv hostnames)
termination_by l _ => sizeOf l
decreasing_by
  all_goals (simp <;> omega)

/-- One handler: recurse into its "routes" when it is a subroute. -/
def processHandler : JVal → List Str → List Str
  | JVal.jobj fields, hostnames =>
      match jGet fields (str r"handler") with
      | some (JVal.jstr t) =>
          if t = str r"subroute" then
            match hr : jGet fields (str r"routes") with
            | some (JVal.jarr subroutes) => processRoutes subroutes hostnames
            | _ => hostnames
          else hostnames
      | _ => hostnames
  | _, hostnames => hostnames
termination_by v _ => sizeOf v
decreasing_by
  · have := jGet_sizeOf_lt hr
    simp at this ⊢
    omega

end

/-- The per-server loop of `ExtractHostnames` (caddy.go lines 67–80):
skip non-object servers and servers without a "routes" array. -/
def serversLoop : List (Str × JVal) → List Str → List Str
  | [], hostnames => hostnames
  | (_, server) :: rest, hostnames =>
      match server with
      | JVal.jobj serverObj =>
          match jGet serverObj (str r"routes") with
          | some (JVal.jarr routes) =>
              serversLoop rest (processRoutes routes hostnames)
          | _ => serversLoop rest hostnames
      | _ => serversLoop rest hostnames

/-- `ExtractHostnames` (caddy.go lines 47–83): descend through
"apps" / "http" / "servers" (a missing or mistyped section is a hard
error) and collect hostnames from every server's routes. -/
def extractHostnames (config : List (Str × JVal)) :
    Except Str (List Str) :=
  match jGet config (str r"apps") with
  | some (JVal.jobj apps) =>
      match jGet apps (str r"http") with
      | some (JVal.jobj httpSec) =>
          match jGet httpSec (str r"servers") with
          | some (JVal.jobj servers) => Except.ok (serversLoop servers [])
          | _ => Except.error (str r"servers section not found in Caddy config")
      | _ => Except.error (str r"http section not found in Caddy config")
  | _ => Except.error (str r"apps section not found in Caddy config")

/-- The map-building loop of `GetHostnameMap` (caddy.go lines 184–188):
every extracted hostname maps to the Caddy server IP. -/
def buildHostnameMap (hostnames : List Str) (serverIP : Str) : GoMap Str :=
  hostnames.foldl (fun acc h => mapInsert acc h serverIP) []

/-- `GetHostnameMap` (caddy.go lines 173–191), with the HTTP fetch
replaced by the already-decoded configuration tree. -/
def getHostnameMap (config : List (Str × JVal)) (serverIP : Str) :
    Except Str (GoMap Str) :=
  match extractHostnames config with
  | Except.error e => Except.error e
  | Except.ok hostnames => Except.ok (buildHostnameMap hostnames serverIP)

/-! ### Invariants of the hostname extractor -/

theorem startsWithStarDot_colonHead {s : Str}
    (h : startsWithStarDot s = false) :
    startsWithStarDot (colonHead s) = false := by
  cases s with
  | nil => rfl
  | cons c cs =>
      by_cases hc : c = ':'
      · simp [colonHead, hc, startsWithStarDot]
      · simp only [colonHead, hc, if_false]
        cases cs with
        | nil => simp [colonHead, startsWithStarDot]
        | cons c2 cs2 =>
            by_cases hc2 : c2 = ':'
            · simp [colonHead, hc2, startsWithStarDot]
            · simp only [colonHead, hc2, if_false]
              simp only [startsWithStarDot] at h ⊢
              exact h

/-- One iteration of the host loop, as a function of the accumulator
(proof-layer helper). -/
def hostStep (hostnames : List Str) (h : JVal) : List Str :=
  match h with
  | JVal.jstr hostStr =>
      if startsWithStarDot hostStr then hostnames
      else if containsColon hostStr then
        if containsString hostnames (colonHead hostStr) then hostnames
        else hostnames ++ [colonHead hostStr]
      else
        if containsString hostnames hostStr then hostnames
        else hostnames ++ [hostStr]
  | _ => hostnames

theorem hostLoop_cons (hostnames : List Str) (h : JVal) (rest : List JVal) :
    hostLoop hostnames (h :: rest) = hostLoop (hostStep hostnames h) rest := by
  cases h <;> simp only [hostLoop, hostStep] <;> split_ifs <;> rfl

theorem mem_hostStep {hostnames : List Str} {h : JVal} {s : Str}
    (hs : s ∈ hostStep hostnames h) :
    s ∈ hostnames ∨ startsWithStarDot s = false := by
  cases h with
  | jstr hostStr =>
      by_cases hw : startsWithStarDot hostStr = true
      · simp only [hostStep, hw, if_true] at hs
        exact Or.inl hs
      · have hw' : startsWithStarDot hostStr = false :=
          eq_false_of_ne_true hw
        by_cases hcol : containsColon hostStr = true
        · by_cases hmem : containsString hostnames (colonHead hostStr) = true
          · simp only [hostStep, hw', Bool.false_eq_true, if_false, hcol,
              if_true, hmem] at hs
            exact Or.inl hs
          · simp only [hostStep, hw', Bool.false_eq_true, if_false, hcol,
              if_true, eq_false_of_ne_true hmem] at hs
            rcases List.mem_append.1 hs with hs' | hs'
            · exact Or.inl hs'
            · have : s = colonHead hostStr := List.mem_singleton.1 hs'
              subst this
              exact Or.inr (startsWithStarDot_colonHead hw')
        · by_cases hmem : containsString hostnames hostStr = true
          · simp only [hostStep, hw', Bool.false_eq_true, if_false,
              eq_false_of_ne_true hcol, hmem, if_true] at hs
            exact Or.inl hs
          · simp only [hostStep, hw', Bool.false_eq_true, if_false,
              eq_false_of_ne_true hcol, eq_false_of_ne_true hmem] at hs
            rcases List.mem_append.1 hs with hs' | hs'
            · exact Or.inl hs'
            · have : s = hostStr := List.mem_singleton.1 hs'
              subst this
              exact Or.inr hw'
  | jnull => exact Or.inl hs
  | jbool b => exact Or.inl hs
  | jnum n => exact Or.inl hs
  | jarr elems => exact Or.inl hs
  | jobj fields => exact Or.inl hs

theorem hostStep_sub {hostnames : List Str} {h : JVal} {s : Str}
    (hs : s ∈ hostnames) : s ∈ hostStep hostnames h := by
  cases h with
  | jstr hostStr =>
      simp only [hostStep]
      split_ifs <;> first | exact hs | exact List.mem_append.2 (Or.inl hs)
  | jnull => exact hs
  | jbool b => exact hs
  | jnum n => exact hs
  | jarr elems => exact hs
  | jobj fields => exact hs

theorem hostLoop_sub {s : Str} :
    ∀ (hosts : List JVal) (hostnames : List Str),
      s ∈ hostnames → s ∈ hostLoop hostnames hosts := by
  intro hosts
  induction hosts with
  | nil => intro hostnames hs; exact hs
  | cons h rest ih =>
      intro hostnames hs
      rw [hostLoop_cons]
      exact ih _ (hostStep_sub hs)

theorem mem_hostLoop {s : Str} :
    ∀ (hosts : List JVal) (hostnames : List Str),
      s ∈ hostLoop hostnames hosts →
        s ∈ hostnames ∨ startsWithStarDot s = false := by
  intro hosts
  induction hosts with
  | nil => intro hostnames hs; exact Or.inl hs
  | cons h rest ih =>
      intro hostnames hs
      rw [hostLoop_cons] at hs
      rcases ih _ hs with h' | h'
      · exact mem_hostStep h'
      · exact Or.inr h'

theorem colonHead_mem_hostLoop {p : Str}
    (hw : startsWithStarDot p = false) (hcol : containsColon p = true) :
    ∀ (hosts : List JVal) (hostnames : List Str),
      JVal.jstr p ∈ hosts → colonHead p ∈ hostLoop hostnames hosts := by
  intro hosts
  induction hosts with
  | nil => intro hostnames hp; simp at hp
  | cons h rest ih =>
      intro hostnames hp
      rw [hostLoop_cons]
      rcases List.mem_cons.1 hp with hp' | hp'
      · subst hp'
        apply hostLoop_sub
        simp only [hostStep, hw, Bool.false_eq_true, if_false, hcol, if_true]
        by_cases hmem : containsString hostnames (colonHead p) = true
        · simp only [hmem, if_true]
          simp only [containsString, List.any_eq_true,
            decide_eq_true_eq] at hmem
          obtain ⟨x, hx, hxe⟩ := hmem
          exact hxe ▸ hx
        · simp only [eq_false_of_ne_true hmem, Bool.false_eq_true, if_false]
          exact List.mem_append.2 (Or.inr (List.mem_singleton.2 rfl))
      · exact ih _ hp'

/-- One iteration of the match-condition loop (proof-layer helper). -/
def condStep (hostnames : List Str) (c : JVal) : List Str :=
  match c with
  | JVal.jobj fields =>
      match jGet fields (str r"host") with
      | some (JVal.jarr hosts) => hostLoop hostnames hosts
      | _ => hostnames
  | _ => hostnames

theorem matchCondLoop_cons (hostnames : List Str) (c : JVal)
    (rest : List JVal) :
    matchCondLoop hostnames (c :: rest) =
      matchCondLoop (condStep hostnames c) rest := by
  cases c with
  | jobj fields =>
      simp only [matchCondLoop, condStep]
      cases jGet fields (str r"host") with
      | none => rfl
      | some v => cases v <;> rfl
  | jnull => rfl
  | jbool b => rfl
  | jnum n => rfl
  | jstr s => rfl
  | jarr elems => rfl

theorem mem_condStep {hostnames : List Str} {c : JVal} {s : Str}
    (hs : s ∈ condStep hostnames c) :
    s ∈ hostnames ∨ startsWithStarDot s = false := by
  cases c with
  | jobj fields =>
      simp only [condStep] at hs
      cases hv : jGet fields (str r"host") with
      | none => rw [hv] at hs; exact Or.inl hs
      | some v =>
          rw [hv] at hs
          cases v with
          | jarr hosts => exact mem_hostLoop hosts _ hs
          | jnull => exact Or.inl hs
          | jbool b => exact Or.inl hs
          | jnum n => exact Or.inl hs
          | jstr s0 => exact Or.inl hs
          | jobj f0 => exact Or.inl hs
  | jnull => exact Or.inl hs
  | jbool b => exact Or.inl hs
  | jnum n => exact Or.inl hs
  | jstr s0 => exact Or.inl hs
  | jarr elems => exact Or.inl hs

theorem condStep_sub {hostnames : List Str} {c : JVal} {s : Str}
    (hs : s ∈ hostnames) : s ∈ condStep hostnames c := by
  cases c with
  | jobj fields =>
      simp only [condStep]
      cases jGet fields (str r"host") with
      | none => exact hs
      | some v =>
          cases v with
          | jarr hosts => exact hostLoop_sub hosts _ hs
          | jnull => exact hs
          | jbool b => exact hs
          | jnum n => exact hs
          | jstr s0 => exact hs
          | jobj f0 => exact hs
  | jnull => exact hs
  | jbool b => exact hs
  | jnum n => exact hs
  | jstr s0 => exact hs
  | jarr elems => exact hs

theorem mem_matchCondLoop {s : Str} :
    ∀ (conds : List JVal) (hostnames : List Str),
      s ∈ matchCondLoop hostnames conds →
        s ∈ hostnames ∨ startsWithStarDot s = false := by
  intro conds
  induction conds with
  | nil => intro hostnames hs; exact Or.inl hs
  | cons c rest ih =>
      intro hostnames hs
      rw [matchCondLoop_cons] at hs
      rcases ih _ hs with h' | h'
      · exact mem_condStep h'
      · exact Or.inr h'

theorem matchCondLoop_sub {s : Str} :
    ∀ (conds : List JVal) (hostnames : List Str),
      s ∈ hostnames → s ∈ matchCondLoop hostnames conds := by
  intro conds
  induction conds with
  | nil => intro hostnames hs; exact hs
  | cons c rest ih =>
      intro hostnames hs
      rw [matchCondLoop_cons]
      exact ih _ (condStep_sub hs)

theorem mem_extractHostsFromMatch {matchVal : Option JVal}
    {hostnames : List Str} {s : Str}
    (hs : s ∈ extractHostsFromMatch matchVal hostnames) :
    s ∈ hostnames ∨ startsWithStarDot s = false := by
  cases matchVal with
  | none => exact Or.inl hs
  | some v =>
      cases v with
      | jarr conds => exact mem_matchCondLoop conds _ hs
      | jnull => exact Or.inl hs
      | jbool b => exact Or.inl hs
      | jnum n => exact Or.inl hs
      | jstr s0 => exact Or.inl hs
      | jobj f0 => exact Or.inl hs

mutual

theorem mem_processRoutes : ∀ (l : List JVal) (acc : List Str) (s : Str),
    s ∈ processRoutes l acc → s ∈ acc ∨ startsWithStarDot s = false
  | [], acc, s, h => by
      simp only [processRoutes] at h
      exact Or.inl h
  | r :: rs, acc, s, h => by
      simp only [processRoutes] at h
      rcases mem_processRoutes rs (processRoute r acc) s h with h' | h'
      · exact mem_processRoute r acc s h'
      · exact Or.inr h'
termination_by l _ _ _ => sizeOf l
decreasing_by
  all_goals (simp <;> omega)

theorem mem_processRoute : ∀ (v : JVal) (acc : List Str) (s : Str),
    s ∈ processRoute v acc → s ∈ acc ∨ startsWithStarDot s = false
  | JVal.jobj fields, acc, s, h => by
      simp only [processRoute] at h
      split at h
      · rename_i handlers hh
        rcases mem_processHandlers handlers _ s h with h' | h'
        · exact mem_extractHostsFromMatch h'
        · exact Or.inr h'
      · exact mem_extractHostsFromMatch h
  | JVal.jnull, acc, s, h => by
      simp only [processRoute] at h
      exact Or.inl h
  | JVal.jbool b, acc, s, h => by
      simp only [processRoute] at h
      exact Or.inl h
  | JVal.jnum n, acc, s, h => by
      simp only [processRoute] at h
      exact Or.inl h
  | JVal.jstr s0, acc, s, h => by
      simp only [processRoute] at h
      exact Or.inl h
  | JVal.jarr elems, acc, s, h => by
      simp only [processRoute] at h
      exact Or.inl h
termination_by v _ _ _ => sizeOf v
decreasing_by
  · rename_i handlers hh
    have := jGet_sizeOf_lt hh
    simp at this ⊢
    omega

theorem mem_processHandlers : ∀ (l : List JVal) (acc : List Str) (s : Str),
    s ∈ processHandlers l acc → s ∈ acc ∨ startsWithStarDot s = false
  | [], acc, s, h => by
      simp only [processHandlers] at h
      exact Or.inl h
  | hv :: rest, acc, s, h => by
      simp only [processHandlers] at h
      rcases mem_processHandlers rest (processHandler hv acc) s h with h' | h'
      · exact mem_processHandler hv acc s h'
      · exact Or.inr h'
termination_by l _ _ _ => sizeOf l
decreasing_by
  all_goals (simp <;> omega)

theorem mem_processHandler : ∀ (v : JVal) (acc : List Str) (s : Str),
    s ∈ processHandler v acc → s ∈ acc ∨ startsWithStarDot s = false
  | JVal.jobj fields, acc, s, h => by
      simp only [processHandler] at h
      split at h
      · split at h
        · split at h
          · rename_i t hsub hrv subroutes hr
            exact mem_processRoutes subroutes acc s h
          · exact Or.inl h
        · exact Or.inl h
      · exact Or.inl h
  | JVal.jnull, acc, s, h => by
      simp only [processHandler] at h
      exact Or.inl h
  | JVal.jbool b, acc, s, h => by
      simp only [processHandler] at h
      exact Or.inl h
  | JVal.jnum n, acc, s, h => by
      simp only [processHandler] at h
      exact Or.inl h
  | JVal.jstr s0, acc, s, h => by
      simp only [processHandler] at h
      exact Or.inl h
  | JVal.jarr elems, acc, s, h => by
      simp only [processHandler] at h
      exact Or.inl h
termination_by v _ _ _ => sizeOf v
decreasing_by
  · rename_i subroutes hr
    have := jGet_sizeOf_lt hr
    simp at this ⊢
    omega

end

theorem mem_serversLoop {s : Str} :
    ∀ (servers : List (Str × JVal)) (acc : List Str),
      s ∈ serversLoop servers acc →
        s ∈ acc ∨ startsWithStarDot s = false := by
  intro servers
  induction servers with
  | nil => intro acc h; exact Or.inl h
  | cons hd rest ih =>
      intro acc h
      cases hd with
      | mk name server =>
          cases server with
          | jobj serverObj =>
              simp only [serversLoop] at h
              cases hrt : jGet serverObj (str r"routes") with
              | none =>
                  rw [hrt] at h
                  exact ih _ h
              | some rv =>
                  rw [hrt] at h
                  cases rv with
                  | jarr routes =>
                      rcases ih _ h with h' | h'
                      · exact mem_processRoutes routes acc s h'
                      · exact Or.inr h'
                  | jnull => exact ih _ h
                  | jbool b => exact ih _ h
                  | jnum n => exact ih _ h
                  | jstr s0 => exact ih _ h
                  | jobj f0 => exact ih _ h
          | jnull => exact ih _ h
          | jbool b => exact ih _ h
          | jnum n => exact ih _ h
          | jstr s0 => exact ih _ h
          | jarr elems => exact ih _ h

theorem mem_mapKeys_buildHostnameMap_aux {serverIP k : Str} :
    ∀ (hostnames : List Str) (acc : GoMap Str),
      k ∈ mapKeys (hostnames.foldl
        (fun m h => mapInsert m h serverIP) acc) →
      k ∈ mapKeys acc ∨ k ∈ hostnames := by
  intro hostnames
  induction hostnames with
  | nil => intro acc h; exact Or.inl h
  | cons h0 rest ih =>
      intro acc h
      simp only [List.foldl_cons] at h
      rcases ih _ h with h' | h'
      · rcases mem_mapKeys_insert h' with h'' | h''
        · exact Or.inl h''
        · exact Or.inr (h'' ▸ List.mem_cons_self _ _)
      · exact Or.inr (List.mem_cons_of_mem _ h')

theorem mem_mapKeys_buildHostnameMap {hostnames : List Str}
    {serverIP k : Str} (h : k ∈ mapKeys (buildHostnameMap hostnames serverIP)) :
    k ∈ hostnames := by
  rcases mem_mapKeys_buildHostnameMap_aux hostnames [] h with h' | h'
  · simp [mapKeys] at h'
  · exact h'

theorem colonHead_mem_matchCondLoop {p : Str}
    (hw : startsWithStarDot p = false) (hcol : containsColon p = true) :
    ∀ (conds : List JVal) (acc : List Str) (fields : List (Str × JVal))
      (hosts : List JVal),
      JVal.jobj fields ∈ conds →
      jGet fields (str r"host") = some (JVal.jarr hosts) →
      JVal.jstr p ∈ hosts →
      colonHead p ∈ matchCondLoop acc conds := by
  intro conds
  induction conds with
  | nil => intro acc fields hosts hc _ _; simp at hc
  | cons c rest ih =>
      intro acc fields hosts hc hhost hp
      rw [matchCondLoop_cons]
      rcases List.mem_cons.1 hc with hc' | hc'
      · subst hc'
        apply matchCondLoop_sub
        simp only [condStep, hhost]
        exact colonHead_mem_hostLoop hw hcol hosts acc hp
      · exact ih _ fields hosts hc' hhost hp

/-- **C7**: (1) a host pattern beginning with `*.` never appears as a key
of the extracted hostname mapping; (2) a non-wildcard pattern containing
a colon is included with the part after the colon stripped
(de-duplicated, first occurrence winning); (3) a hostname containing no
dot is never placed in any of the four change sets by the diff engine
(`extractHostsFromMatch` caddy.go lines 120–159;
`syncCaddyWithUnboundInternal` sync_exec.go lines 1016–1019). -/
theorem wildcardPortBareHostFiltering :
    (∀ (config : List (Str × JVal)) (serverIP : Str)
       (hostnames : List Str),
       extractHostnames config = Except.ok hostnames →
       ∀ k, k ∈ mapKeys (buildHostnameMap hostnames serverIP) →
         startsWithStarDot k = false) ∧
    (∀ (matchList : List JVal) (acc : List Str)
       (fields : List (Str × JVal)) (hosts : List JVal) (p : Str),
       JVal.jobj fields ∈ matchList →
       jGet fields (str r"host") = some (JVal.jarr hosts) →
       JVal.jstr p ∈ hosts →
       startsWithStarDot p = false → containsColon p = true →
       colonHead p ∈ extractHostsFromMatch
         (some (JVal.jarr matchList)) acc) ∧
    (∀ (options : CaddySyncOptions) (hostnameMap : GoMap Str)
       (existing : List DNSOverride) (x : Str),
       (x ∈ (computeUnboundChangeSets options hostnameMap
          existing).1.toAdd ∨
        x ∈ (computeUnboundChangeSets options hostnameMap
          existing).1.toUpdate ∨
        x ∈ (computeUnboundChangeSets options hostnameMap
          existing).1.toUpdateDesc ∨
        x ∈ (computeUnboundChangeSets options hostnameMap
          existing).1.toRemove) →
       containsDot x = true) := by
  refine ⟨?_, ?_, ?_⟩
  · intro config serverIP hostnames hok k hk
    have hmem : k ∈ hostnames := mem_mapKeys_buildHostnameMap hk
    simp only [extractHostnames] at hok
    split at hok
    · split at hok
      · split at hok
        · rename_i servers hsv
          have hhn : hostnames = serversLoop servers [] :=
            (Except.ok.inj hok).symm
          subst hhn
          rcases mem_serversLoop _ _ hmem with h' | h'
          · simp at h'
          · exact h'
        · exact Except.noConfusion hok
      · exact Except.noConfusion hok
    · exact Except.noConfusion hok
  · intro matchList acc fields hosts p hc hhost hp hw hcol
    simp only [extractHostsFromMatch]
    exact colonHead_mem_matchCondLoop hw hcol matchList acc fields hosts
      hc hhost hp
  · intro options hostnameMap existing x hx
    have hArfl : (computeUnboundChangeSets options hostnameMap
        existing).1.toAdd =
      (processHostnames
        (classifyOverrides existing options.entryDescription
          options.legacyDescriptions).1
        (classifyOverrides existing options.entryDescription
          options.legacyDescriptions).2
        options.entryDescription hostnameMap).1 := rfl
    have hUrfl : (computeUnboundChangeSets options hostnameMap
        existing).1.toUpdate =
      (processHostnames
        (classifyOverrides existing options.entryDescription
          options.legacyDescriptions).1
        (classifyOverrides existing options.entryDescription
          options.legacyDescriptions).2
        options.entryDescription hostnameMap).2.1 := rfl
    have hDrfl : (computeUnboundChangeSets options hostnameMap
        existing).1.toUpdateDesc =
      (processHostnames
        (classifyOverrides existing options.entryDescription
          options.legacyDescriptions).1
        (classifyOverrides existing options.entryDescription
          options.legacyDescriptions).2
        options.entryDescription hostnameMap).2.2 := rfl
    have hRrfl : (computeUnboundChangeSets options hostnameMap
        existing).1.toRemove =
      findToRemove hostnameMap
        (classifyOverrides existing options.entryDescription
          options.legacyDescriptions).1 := rfl
    rcases hx with hx | hx | hx | hx
    · rw [hArfl] at hx
      exact (mem_toAdd hx).2.1
    · rw [hUrfl] at hx
      obtain ⟨_, _, hdot, _⟩ := mem_toUpdate hx
      exact hdot
    · rw [hDrfl] at hx
      obtain ⟨_, _, hdot, _⟩ := mem_toUpdateDesc hx
      exact hdot
    · rw [hRrfl] at hx
      obtain ⟨⟨v, hv⟩, _⟩ := mem_findToRemove.1 hx
      have hmem : (x, v) ∈ (classifyOverrides existing
          options.entryDescription options.legacyDescriptions).1 := hv
      rcases classifyLoop_sync_mem hmem with habs | ⟨_, hkey, _⟩
      · simp at habs
      · exact hkey ▸ containsDot_overrideKey v

/-- Concrete host pattern list for the C7 witness: one wildcard pattern
and one pattern carrying a port. -/
def hostsW7 : List JVal :=
  [JVal.jstr (str r"*.example.com"), JVal.jstr (str r"svc.example.com:8080")]

/-- Concrete match condition object for the C7 witness. -/
def condW7 : List (Str × JVal) := [(str r"host", JVal.jarr hostsW7)]

/-- Concrete Caddy configuration tree for the C7 witness. -/
def cfgW7 : List (Str × JVal) :=
  [(str r"apps", JVal.jobj
    [(str r"http", JVal.jobj
      [(str r"servers", JVal.jobj
        [(str r"srv0", JVal.jobj
          [(str r"routes", JVal.jarr
            [JVal.jobj [(str r"match", JVal.jarr [JVal.jobj condW7])]])])])])])]

/-- Witness for C7: on the concrete configuration, the surviving mapping
key is not a wildcard, the port-stripped pattern is extracted, and the
concrete change-set member contains a dot. -/
theorem wildcardPortBareHostFiltering_witness :
    startsWithStarDot (str r"svc.example.com") = false ∧
    colonHead (str r"svc.example.com:8080") ∈
      extractHostsFromMatch (some (JVal.jarr [JVal.jobj condW7])) [] ∧
    containsDot (str r"svc.example.com") = true := by
  refine ⟨?_, ?_, ?_⟩
  · refine wildcardPortBareHostFiltering.1 cfgW7 (str r"10.0.0.2")
      [str r"svc.example.com"] ?_ _ ?_
    · simp +decide [extractHostnames, cfgW7, condW7, hostsW7, jGet,
        serversLoop, processRoutes, processRoute, processHandlers,
        processHandler, extractHostsFromMatch, matchCondLoop, hostLoop,
        startsWithStarDot, containsColon, colonHead, containsString, str]
    · decide
  · refine wildcardPortBareHostFiltering.2.1 [JVal.jobj condW7] []
      condW7 hostsW7 (str r"svc.example.com:8080") ?_ ?_ ?_ ?_ ?_
    · exact List.mem_singleton.2 rfl
    · rfl
    · exact List.mem_cons_of_mem _ (List.mem_singleton.2 rfl)
    · decide
    · decide
  · exact wildcardPortBareHostFiltering.2.2 optW6 mapW6 []
      (str r"svc.example.com") (Or.inl (by decide))

/-! ### Effect model for the HTTP clients.

Each remote call is recorded as an `Event` in a trace (most recent
first) inside an explicit environment `Env` holding the remote systems'
state. `Faults` injects per-call failures and provides the server's
UUID generator; a call whose fault flag is set leaves the remote state
unchanged and returns an error, matching the best-effort semantics the
Go code relies on. -/

/-- One external call made by the tool, with its outcome. -/
inductive Event where
  | fetchCaddy
  | fetchTunnel
  | listOverrides
  | listRewrites
  | addOverride (o : DNSOverride) (ok : Bool)
  | updateOverride (o : DNSOverride) (ok : Bool)
  | deleteOverride (uuid : Str) (ok : Bool)
  | reconfigureUnbound (ok : Bool)
  | addRewrite (domain answer : Str) (ok : Bool)
  | updateRewrite (target update : Rewrite) (ok : Bool)
  | deleteRewrite (domain answer : Str) (ok : Bool)
deriving DecidableEq, Repr

/-- The remote systems' state and the call trace. -/
structure Env where
  overrides : List DNSOverride := []
  rewrites : List Rewrite := []
  uuidSeq : Nat := 0
  trace : List Event := []
deriving DecidableEq, Repr

/-- Injectable failures per remote call, and the server-side UUID
generator for newly created overrides. -/
structure Faults where
  listOverridesFail : Bool := false
  listRewritesFail : Bool := false
  addOverrideFail : DNSOverride → Bool := fun _ => false
  updateOverrideFail : DNSOverride → Bool := fun _ => false
  deleteOverrideFail : Str → Bool := fun _ => false
  reconfigureFail : Bool := false
  addRewriteFail : Str → Str → Bool := fun _ _ => false
  updateRewriteFail : Rewrite → Rewrite → Bool := fun _ _ => false
  deleteRewriteFail : Str → Str → Bool := fun _ _ => false
  uuidGen : Nat → Str := fun _ => []

/-- The fault-free environment behavior. -/
def faultsNone : Faults := {}

/-- Whether an event is a successful create/update/delete mutation
(the reload/reconfigure step is activation, not a mutation). -/
def mutationSucceeded : Event → Bool
  | Event.addOverride _ ok => ok
  | Event.updateOverride _ ok => ok
  | Event.deleteOverride _ ok => ok
  | Event.addRewrite _ _ ok => ok
  | Event.updateRewrite _ _ ok => ok
  | Event.deleteRewrite _ _ ok => ok
  | _ => false

/-! ### AdguardHome client model (internal/api/adguard.go) -/

/-- `AdguardClient.ListRewrites`: return the remote rewrite list. -/
def listRewrites (f : Faults) (env : Env) :
    Env × Except Str (List Rewrite) :=
  let env' := { env with trace := Event.listRewrites :: env.trace }
  if f.listRewritesFail then (env', Except.error (str r"list failed"))
  else (env', Except.ok env.rewrites)

/-- `AdguardClient.AddRewrite`: on success the server appends the
rewrite. -/
def addRewrite (f : Faults) (env : Env) (domain answer : Str) :
    Env × Except Str Unit :=
  if f.addRewriteFail domain answer then
    ({ env with trace := Event.addRewrite domain answer false :: env.trace },
      Except.error (str r"add rewrite failed"))
  else
    ({ env with
        rewrites := env.rewrites ++ [⟨domain, answer⟩],
        trace := Event.addRewrite domain answer true :: env.trace },
      Except.ok ())

/-- `AdguardClient.UpdateRewrite`: on success the server replaces every
rewrite equal to `target` with `update`. -/
def updateRewrite (f : Faults) (env : Env) (target update : Rewrite) :
    Env × Except Str Unit :=
  if f.updateRewriteFail target update then
    ({ env with trace := Event.updateRewrite target update false :: env.trace },
      Except.error (str r"update rewrite failed"))
  else
    ({ env with
        rewrites := env.rewrites.map (fun rw => if rw = target then update else rw),
        trace := Event.updateRewrite target update true :: env.trace },
      Except.ok ())

/-- `AdguardClient.DeleteRewrite`: on success the server removes every
rewrite with the given domain and answer. -/
def deleteRewrite (f : Faults) (env : Env) (domain answer : Str) :
    Env × Except Str Unit :=
  if f.deleteRewriteFail domain answer then
    ({ env with trace := Event.deleteRewrite domain answer false :: env.trace },
      Except.error (str r"delete rewrite failed"))
  else
    ({ env with
        rewrites := env.rewrites.filter
          (fun rw => ¬(rw.domain = domain ∧ rw.answer = answer)),
        trace := Event.deleteRewrite domain answer true :: env.trace },
      Except.ok ())

/-! ### AdguardHome sync (part of the `sync` package) -/

/-- `sync.CaddyAdguardSyncOptions`. -/
structure CaddyAdguardSyncOptions where
  dryRun : Bool := false
  caddyServerIP : Str := []
  caddyServerPort : Int := 0
  entryDescription : Str := []
  legacyDescriptions : List Str := []
  verbose : Bool := false

/-- The rewrite classification loop shared by `SyncCaddyWithAdguard` and
`syncCaddyWithAdguardInternal`, parameterized by the ownership test:
owned rewrites go to the sync-created list and map, all others to the
other list. -/
def classifyRewritesLoop (ownedP : Rewrite → Bool)
    (acc : List Rewrite × List Rewrite × GoMap Rewrite) :
    List Rewrite → List Rewrite × List Rewrite × GoMap Rewrite
  | [] => acc
  | rw :: rest =>
      let acc' :=
        if ownedP rw then
          (acc.1 ++ [rw], acc.2.1, mapInsert acc.2.2 rw.domain rw)
        else
          (acc.1, acc.2.1 ++ [rw], acc.2.2)
      classifyRewritesLoop ownedP acc' rest

/-- The `caddyHostnameSet` of `SyncCaddyWithAdguard` (part_007 lines
338–344): the mapping keys that contain a dot. -/
def buildCaddyHostnameSet (hostnameMap : GoMap Str) : GoMap Bool :=
  hostnameMap.foldl
    (fun acc p => if containsDot p.1 then mapInsert acc p.1 true else acc) []

/-- The rewrite classification of `SyncCaddyWithAdguard` (part_007 lines
346–357): a rewrite is tool-owned iff its answer equals the Caddy server
IP AND its domain is in the just-computed Caddy hostname set. -/
def classifyRewritesStandalone (caddyServerIP : Str)
    (hostnameMap : GoMap Str) (existingRewrites : List Rewrite) :
    List Rewrite × List Rewrite × GoMap Rewrite :=
  classifyRewritesLoop
    (fun rw => rw.answer = caddyServerIP &&
      (mapFind (buildCaddyHostnameSet hostnameMap) rw.domain).getD false)
    ([], [], []) existingRewrites

/-- The rewrite classification of `syncCaddyWithAdguardInternal`
(sync_exec.go lines 1095–1102): a rewrite is tool-owned iff its answer
equals the Caddy server IP (no hostname-set condition). -/
def classifyRewritesInternal (caddyServerIP : Str)
    (existingRewrites : List Rewrite) :
    List Rewrite × List Rewrite × GoMap Rewrite :=
  classifyRewritesLoop (fun rw => rw.answer = caddyServerIP)
    ([], [], []) existingRewrites

/-- The per-hostname diff loop shared by `SyncCaddyWithAdguard`
(part_007 lines 365–417) and `syncCaddyWithAdguardInternal`
(sync_exec.go lines 1104–1134): skip non-FQDN and already-processed
hostnames, mark processed, then classify into to-add / leave-alone /
to-update. Returns (toAdd, toUpdate) in iteration order. -/
def adguardLoop (syncRewriteMap : GoMap Rewrite)
    (otherRewrites : List Rewrite) (addedDomains : GoMap Bool) :
    List (Str × Str) → List Str × List Str
  | [] => ([], [])
  | (hostname, serverIP) :: rest =>
      if ¬containsDot hostname || (mapFind addedDomains hostname).getD false
      then adguardLoop syncRewriteMap otherRewrites addedDomains rest
      else
        let added' := mapInsert addedDomains hostname true
        let tl := adguardLoop syncRewriteMap otherRewrites added' rest
        match mapFind syncRewriteMap hostname with
        | none =>
            if otherRewrites.any (fun rw => rw.domain = hostname) then tl
            else (hostname :: tl.1, tl.2)
        | some existingRewrite =>
            if existingRewrite.answer ≠ serverIP then (tl.1, hostname :: tl.2)
            else tl

/-- The add loop of `applyAdguardChanges` (part_007 lines 463–481):
per-entry failures are skipped, a success sets the flag. -/
def applyAdguardAddLoop (f : Faults) (hostnameMap : GoMap Str) :
    List Str → Env → Bool → Env × Bool
  | [], env, changed => (env, changed)
  | hostname :: rest, env, changed =>
      let serverIP := (mapFind hostnameMap hostname).getD []
      let r := addRewrite f env hostname serverIP
      match r.2 with
      | Except.error _ => applyAdguardAddLoop f hostnameMap rest r.1 changed
      | Except.ok _ => applyAdguardAddLoop f hostnameMap rest r.1 true

/-- The update loop of `applyAdguardChanges` (part_007 lines 483–510). -/
def applyAdguardUpdateLoop (f : Faults) (hostnameMap : GoMap Str)
    (syncRewriteMap : GoMap Rewrite) :
    List Str → Env → Bool → Env × Bool
  | [], env, changed => (env, changed)
  | hostname :: rest, env, changed =>
      let existingRewrite := (mapFind syncRewriteMap hostname).getD {}
      let newServerIP := (mapFind hostnameMap hostname).getD []
      let updatedRewrite : Rewrite := ⟨hostname, newServerIP⟩
      let r := updateRewrite f env existingRewrite updatedRewrite
      match r.2 with
      | Except.error _ =>
          applyAdguardUpdateLoop f hostnameMap syncRewriteMap rest r.1 changed
      | Except.ok _ =>
          applyAdguardUpdateLoop f hostnameMap syncRewriteMap rest r.1 true

/-- The remove loop of `applyAdguardChanges` (part_007 lines 512–531). -/
def applyAdguardRemoveLoop (f : Faults) (syncRewriteMap : GoMap Rewrite) :
    List Str → Env → Bool → Env × Bool
  | [], env, changed => (env, changed)
  | hostname :: rest, env, changed =>
      let existingRewrite := (mapFind syncRewriteMap hostname).getD {}
      let r := deleteRewrite f env hostname existingRewrite.answer
      match r.2 with
      | Except.error _ =>
          applyAdguardRemoveLoop f syncRewriteMap rest r.1 changed
      | Except.ok _ =>
          applyAdguardRemoveLoop f syncRewriteMap rest r.1 true

/-- `applyAdguardChanges` (part_007 lines 454–540): run the three loops
in order, starting with `changesApplied = false`. -/
def applyAdguardChanges (f : Faults)
    (hostnameMap : GoMap Str) (syncRewriteMap : GoMap Rewrite)
    (toAdd toUpdate toRemove : List Str) (env : Env) : Env × Bool :=
  let r1 := applyAdguardAddLoop f hostnameMap toAdd env false
  let r2 := applyAdguardUpdateLoop f hostnameMap syncRewriteMap toUpdate
    r1.1 r1.2
  applyAdguardRemoveLoop f syncRewriteMap toRemove r2.1 r2.2

/-- `sync.AdguardSyncResult`. -/
structure AdguardSyncResultM where
  hostnameMap : GoMap Str := []
  toAdd : List Str := []
  toUpdate : List Str := []
  toRemove : List Str := []
  changesApplied : Bool := false
  syncRewrites : List Rewrite := []
  otherRewrites : List Rewrite := []
  existingCount : Nat := 0
deriving DecidableEq, Repr

/-- `SyncCaddyWithAdguard` (part_007 lines 300–451): fetch the hostname
map (caddyResp models the Caddy fetch outcome), return early when it is
empty, list the rewrites, classify with the standalone two-condition
ownership test, diff, and apply unless dry-run. -/
def syncCaddyWithAdguardModel (f : Faults)
    (options : CaddyAdguardSyncOptions)
    (caddyResp : Except Str (GoMap Str)) (env : Env) :
    Env × Except Str AdguardSyncResultM :=
  let env1 := { env with trace := Event.fetchCaddy :: env.trace }
  match caddyResp with
  | Except.error e =>
      (env1, Except.error (str r"error fetching Caddy hostnames: " ++ e))
  | Except.ok hostnameMap =>
      if hostnameMap.length = 0 then
        (env1, Except.ok { hostnameMap := hostnameMap })
      else
        let lr := listRewrites f env1
        match lr.2 with
        | Except.error e =>
            (lr.1, Except.error
              (str r"error fetching AdguardHome rewrites: " ++ e))
        | Except.ok existingRewrites =>
            let c := classifyRewritesStandalone options.caddyServerIP
              hostnameMap existingRewrites
            let ud := adguardLoop c.2.2 c.2.1 [] hostnameMap
            let toRemove := findToRemove hostnameMap c.2.2
            let ap :=
              if options.dryRun then (lr.1, false)
              else applyAdguardChanges f hostnameMap c.2.2 ud.1 ud.2
                toRemove lr.1
            (ap.1, Except.ok
              { hostnameMap := hostnameMap, toAdd := ud.1, toUpdate := ud.2,
                toRemove := toRemove, changesApplied := ap.2,
                syncRewrites := c.1, otherRewrites := c.2.1,
                existingCount := existingRewrites.length })

/-- `syncCaddyWithAdguardInternal` (sync_exec.go lines 1079–1168): same
as the standalone sync but with a pre-fetched hostname map, no
empty-map early return, and the answer-only ownership test. -/
def syncCaddyWithAdguardInternalModel (f : Faults)
    (options : CaddyAdguardSyncOptions) (hostnameMap : GoMap Str)
    (env : Env) : Env × Except Str AdguardSyncResultM :=
  let lr := listRewrites f env
  match lr.2 with
  | Except.error e =>
      (lr.1, Except.error
        (str r"error fetching AdguardHome rewrites: " ++ e))
  | Except.ok existingRewrites =>
      let c := classifyRewritesInternal options.caddyServerIP
        existingRewrites
      let ud := adguardLoop c.2.2 c.2.1 [] hostnameMap
      let toRemove := findToRemove hostnameMap c.2.2
      let ap :=
        if options.dryRun then (lr.1, false)
        else applyAdguardChanges f hostnameMap c.2.2 ud.1 ud.2
          toRemove lr.1
      (ap.1, Except.ok
        { hostnameMap := hostnameMap, toAdd := ud.1, toUpdate := ud.2,
          toRemove := toRemove, changesApplied := ap.2,
          syncRewrites := c.1, otherRewrites := c.2.1,
          existingCount := existingRewrites.length })

/-! ### OPNSense Unbound client model (the `api.Client` of part_011) -/

/-- `strings.EqualFold`, modeled as case-folded equality. -/
def equalFold (a b : Str) : Bool :=
  a.map Char.toLower = b.map Char.toLower

/-- `Client.GetOverrides`: return the remote override list. -/
def unboundGetOverrides (f : Faults) (env : Env) :
    Env × Except Str (List DNSOverride) :=
  let env' := { env with trace := Event.listOverrides :: env.trace }
  if f.listOverridesFail then
    (env', Except.error (str r"list overrides failed"))
  else (env', Except.ok env.overrides)

/-- `Client.IsOverrideExists` (part_011 lines 282–295): list the
overrides and look for a case-insensitive host+domain match. -/
def isOverrideExists (f : Faults) (env : Env) (host domain : Str) :
    Env × Except Str (Bool × Str) :=
  let g := unboundGetOverrides f env
  match g.2 with
  | Except.error e => (g.1, Except.error e)
  | Except.ok overrides =>
      match overrides.find?
        (fun o => equalFold o.host host && equalFold o.domain domain) with
      | some o => (g.1, Except.ok (true, o.uuid))
      | none => (g.1, Except.ok (false, []))

/-- `Client.AddOverride` (part_011 lines 298–379): refuse when a
case-insensitive duplicate exists; on success the server stores the
override under a fresh UUID. -/
def unboundAddOverride (f : Faults) (env : Env) (o : DNSOverride) :
    Env × Except Str Str :=
  let ex := isOverrideExists f env o.host o.domain
  match ex.2 with
  | Except.error e => (ex.1, Except.error e)
  | Except.ok (true, _) =>
      (ex.1, Except.error (str r"DNS override already exists"))
  | Except.ok (false, _) =>
      if f.addOverrideFail o then
        ({ ex.1 with trace := Event.addOverride o false :: ex.1.trace },
          Except.error (str r"add override failed"))
      else
        let uuid := f.uuidGen ex.1.uuidSeq
        ({ ex.1 with
            overrides := ex.1.overrides ++ [{ o with uuid := uuid }],
            uuidSeq := ex.1.uuidSeq + 1,
            trace := Event.addOverride o true :: ex.1.trace },
          Except.ok uuid)

/-- `Client.UpdateOverride` (part_011 lines 382–426): an empty UUID is
refused before any request; on success the server replaces the
override(s) with that UUID; an unknown UUID is a server error. -/
def unboundUpdateOverride (f : Faults) (env : Env) (o : DNSOverride) :
    Env × Except Str Unit :=
  if o.uuid = [] then
    (env, Except.error (str r"UUID is required for update"))
  else if f.updateOverrideFail o then
    ({ env with trace := Event.updateOverride o false :: env.trace },
      Except.error (str r"update override failed"))
  else if env.overrides.any (fun e => e.uuid = o.uuid) then
    ({ env with
        overrides := env.overrides.map
          (fun e => if e.uuid = o.uuid then o else e),
        trace := Event.updateOverride o true :: env.trace },
      Except.ok ())
  else
    ({ env with trace := Event.updateOverride o false :: env.trace },
      Except.error (str r"override not found"))

/-- `Client.DeleteOverride` (part_011 lines 429–453): on success the
server removes the override(s) with that UUID. -/
def unboundDeleteOverride (f : Faults) (env : Env) (uuid : Str) :
    Env × Except Str Unit :=
  if f.deleteOverrideFail uuid then
    ({ env with trace := Event.deleteOverride uuid false :: env.trace },
      Except.error (str r"delete override failed"))
  else if env.overrides.any (fun e => e.uuid = uuid) then
    ({ env with
        overrides := env.overrides.filter (fun e => ¬(e.uuid = uuid)),
        trace := Event.deleteOverride uuid true :: env.trace },
      Except.ok ())
  else
    ({ env with trace := Event.deleteOverride uuid false :: env.trace },
      Except.error (str r"override not found"))

/-- `Client.ApplyChanges` (part_011 lines 456–482): the explicit Unbound
reconfigure/reload call. -/
def unboundApplyChanges (f : Faults) (env : Env) : Env × Except Str Unit :=
  if f.reconfigureFail then
    ({ env with trace := Event.reconfigureUnbound false :: env.trace },
      Except.error (str r"reconfigure failed"))
  else
    ({ env with trace := Event.reconfigureUnbound true :: env.trace },
      Except.ok ())

/-! ### The inline apply phase of `SyncCaddyWithCloudflare`
(part_007 lines 160–245) -/

/-- `sync.CloudflareEntry`. -/
structure CloudflareEntry where
  hostname : Str := []
  domain : Str := []
  ip : Str := []
  description : Str := []
  mode : Str := []
deriving DecidableEq, Repr

/-- The add loop of `SyncCaddyWithCloudflare` (part_007 lines 169–192):
a per-entry failure sets `changesApplied` to false and continues. -/
def cfApplyAddLoop (f : Faults) :
    List CloudflareEntry → Env → Bool → Env × Bool
  | [], env, changed => (env, changed)
  | entry :: rest, env, changed =>
      let override : DNSOverride :=
        { enabled := str r"1", host := entry.hostname,
          domain := entry.domain, server := entry.ip,
          description := entry.description }
      let r := unboundAddOverride f env override
      match r.2 with
      | Except.error _ => cfApplyAddLoop f rest r.1 false
      | Except.ok _ => cfApplyAddLoop f rest r.1 changed

/-- The update loop of `SyncCaddyWithCloudflare` (part_007 lines
195–224): entries whose key is no longer in the (diff-phase-mutated)
sync-created map are silently skipped. -/
def cfApplyUpdateLoop (f : Faults) (syncCreatedOverrides : GoMap DNSOverride) :
    List CloudflareEntry → Env → Bool → Env × Bool
  | [], env, changed => (env, changed)
  | entry :: rest, env, changed =>
      let key := entry.hostname ++ '.' :: entry.domain
      match mapFind syncCreatedOverrides key with
      | some existing =>
          let override : DNSOverride :=
            { uuid := existing.uuid, enabled := str r"1",
              host := entry.hostname, domain := entry.domain,
              server := entry.ip, description := entry.description }
          let r := unboundUpdateOverride f env override
          match r.2 with
          | Except.error _ =>
              cfApplyUpdateLoop f syncCreatedOverrides rest r.1 false
          | Except.ok _ =>
              cfApplyUpdateLoop f syncCreatedOverrides rest r.1 changed
      | none => cfApplyUpdateLoop f syncCreatedOverrides rest env changed

/-- The remove loop of `SyncCaddyWithCloudflare` (part_007 lines
227–242). -/
def cfApplyRemoveLoop (f : Faults) :
    List DNSOverride → Env → Bool → Env × Bool
  | [], env, changed => (env, changed)
  | o :: rest, env, changed =>
      let r := unboundDeleteOverride f env o.uuid
      match r.2 with
      | Except.error _ => cfApplyRemoveLoop f rest r.1 false
      | Except.ok _ => cfApplyRemoveLoop f rest r.1 changed

/-- The apply phase of `SyncCaddyWithCloudflare` (part_007 lines
166–244): `changesApplied` starts at `true` and any per-entry failure
sets it to `false`. -/
def caddyCloudflareApplyPhase (f : Faults)
    (syncCreatedOverrides : GoMap DNSOverride)
    (toAdd toUpdate : List CloudflareEntry) (toRemove : List DNSOverride)
    (env : Env) : Env × Bool :=
  let r1 := cfApplyAddLoop f toAdd env true
  let r2 := cfApplyUpdateLoop f syncCreatedOverrides toUpdate r1.1 r1.2
  cfApplyRemoveLoop f toRemove r2.1 r2.2

/-! ### C1: ownership classification for rewrite-style targets -/

/-- A rewrite that points at the Caddy IP but whose domain is absent
from the hostname mapping (for instance a manually created one). -/
def agRw1 : Rewrite := { domain := str r"old.example.com", answer := str r"10.0.0.2" }

/-- Concrete hostname mapping for the C1 run. -/
def mapW1 : GoMap Str := [(str r"svc.example.com", str r"10.0.0.2")]

/-- Concrete AdguardHome sync options for the C1 run. -/
def optA1 : CaddyAdguardSyncOptions := { caddyServerIP := str r"10.0.0.2" }

/-- Concrete starting environment for the C1 run: the rewrite above is
the only existing rewrite. -/
def envW1 : Env := { rewrites := [agRw1] }

/-- **C1**: evaluation at the failing input. `SyncCaddyWithAdguard`
(part_007 lines 346–357) classifies a rewrite whose answer equals the
Caddy IP but whose domain is not in the hostname mapping as foreign and
a live run leaves it untouched — as the claim states. But
`syncCaddyWithAdguardInternal` (sync_exec.go lines 1095–1102), despite
its comment claiming to copy that logic, classifies the same rewrite by
answer alone as tool-owned, and a live run deletes it. -/
theorem adguardInternalOwnershipBug :
    agRw1 ∈ (classifyRewritesStandalone (str r"10.0.0.2") mapW1 [agRw1]).2.1 ∧
    agRw1 ∈ (syncCaddyWithAdguardModel faultsNone optA1
      (Except.ok mapW1) envW1).1.rewrites ∧
    agRw1 ∈ (classifyRewritesInternal (str r"10.0.0.2") [agRw1]).1 ∧
    str r"old.example.com" ∈
      findToRemove mapW1 (classifyRewritesInternal (str r"10.0.0.2") [agRw1]).2.2 ∧
    agRw1 ∉ (syncCaddyWithAdguardInternalModel faultsNone optA1
      mapW1 envW1).1.rewrites := by decide

/-! ### C3: the Change Applier's aggregate flag and failure isolation -/

/-- Whether the add of hostname `h` succeeds under the faults
(proof-layer helper; in the model an AdguardHome add fails exactly when
its fault flag is set). -/
def adguardAddOk (f : Faults) (hostnameMap : GoMap Str) (h : Str) : Bool :=
  !(f.addRewriteFail h ((mapFind hostnameMap h).getD []))

/-- Whether the update of hostname `h` succeeds under the faults. -/
def adguardUpdOk (f : Faults) (hostnameMap : GoMap Str)
    (syncRewriteMap : GoMap Rewrite) (h : Str) : Bool :=
  !(f.updateRewriteFail ((mapFind syncRewriteMap h).getD {})
    ⟨h, (mapFind hostnameMap h).getD []⟩)

/-- Whether the delete of hostname `h` succeeds under the faults. -/
def adguardDelOk (f : Faults) (syncRewriteMap : GoMap Rewrite) (h : Str) :
    Bool :=
  !(f.deleteRewriteFail h ((mapFind syncRewriteMap h).getD {}).answer)

theorem applyAdguardAddLoop_flag (f : Faults) (hostnameMap : GoMap Str) :
    ∀ (l : List Str) (env : Env) (changed : Bool),
      (applyAdguardAddLoop f hostnameMap l env changed).2 =
        (changed || l.any (adguardAddOk f hostnameMap)) := by
  intro l
  induction l with
  | nil => intro env changed; simp [applyAdguardAddLoop]
  | cons h rest ih =>
      intro env changed
      simp only [applyAdguardAddLoop]
      by_cases hf : f.addRewriteFail h ((mapFind hostnameMap h).getD []) = true
      · simp only [addRewrite, hf, if_true]
        rw [ih]
        simp [adguardAddOk, hf]
      · simp only [addRewrite, eq_false_of_ne_true hf, Bool.false_eq_true,
          if_false]
        rw [ih]
        simp [adguardAddOk, eq_false_of_ne_true hf]

theorem applyAdguardUpdateLoop_flag (f : Faults) (hostnameMap : GoMap Str)
    (syncRewriteMap : GoMap Rewrite) :
    ∀ (l : List Str) (env : Env) (changed : Bool),
      (applyAdguardUpdateLoop f hostnameMap syncRewriteMap l env changed).2 =
        (changed || l.any (adguardUpdOk f hostnameMap syncRewriteMap)) := by
  intro l
  induction l with
  | nil => intro env changed; simp [applyAdguardUpdateLoop]
  | cons h rest ih =>
      intro env changed
      simp only [applyAdguardUpdateLoop]
      by_cases hf : f.updateRewriteFail ((mapFind syncRewriteMap h).getD {})
          ⟨h, (mapFind hostnameMap h).getD []⟩ = true
      · simp only [updateRewrite, hf, if_true]
        rw [ih]
        simp [adguardUpdOk, hf]
      · simp only [updateRewrite, eq_false_of_ne_true hf, Bool.false_eq_true,
          if_false]
        rw [ih]
        simp [adguardUpdOk, eq_false_of_ne_true hf]

theorem applyAdguardRemoveLoop_flag (f : Faults)
    (syncRewriteMap : GoMap Rewrite) :
    ∀ (l : List Str) (env : Env) (changed : Bool),
      (applyAdguardRemoveLoop f syncRewriteMap l env changed).2 =
        (changed || l.any (adguardDelOk f syncRewriteMap)) := by
  intro l
  induction l with
  | nil => intro env changed; simp [applyAdguardRemoveLoop]
  | cons h rest ih =>
      intro env changed
      simp only [applyAdguardRemoveLoop]
      by_cases hf : f.deleteRewriteFail h
          ((mapFind syncRewriteMap h).getD {}).answer = true
      · simp only [deleteRewrite, hf, if_true]
        rw [ih]
        simp [adguardDelOk, hf]
      · simp only [deleteRewrite, eq_false_of_ne_true hf, Bool.false_eq_true,
          if_false]
        rw [ih]
        simp [adguardDelOk, eq_false_of_ne_true hf]

theorem applyAdguardAddLoop_trace_mono (f : Faults)
    (hostnameMap : GoMap Str) {ev : Event} :
    ∀ (l : List Str) (env : Env) (changed : Bool), ev ∈ env.trace →
      ev ∈ (applyAdguardAddLoop f hostnameMap l env changed).1.trace := by
  intro l
  induction l with
  | nil => intro env changed h; exact h
  | cons h0 rest ih =>
      intro env changed h
      simp only [applyAdguardAddLoop]
      by_cases hf : f.addRewriteFail h0 ((mapFind hostnameMap h0).getD []) = true
      · simp only [addRewrite, hf, if_true]
        exact ih _ _ (List.mem_cons_of_mem _ h)
      · simp only [addRewrite, eq_false_of_ne_true hf, Bool.false_eq_true,
          if_false]
        exact ih _ _ (List.mem_cons_of_mem _ h)

theorem applyAdguardUpdateLoop_trace_mono (f : Faults)
    (hostnameMap : GoMap Str) (syncRewriteMap : GoMap Rewrite) {ev : Event} :
    ∀ (l : List Str) (env : Env) (changed : Bool), ev ∈ env.trace →
      ev ∈ (applyAdguardUpdateLoop f hostnameMap syncRewriteMap l env
        changed).1.trace := by
  intro l
  induction l with
  | nil => intro env changed h; exact h
  | cons h0 rest ih =>
      intro env changed h
      simp only [applyAdguardUpdateLoop]
      by_cases hf : f.updateRewriteFail ((mapFind syncRewriteMap h0).getD {})
          ⟨h0, (mapFind hostnameMap h0).getD []⟩ = true
      · simp only [updateRewrite, hf, if_true]
        exact ih _ _ (List.mem_cons_of_mem _ h)
      · simp only [updateRewrite, eq_false_of_ne_true hf, Bool.false_eq_true,
          if_false]
        exact ih _ _ (List.mem_cons_of_mem _ h)

theorem applyAdguardRemoveLoop_trace_mono (f : Faults)
    (syncRewriteMap : GoMap Rewrite) {ev : Event} :
    ∀ (l : List Str) (env : Env) (changed : Bool), ev ∈ env.trace →
      ev ∈ (applyAdguardRemoveLoop f syncRewriteMap l env changed).1.trace := by
  intro l
  induction l with
  | nil => intro env changed h; exact h
  | cons h0 rest ih =>
      intro env changed h
      simp only [applyAdguardRemoveLoop]
      by_cases hf : f.deleteRewriteFail h0
          ((mapFind syncRewriteMap h0).getD {}).answer = true
      · simp only [deleteRewrite, hf, if_true]
        exact ih _ _ (List.mem_cons_of_mem _ h)
      · simp only [deleteRewrite, eq_false_of_ne_true hf, Bool.false_eq_true,
          if_false]
        exact ih _ _ (List.mem_cons_of_mem _ h)

theorem applyAdguardAddLoop_attempt (f : Faults) (hostnameMap : GoMap Str)
    {h : Str} :
    ∀ (l : List Str) (env : Env) (changed : Bool), h ∈ l →
      Event.addRewrite h ((mapFind hostnameMap h).getD [])
        (adguardAddOk f hostnameMap h) ∈
        (applyAdguardAddLoop f hostnameMap l env changed).1.trace := by
  intro l
  induction l with
  | nil => intro env changed hmem; simp at hmem
  | cons h0 rest ih =>
      intro env changed hmem
      rcases List.mem_cons.1 hmem with h' | h'
      · subst h'
        simp only [applyAdguardAddLoop]
        by_cases hf : f.addRewriteFail h ((mapFind hostnameMap h).getD []) = true
        · simp only [addRewrite, hf, if_true]
          apply applyAdguardAddLoop_trace_mono
          simp [adguardAddOk, hf]
        · simp only [addRewrite, eq_false_of_ne_true hf, Bool.false_eq_true,
            if_false]
          apply applyAdguardAddLoop_trace_mono
          simp [adguardAddOk, eq_false_of_ne_true hf]
      · simp only [applyAdguardAddLoop]
        by_cases hf : f.addRewriteFail h0 ((mapFind hostnameMap h0).getD []) = true
        · simp only [addRewrite, hf, if_true]
          exact ih _ _ h'
        · simp only [addRewrite, eq_false_of_ne_true hf, Bool.false_eq_true,
            if_false]
          exact ih _ _ h'

theorem applyAdguardAddLoop_preserves (f : Faults) (hostnameMap : GoMap Str)
    {rw : Rewrite} :
    ∀ (l : List Str) (env : Env) (changed : Bool), rw ∈ env.rewrites →
      rw ∈ (applyAdguardAddLoop f hostnameMap l env changed).1.rewrites := by
  intro l
  induction l with
  | nil => intro env changed h; exact h
  | cons h0 rest ih =>
      intro env changed h
      simp only [applyAdguardAddLoop]
      by_cases hf : f.addRewriteFail h0 ((mapFind hostnameMap h0).getD []) = true
      · simp only [addRewrite, hf, if_true]
        exact ih _ _ h
      · simp only [addRewrite, eq_false_of_ne_true hf, Bool.false_eq_true,
          if_false]
        exact ih _ _ (List.mem_append.2 (Or.inl h))

theorem applyAdguardAddLoop_commits (f : Faults) (hostnameMap : GoMap Str)
    {h : Str} :
    ∀ (l : List Str) (env : Env) (changed : Bool), h ∈ l →
      adguardAddOk f hostnameMap h = true →
      Rewrite.mk h ((mapFind hostnameMap h).getD []) ∈
        (applyAdguardAddLoop f hostnameMap l env changed).1.rewrites := by
  intro l
  induction l with
  | nil => intro env changed hmem; simp at hmem
  | cons h0 rest ih =>
      intro env changed hmem hok
      rcases List.mem_cons.1 hmem with h' | h'
      · subst h'
        have hf : f.addRewriteFail h ((mapFind hostnameMap h).getD []) = false := by
          simpa [adguardAddOk] using hok
        simp only [applyAdguardAddLoop, addRewrite, hf, Bool.false_eq_true,
          if_false]
        apply applyAdguardAddLoop_preserves
        exact List.mem_append.2 (Or.inr (List.mem_singleton.2 rfl))
      · simp only [applyAdguardAddLoop]
        by_cases hf : f.addRewriteFail h0 ((mapFind hostnameMap h0).getD []) = true
        · simp only [addRewrite, hf, if_true]
          exact ih _ _ h' hok
        · simp only [addRewrite, eq_false_of_ne_true hf, Bool.false_eq_true,
            if_false]
          exact ih _ _ h' hok

theorem applyAdguardUpdateLoop_preserves (f : Faults)
    (hostnameMap : GoMap Str) (syncRewriteMap : GoMap Rewrite) {rw : Rewrite} :
    ∀ (l : List Str) (env : Env) (changed : Bool), rw ∈ env.rewrites →
      (∀ h' ∈ l, (mapFind syncRewriteMap h').getD {} ≠ rw) →
      rw ∈ (applyAdguardUpdateLoop f hostnameMap syncRewriteMap l env
        changed).1.rewrites := by
  intro l
  induction l with
  | nil => intro env changed h _; exact h
  | cons h0 rest ih =>
      intro env changed h hne
      simp only [applyAdguardUpdateLoop]
      by_cases hf : f.updateRewriteFail ((mapFind syncRewriteMap h0).getD {})
          ⟨h0, (mapFind hostnameMap h0).getD []⟩ = true
      · simp only [updateRewrite, hf, if_true]
        exact ih _ _ h (fun h' hh' => hne h' (List.mem_cons_of_mem _ hh'))
      · simp only [updateRewrite, eq_false_of_ne_true hf, Bool.false_eq_true,
          if_false]
        refine ih _ _ ?_ (fun h' hh' => hne h' (List.mem_cons_of_mem _ hh'))
        refine List.mem_map.2 ⟨rw, h, ?_⟩
        have : ¬ rw = (mapFind syncRewriteMap h0).getD {} :=
          fun he => hne h0 (List.mem_cons_self _ _) he.symm
        simp [this]

theorem applyAdguardRemoveLoop_preserves (f : Faults)
    (syncRewriteMap : GoMap Rewrite) {rw : Rewrite} :
    ∀ (l : List Str) (env : Env) (changed : Bool), rw ∈ env.rewrites →
      rw.domain ∉ l →
      rw ∈ (applyAdguardRemoveLoop f syncRewriteMap l env
        changed).1.rewrites := by
  intro l
  induction l with
  | nil => intro env changed h _; exact h
  | cons h0 rest ih =>
      intro env changed h hni
      have hd : rw.domain ≠ h0 := fun he => hni (he ▸ List.mem_cons_self _ _)
      have hni' : rw.domain ∉ rest := fun he => hni (List.mem_cons_of_mem _ he)
      simp only [applyAdguardRemoveLoop]
      by_cases hf : f.deleteRewriteFail h0
          ((mapFind syncRewriteMap h0).getD {}).answer = true
      · simp only [deleteRewrite, hf, if_true]
        exact ih _ _ h hni'
      · simp only [deleteRewrite, eq_false_of_ne_true hf, Bool.false_eq_true,
          if_false]
        refine ih _ _ ?_ hni'
        refine List.mem_filter.2 ⟨h, ?_⟩
        simp [hd]

/-- **C3** (amended): for `applyAdguardChanges` (part_007 lines
454–540), `changesApplied` is true iff at least one create/update/delete
mutation succeeded (it is false when every change set is empty or every
mutation failed); every to-add entry is attempted regardless of other
entries' failures; and a to-add entry whose mutation succeeded is
observably committed in the remote state even when other entries fail.
(The claim as stated is false for `SyncCaddyWithCloudflare`'s inline
applier, whose flag starts at `true` and reports `false` whenever any
mutation failed — see the counterexample.) -/
theorem adguardApplierFlagAndIsolation
    (f : Faults) (hostnameMap : GoMap Str) (syncRewriteMap : GoMap Rewrite)
    (toAdd toUpdate toRemove : List Str) (env : Env) :
    ((applyAdguardChanges f hostnameMap syncRewriteMap toAdd toUpdate
        toRemove env).2 = true ↔
      ((∃ h ∈ toAdd, adguardAddOk f hostnameMap h = true) ∨
       (∃ h ∈ toUpdate,
         adguardUpdOk f hostnameMap syncRewriteMap h = true) ∨
       (∃ h ∈ toRemove, adguardDelOk f syncRewriteMap h = true))) ∧
    (∀ h ∈ toAdd,
      Event.addRewrite h ((mapFind hostnameMap h).getD [])
        (adguardAddOk f hostnameMap h) ∈
        (applyAdguardChanges f hostnameMap syncRewriteMap toAdd toUpdate
          toRemove env).1.trace) ∧
    (∀ h ∈ toAdd, adguardAddOk f hostnameMap h = true →
      h ∉ toRemove →
      (∀ h' ∈ toUpdate, (mapFind syncRewriteMap h').getD {} ≠
        Rewrite.mk h ((mapFind hostnameMap h).getD [])) →
      Rewrite.mk h ((mapFind hostnameMap h).getD []) ∈
        (applyAdguardChanges f hostnameMap syncRewriteMap toAdd toUpdate
          toRemove env).1.rewrites) := by
  refine ⟨?_, ?_, ?_⟩
  · simp only [applyAdguardChanges]
    rw [applyAdguardRemoveLoop_flag, applyAdguardUpdateLoop_flag,
      applyAdguardAddLoop_flag]
    simp [List.any_eq_true, or_assoc]
  · intro h hmem
    simp only [applyAdguardChanges]
    apply applyAdguardRemoveLoop_trace_mono
    apply applyAdguardUpdateLoop_trace_mono
    exact applyAdguardAddLoop_attempt f hostnameMap toAdd env false hmem
  · intro h hmem hok hnr hnu
    simp only [applyAdguardChanges]
    apply applyAdguardRemoveLoop_preserves _ _ _ _ _ _ hnr
    apply applyAdguardUpdateLoop_preserves _ _ _ _ _ _ _ hnu
    exact applyAdguardAddLoop_commits f hostnameMap toAdd env false hmem hok

/-- Faults for the C3 witness: only the add of `aaa.example.com`
fails. -/
def fltW3 : Faults :=
  { addRewriteFail := fun d _ => d = str r"aaa.example.com" }

/-- Hostname mapping for the C3 witness. -/
def mapW3 : GoMap Str :=
  [(str r"aaa.example.com", str r"10.0.0.2"),
   (str r"bbb.example.com", str r"10.0.0.2")]

/-- Witness for C3: with entry A's add failing and entry B's
succeeding in the same change set, `changesApplied` is true and B's
rewrite is committed. -/
theorem adguardApplierFlagAndIsolation_witness :
    (applyAdguardChanges fltW3 mapW3 []
      [str r"aaa.example.com", str r"bbb.example.com"] [] [] {}).2 = true ∧
    Rewrite.mk (str r"bbb.example.com") (str r"10.0.0.2") ∈
      (applyAdguardChanges fltW3 mapW3 []
        [str r"aaa.example.com", str r"bbb.example.com"] [] [] {}).1.rewrites :=
  ⟨(adguardApplierFlagAndIsolation fltW3 mapW3 []
      [str r"aaa.example.com", str r"bbb.example.com"] [] [] {}).1.2
    (Or.inl ⟨str r"bbb.example.com", by decide, by decide⟩),
   (adguardApplierFlagAndIsolation fltW3 mapW3 []
      [str r"aaa.example.com", str r"bbb.example.com"] [] [] {}).2.2
    (str r"bbb.example.com") (by decide) (by decide) (by decide)
    (fun h' hh' => absurd hh' (List.not_mem_nil h'))⟩

/-- Faults for the C3 counterexample: only the add of host `aaa`
fails. -/
def fltW3c : Faults :=
  { addOverrideFail := fun o => o.host = str r"aaa" }

/-- Entry A of the C3 counterexample. -/
def entA : CloudflareEntry :=
  { hostname := str r"aaa", domain := str r"example.com",
    ip := str r"10.0.0.3", description := str r"d", mode := str r"direct" }

/-- Entry B of the C3 counterexample. -/
def entB : CloudflareEntry :=
  { hostname := str r"bbb", domain := str r"example.com",
    ip := str r"10.0.0.3", description := str r"d", mode := str r"direct" }

/-- Counterexample for C3 as stated: in `SyncCaddyWithCloudflare`'s
inline apply phase, entry A's add fails and entry B's add succeeds and
is committed, yet `changesApplied` is reported `false`. -/
theorem cloudflareApplierFlagCounterexample :
    (caddyCloudflareApplyPhase fltW3c [] [entA, entB] [] [] {}).2 = false ∧
    (∃ o ∈ (caddyCloudflareApplyPhase fltW3c [] [entA, entB] [] []
        {}).1.overrides,
      o.host = str r"bbb" ∧ o.server = str r"10.0.0.3") := by decide

/-! ### The Cloudflare→Unbound sync of the `sync` package
(internal/exec/sync/cloudflare.go) -/

/-- `sync.CloudflareSyncOptions`. -/
structure CloudflareSyncOptions where
  dryRun : Bool := false
  tunnelID : Str := []
  entryDescription : Str := []
  legacyDescriptions : List Str := []
  verbose : Bool := false

/-- The add loop of `applyCloudflareChanges` (cloudflare.go lines
160–190): split the hostname at the first dot, build the override, and
skip per-entry failures. -/
def cfSyncAddLoop (f : Faults) (options : CloudflareSyncOptions)
    (hostnameMap : GoMap Str) : List Str → Env → Bool → Env × Bool
  | [], env, changed => (env, changed)
  | hostname :: rest, env, changed =>
      let parts := goSplitN2 hostname
      let override : DNSOverride :=
        { enabled := str r"1", host := parts.getD 0 [],
          domain := parts.getD 1 [],
          server := (mapFind hostnameMap hostname).getD [],
          description := options.entryDescription }
      let r := unboundAddOverride f env override
      match r.2 with
      | Except.error _ => cfSyncAddLoop f options hostnameMap rest r.1 changed
      | Except.ok _ => cfSyncAddLoop f options hostnameMap rest r.1 true

/-- The IP-update loop of `applyCloudflareChanges` (cloudflare.go lines
193–221): the stored override gets the new server IP and the current
description. -/
def cfSyncUpdateLoop (f : Faults) (options : CloudflareSyncOptions)
    (hostnameMap : GoMap Str) (syncCreatedOverrides : GoMap DNSOverride) :
    List Str → Env → Bool → Env × Bool
  | [], env, changed => (env, changed)
  | hostname :: rest, env, changed =>
      let o0 := (mapFind syncCreatedOverrides hostname).getD {}
      let o1 := { o0 with
        server := (mapFind hostnameMap hostname).getD [],
        description := options.entryDescription }
      let r := unboundUpdateOverride f env o1
      match r.2 with
      | Except.error _ =>
          cfSyncUpdateLoop f options hostnameMap syncCreatedOverrides rest
            r.1 changed
      | Except.ok _ =>
          cfSyncUpdateLoop f options hostnameMap syncCreatedOverrides rest
            r.1 true

/-- The description-update loop of `applyCloudflareChanges`
(cloudflare.go lines 224–250). -/
def cfSyncDescLoop (f : Faults) (options : CloudflareSyncOptions)
    (syncCreatedOverrides : GoMap DNSOverride) :
    List Str → Env → Bool → Env × Bool
  | [], env, changed => (env, changed)
  | hostname :: rest, env, changed =>
      let o0 := (mapFind syncCreatedOverrides hostname).getD {}
      let o1 := { o0 with description := options.entryDescription }
      let r := unboundUpdateOverride f env o1
      match r.2 with
      | Except.error _ =>
          cfSyncDescLoop f options syncCreatedOverrides rest r.1 changed
      | Except.ok _ =>
          cfSyncDescLoop f options syncCreatedOverrides rest r.1 true

/-- The remove loop of `applyCloudflareChanges` (cloudflare.go lines
253–276). -/
def cfSyncRemoveLoop (f : Faults)
    (syncCreatedOverrides : GoMap DNSOverride) :
    List Str → Env → Bool → Env × Bool
  | [], env, changed => (env, changed)
  | hostname :: rest, env, changed =>
      let o0 := (mapFind syncCreatedOverrides hostname).getD {}
      let r := unboundDeleteOverride f env o0.uuid
      match r.2 with
      | Except.error _ =>
          cfSyncRemoveLoop f syncCreatedOverrides rest r.1 changed
      | Except.ok _ => cfSyncRemoveLoop f syncCreatedOverrides rest r.1 true

/-- The four mutation loops of `applyCloudflareChanges` (cloudflare.go
lines 150–277), chained from `changesApplied = false`, before the
reload step. -/
def cfSyncPrePhase (f : Faults)
    (options : CloudflareSyncOptions) (hostnameMap : GoMap Str)
    (syncCreatedOverrides : GoMap DNSOverride)
    (toAdd toUpdate toUpdateDesc toRemove : List Str) (env : Env) :
    Env × Bool :=
  let r1 := cfSyncAddLoop f options hostnameMap toAdd env false
  let r2 := cfSyncUpdateLoop f options hostnameMap syncCreatedOverrides
    toUpdate r1.1 r1.2
  let r3 := cfSyncDescLoop f options syncCreatedOverrides toUpdateDesc
    r2.1 r2.2
  cfSyncRemoveLoop f syncCreatedOverrides toRemove r3.1 r3.2

/-- The final reload step (cloudflare.go lines 278–291): only entered
when `changesApplied` is true; a reload error turns the flag `false`. -/
def cfReloadStep (f : Faults) (r4 : Env × Bool) : Env × Bool :=
  if r4.2 then
    let ra := unboundApplyChanges f r4.1
    match ra.2 with
    | Except.error _ => (ra.1, false)
    | Except.ok _ => (ra.1, r4.2)
  else (r4.1, r4.2)

/-- `applyCloudflareChanges` (cloudflare.go lines 150–292): run the four
loops from `changesApplied = false`; when at least one mutation
succeeded, issue the Unbound reconfigure call, and return `false` when
that reload fails. -/
def applyCloudflareChangesModel (f : Faults)
    (options : CloudflareSyncOptions) (hostnameMap : GoMap Str)
    (syncCreatedOverrides : GoMap DNSOverride)
    (toAdd toUpdate toUpdateDesc toRemove : List Str) (env : Env) :
    Env × Bool :=
  cfReloadStep f (cfSyncPrePhase f options hostnameMap
    syncCreatedOverrides toAdd toUpdate toUpdateDesc toRemove env)

/-- The diff loop of `SyncCloudflareWithUnbound` (cloudflare.go lines
65–111): identical to the sync_exec diff loop except for an additional
`len(parts) != 2` guard that never fires for dotted hostnames. -/
def cfDiffLoop (syncM otherM : GoMap DNSOverride)
    (entryDescription : Str) :
    List (Str × Str) → List Str × List Str × List Str
  | [] => ([], [], [])
  | (hostname, serverIP) :: rest =>
      let tl := cfDiffLoop syncM otherM entryDescription rest
      if containsDot hostname then
        if (goSplitN2 hostname).length ≠ 2 then tl
        else
          match mapFind syncM hostname with
          | none =>
              if (mapFind otherM hostname).isSome then tl
              else (hostname :: tl.1, tl.2.1, tl.2.2)
          | some ovr =>
              if ovr.server ≠ serverIP then (tl.1, hostname :: tl.2.1, tl.2.2)
              else if ovr.description ≠ entryDescription then
                (tl.1, tl.2.1, hostname :: tl.2.2)
              else tl
      else tl

theorem cfDiffLoop_eq_processHostnames (syncM otherM : GoMap DNSOverride)
    (d : Str) : ∀ M : List (Str × Str),
    cfDiffLoop syncM otherM d M = processHostnames syncM otherM d M := by
  intro M
  induction M with
  | nil => rfl
  | cons p rest ih =>
      cases p with
      | mk h ip =>
          simp only [cfDiffLoop, processHostnames, ih]
          by_cases hdot : containsDot h = true
          · have hlen : (goSplitN2 h).length = 2 := goSplitN2_length hdot
            simp [hdot, hlen]
          · simp [hdot]

/-- `sync.SyncResult`. -/
structure SyncResultM where
  hostnameMap : GoMap Str := []
  toAdd : List Str := []
  toUpdate : List Str := []
  toUpdateDesc : List Str := []
  toRemove : List Str := []
  changesApplied : Bool := false
  syncOverrides : GoMap DNSOverride := []
  otherOverrides : GoMap DNSOverride := []
  existingCount : Nat := 0
deriving DecidableEq, Repr

/-- `SyncCloudflareWithUnbound` (cloudflare.go lines 21–147): fetch the
tunnel hostname map (`tunnelResp` models the fetch outcome), return
early when it is empty, list the overrides, classify, diff, and apply
unless dry-run. -/
def syncCloudflareWithUnboundModel (f : Faults)
    (options : CloudflareSyncOptions)
    (tunnelResp : Except Str (GoMap Str)) (env : Env) :
    Env × Except Str SyncResultM :=
  let env1 := { env with trace := Event.fetchTunnel :: env.trace }
  match tunnelResp with
  | Except.error e =>
      (env1, Except.error
        (str r"error fetching Cloudflare tunnel hostnames: " ++ e))
  | Except.ok hostnameMap =>
      if hostnameMap.length = 0 then
        (env1, Except.ok { hostnameMap := hostnameMap })
      else
        let g := unboundGetOverrides f env1
        match g.2 with
        | Except.error e =>
            (g.1, Except.error (str r"error fetching overrides: " ++ e))
        | Except.ok existingOverrides =>
            let c := classifyOverrides existingOverrides
              options.entryDescription options.legacyDescriptions
            let aud := cfDiffLoop c.1 c.2 options.entryDescription
              hostnameMap
            let toRemove := findToRemove hostnameMap c.1
            let ap :=
              if options.dryRun then (g.1, false)
              else applyCloudflareChangesModel f options hostnameMap c.1
                aud.1 aud.2.1 aud.2.2 toRemove g.1
            (ap.1, Except.ok
              { hostnameMap := hostnameMap, toAdd := aud.1,
                toUpdate := aud.2.1, toUpdateDesc := aud.2.2,
                toRemove := toRemove, changesApplied := ap.2,
                syncOverrides := c.1, otherOverrides := c.2,
                existingCount := existingOverrides.length })

/-! ### C2: the reload step of `applyCloudflareChanges` -/

/-- Whether an `Except` result is a success (proof-layer helper). -/
def exceptOk {ε α : Type} : Except ε α → Bool
  | Except.ok _ => true
  | Except.error _ => false

/-- Whether an event is the Unbound reconfigure call. -/
def isReconfigure : Event → Bool
  | Event.reconfigureUnbound _ => true
  | _ => false

/-- Shape of a per-call trace/flag specification: the call prepends a
batch of events `d`, none of which is a reconfigure, and a successful
mutation event appears in `d` iff the call succeeded. -/
def OpSpec (env env' : Env) (ok : Bool) : Prop :=
  ∃ d, env'.trace = d ++ env.trace ∧
    (∀ ev ∈ d, isReconfigure ev = false) ∧
    ((∃ ev ∈ d, mutationSucceeded ev = true) ↔ ok = true)

theorem unboundAddOverride_spec (f : Faults) (env : Env) (o : DNSOverride) :
    OpSpec env (unboundAddOverride f env o).1
      (exceptOk (unboundAddOverride f env o).2) := by
  simp only [unboundAddOverride, isOverrideExists, unboundGetOverrides]
  by_cases hl : f.listOverridesFail = true
  · refine ⟨[Event.listOverrides], ?_, ?_, ?_⟩ <;>
      simp [hl, exceptOk, isReconfigure, mutationSucceeded]
  · simp only [eq_false_of_ne_true hl, Bool.false_eq_true, if_false]
    cases hfind : env.overrides.find?
        (fun e => equalFold e.host o.host && equalFold e.domain o.domain) with
    | some e0 =>
        refine ⟨[Event.listOverrides], ?_, ?_, ?_⟩ <;>
          simp [hfind, exceptOk, isReconfigure, mutationSucceeded]
    | none =>
        by_cases ha : f.addOverrideFail o = true
        · refine ⟨[Event.addOverride o false, Event.listOverrides],
            ?_, ?_, ?_⟩ <;>
            simp [hfind, ha, exceptOk, isReconfigure, mutationSucceeded]
        · refine ⟨[Event.addOverride o true, Event.listOverrides],
            ?_, ?_, ?_⟩ <;>
            simp [hfind, eq_false_of_ne_true ha, exceptOk, isReconfigure,
              mutationSucceeded]

theorem unboundUpdateOverride_spec (f : Faults) (env : Env)
    (o : DNSOverride) :
    OpSpec env (unboundUpdateOverride f env o).1
      (exceptOk (unboundUpdateOverride f env o).2) := by
  simp only [unboundUpdateOverride]
  by_cases hu : o.uuid = []
  · refine ⟨[], ?_, ?_, ?_⟩ <;> simp [hu, exceptOk]
  · by_cases hf : f.updateOverrideFail o = true
    · refine ⟨[Event.updateOverride o false], ?_, ?_, ?_⟩ <;>
        simp [hu, hf, exceptOk, isReconfigure, mutationSucceeded]
    · by_cases hp : env.overrides.any (fun e => e.uuid = o.uuid) = true
      · refine ⟨[Event.updateOverride o true], ?_, ?_, ?_⟩ <;>
          simp [hu, eq_false_of_ne_true hf, hp, exceptOk, isReconfigure,
            mutationSucceeded]
      · refine ⟨[Event.updateOverride o false], ?_, ?_, ?_⟩ <;>
          simp [hu, eq_false_of_ne_true hf, eq_false_of_ne_true hp,
            exceptOk, isReconfigure, mutationSucceeded]

theorem unboundDeleteOverride_spec (f : Faults) (env : Env) (uuid : Str) :
    OpSpec env (unboundDeleteOverride f env uuid).1
      (exceptOk (unboundDeleteOverride f env uuid).2) := by
  simp only [unboundDeleteOverride]
  by_cases hf : f.deleteOverrideFail uuid = true
  · refine ⟨[Event.deleteOverride uuid false], ?_, ?_, ?_⟩ <;>
      simp [hf, exceptOk, isReconfigure, mutationSucceeded]
  · by_cases hp : env.overrides.any (fun e => e.uuid = uuid) = true
    · refine ⟨[Event.deleteOverride uuid true], ?_, ?_, ?_⟩ <;>
        simp [eq_false_of_ne_true hf, hp, exceptOk, isReconfigure,
          mutationSucceeded]
    · refine ⟨[Event.deleteOverride uuid false], ?_, ?_, ?_⟩ <;>
        simp [eq_false_of_ne_true hf, eq_false_of_ne_true hp, exceptOk,
          isReconfigure, mutationSucceeded]

/-- Shape of a loop trace/flag specification. -/
def LoopSpec (env env' : Env) (ch ch' : Bool) : Prop :=
  ∃ d, env'.trace = d ++ env.trace ∧
    (∀ ev ∈ d, isReconfigure ev = false) ∧
    (ch' = true ↔ ch = true ∨ ∃ ev ∈ d, mutationSucceeded ev = true)

theorem loopSpec_step {env envOp env' : Env} {opOk ch ch' : Bool}
    (hop : OpSpec env envOp opOk)
    (hrest : LoopSpec envOp env' (ch || opOk) ch') :
    LoopSpec env env' ch ch' := by
  obtain ⟨d1, ht1, hr1, hs1⟩ := hop
  obtain ⟨d2, ht2, hr2, hs2⟩ := hrest
  refine ⟨d2 ++ d1, by rw [ht2, ht1, List.append_assoc], ?_, ?_⟩
  · intro ev hev
    rcases List.mem_append.1 hev with h' | h'
    · exact hr2 ev h'
    · exact hr1 ev h'
  · rw [hs2]
    constructor
    · rintro (hc | ⟨ev, hev, hsucc⟩)
      · rcases Bool.or_eq_true_iff.1 hc with hc' | hc'
        · exact Or.inl hc'
        · rcases hs1.2 hc' with ⟨ev, hev, hsucc⟩
          exact Or.inr ⟨ev, List.mem_append.2 (Or.inr hev), hsucc⟩
      · exact Or.inr ⟨ev, List.mem_append.2 (Or.inl hev), hsucc⟩
    · rintro (hc | ⟨ev, hev, hsucc⟩)
      · exact Or.inl (Bool.or_eq_true_iff.2 (Or.inl hc))
      · rcases List.mem_append.1 hev with h' | h'
        · exact Or.inr ⟨ev, h', hsucc⟩
        · exact Or.inl (Bool.or_eq_true_iff.2
            (Or.inr (hs1.1 ⟨ev, h', hsucc⟩)))

theorem cfSyncAddLoop_spec (f : Faults) (options : CloudflareSyncOptions)
    (hostnameMap : GoMap Str) :
    ∀ (l : List Str) (env : Env) (ch : Bool),
      LoopSpec env (cfSyncAddLoop f options hostnameMap l env ch).1 ch
        (cfSyncAddLoop f options hostnameMap l env ch).2 := by
  intro l
  induction l with
  | nil =>
      intro env ch
      exact ⟨[], rfl, by simp, by
        simp [cfSyncAddLoop, cfSyncUpdateLoop, cfSyncDescLoop,
          cfSyncRemoveLoop]⟩
  | cons hostname rest ih =>
      intro env ch
      simp only [cfSyncAddLoop]
      set o : DNSOverride :=
        { enabled := str r"1", host := (goSplitN2 hostname).getD 0 [],
          domain := (goSplitN2 hostname).getD 1 [],
          server := (mapFind hostnameMap hostname).getD [],
          description := options.entryDescription } with ho
      have hop := unboundAddOverride_spec f env o
      cases hres : (unboundAddOverride f env o).2 with
      | error e =>
          have hok : exceptOk (unboundAddOverride f env o).2 = false := by
            rw [hres]; rfl
          rw [hok] at hop
          refine loopSpec_step hop ?_
          simpa using ih (unboundAddOverride f env o).1 ch
      | ok u =>
          have hok : exceptOk (unboundAddOverride f env o).2 = true := by
            rw [hres]; rfl
          rw [hok] at hop
          refine loopSpec_step hop ?_
          simpa using ih (unboundAddOverride f env o).1 true

theorem cfSyncUpdateLoop_spec (f : Faults) (options : CloudflareSyncOptions)
    (hostnameMap : GoMap Str) (syncCreatedOverrides : GoMap DNSOverride) :
    ∀ (l : List Str) (env : Env) (ch : Bool),
      LoopSpec env
        (cfSyncUpdateLoop f options hostnameMap syncCreatedOverrides l env
          ch).1 ch
        (cfSyncUpdateLoop f options hostnameMap syncCreatedOverrides l env
          ch).2 := by
  intro l
  induction l with
  | nil =>
      intro env ch
      exact ⟨[], rfl, by simp, by
        simp [cfSyncAddLoop, cfSyncUpdateLoop, cfSyncDescLoop,
          cfSyncRemoveLoop]⟩
  | cons hostname rest ih =>
      intro env ch
      simp only [cfSyncUpdateLoop]
      set o : DNSOverride :=
        { (mapFind syncCreatedOverrides hostname).getD {} with
          server := (mapFind hostnameMap hostname).getD [],
          description := options.entryDescription } with ho
      have hop := unboundUpdateOverride_spec f env o
      cases hres : (unboundUpdateOverride f env o).2 with
      | error e =>
          have hok : exceptOk (unboundUpdateOverride f env o).2 = false := by
            rw [hres]; rfl
          rw [hok] at hop
          refine loopSpec_step hop ?_
          simpa using ih (unboundUpdateOverride f env o).1 ch
      | ok u =>
          have hok : exceptOk (unboundUpdateOverride f env o).2 = true := by
            rw [hres]; rfl
          rw [hok] at hop
          refine loopSpec_step hop ?_
          simpa using ih (unboundUpdateOverride f env o).1 true

theorem cfSyncDescLoop_spec (f : Faults) (options : CloudflareSyncOptions)
    (syncCreatedOverrides : GoMap DNSOverride) :
    ∀ (l : List Str) (env : Env) (ch : Bool),
      LoopSpec env
        (cfSyncDescLoop f options syncCreatedOverrides l env ch).1 ch
        (cfSyncDescLoop f options syncCreatedOverrides l env ch).2 := by
  intro l
  induction l with
  | nil =>
      intro env ch
      exact ⟨[], rfl, by simp, by
        simp [cfSyncAddLoop, cfSyncUpdateLoop, cfSyncDescLoop,
          cfSyncRemoveLoop]⟩
  | cons hostname rest ih =>
      intro env ch
      simp only [cfSyncDescLoop]
      set o : DNSOverride :=
        { (mapFind syncCreatedOverrides hostname).getD {} with
          description := options.entryDescription } with ho
      have hop := unboundUpdateOverride_spec f env o
      cases hres : (unboundUpdateOverride f env o).2 with
      | error e =>
          have hok : exceptOk (unboundUpdateOverride f env o).2 = false := by
            rw [hres]; rfl
          rw [hok] at hop
          refine loopSpec_step hop ?_
          simpa using ih (unboundUpdateOverride f env o).1 ch
      | ok u =>
          have hok : exceptOk (unboundUpdateOverride f env o).2 = true := by
            rw [hres]; rfl
          rw [hok] at hop
          refine loopSpec_step hop ?_
          simpa using ih (unboundUpdateOverride f env o).1 true

theorem cfSyncRemoveLoop_spec (f : Faults)
    (syncCreatedOverrides : GoMap DNSOverride) :
    ∀ (l : List Str) (env : Env) (ch : Bool),
      LoopSpec env (cfSyncRemoveLoop f syncCreatedOverrides l env ch).1 ch
        (cfSyncRemoveLoop f syncCreatedOverrides l env ch).2 := by
  intro l
  induction l with
  | nil =>
      intro env ch
      exact ⟨[], rfl, by simp, by
        simp [cfSyncAddLoop, cfSyncUpdateLoop, cfSyncDescLoop,
          cfSyncRemoveLoop]⟩
  | cons hostname rest ih =>
      intro env ch
      simp only [cfSyncRemoveLoop]
      set u : Str := ((mapFind syncCreatedOverrides hostname).getD {}).uuid
        with hu
      have hop := unboundDeleteOverride_spec f env u
      cases hres : (unboundDeleteOverride f env u).2 with
      | error e =>
          have hok : exceptOk (unboundDeleteOverride f env u).2 = false := by
            rw [hres]; rfl
          rw [hok] at hop
          refine loopSpec_step hop ?_
          simpa using ih (unboundDeleteOverride f env u).1 ch
      | ok _ =>
          have hok : exceptOk (unboundDeleteOverride f env u).2 = true := by
            rw [hres]; rfl
          rw [hok] at hop
          refine loopSpec_step hop ?_
          simpa using ih (unboundDeleteOverride f env u).1 true

theorem loopSpec_comp {env1 env2 env3 : Env} {c1 c2 c3 : Bool}
    (h1 : LoopSpec env1 env2 c1 c2) (h2 : LoopSpec env2 env3 c2 c3) :
    LoopSpec env1 env3 c1 c3 := by
  obtain ⟨d1, ht1, hr1, hs1⟩ := h1
  obtain ⟨d2, ht2, hr2, hs2⟩ := h2
  refine ⟨d2 ++ d1, by rw [ht2, ht1, List.append_assoc], ?_, ?_⟩
  · intro ev hev
    rcases List.mem_append.1 hev with h' | h'
    · exact hr2 ev h'
    · exact hr1 ev h'
  · rw [hs2, hs1]
    constructor
    · rintro ((hc | ⟨ev, hev, hsucc⟩) | ⟨ev, hev, hsucc⟩)
      · exact Or.inl hc
      · exact Or.inr ⟨ev, List.mem_append.2 (Or.inr hev), hsucc⟩
      · exact Or.inr ⟨ev, List.mem_append.2 (Or.inl hev), hsucc⟩
    · rintro (hc | ⟨ev, hev, hsucc⟩)
      · exact Or.inl (Or.inl hc)
      · rcases List.mem_append.1 hev with h' | h'
        · exact Or.inr ⟨ev, h', hsucc⟩
        · exact Or.inl (Or.inr ⟨ev, h', hsucc⟩)

/-- The chained pre-reload phase satisfies the loop specification,
starting from `changesApplied = false`. -/
theorem cfSyncPrePhase_spec (f : Faults)
    (options : CloudflareSyncOptions) (hostnameMap : GoMap Str)
    (syncCreatedOverrides : GoMap DNSOverride)
    (toAdd toUpdate toUpdateDesc toRemove : List Str) (env : Env) :
    LoopSpec env
      (cfSyncPrePhase f options hostnameMap syncCreatedOverrides toAdd
        toUpdate toUpdateDesc toRemove env).1 false
      (cfSyncPrePhase f options hostnameMap syncCreatedOverrides toAdd
        toUpdate toUpdateDesc toRemove env).2 :=
  loopSpec_comp
    (loopSpec_comp
      (loopSpec_comp
        (cfSyncAddLoop_spec f options hostnameMap toAdd env false)
        (cfSyncUpdateLoop_spec f options hostnameMap syncCreatedOverrides
          toUpdate _ _))
      (cfSyncDescLoop_spec f options syncCreatedOverrides toUpdateDesc _ _))
    (cfSyncRemoveLoop_spec f syncCreatedOverrides toRemove _ _)

/-- Behaviour of the reload step on any pre-phase result satisfying the
loop specification over an initially empty trace. -/
theorem cfReloadStep_spec (f : Faults) (env : Env) (p : Env × Bool)
    (henv : env.trace = []) (hspec : LoopSpec env p.1 false p.2) :
    ((∃ ev ∈ (cfReloadStep f p).1.trace, mutationSucceeded ev = true) ↔
      ∃ ok, Event.reconfigureUnbound ok ∈ (cfReloadStep f p).1.trace) ∧
    (f.reconfigureFail = true → (cfReloadStep f p).2 = false) ∧
    (f.reconfigureFail = false →
      ((cfReloadStep f p).2 = true ↔
        ∃ ev ∈ (cfReloadStep f p).1.trace,
          mutationSucceeded ev = true)) := by
  obtain ⟨d, htr, hnr, hflag⟩ := hspec
  rw [henv, List.append_nil] at htr
  have hflag' : p.2 = true ↔ ∃ ev ∈ d, mutationSucceeded ev = true := by
    rw [hflag]
    simp
  cases hp2 : p.2 with
  | false =>
      have hnosucc : ¬ ∃ ev ∈ d, mutationSucceeded ev = true := by
        intro hc
        rw [← hflag'] at hc
        exact absurd (hp2 ▸ hc) (by simp)
      simp only [cfReloadStep, hp2, Bool.false_eq_true, if_false]
      refine ⟨?_, fun _ => trivial, fun _ => ?_⟩
      · constructor
        · rintro ⟨ev, hev, hsucc⟩
          rw [htr] at hev
          exact absurd ⟨ev, hev, hsucc⟩ hnosucc
        · rintro ⟨ok, hok⟩
          rw [htr] at hok
          have := hnr _ hok
          simp [isReconfigure] at this
      · constructor
        · intro hc
          simp at hc
        · rintro ⟨ev, hev, hsucc⟩
          rw [htr] at hev
          exact absurd ⟨ev, hev, hsucc⟩ hnosucc
  | true =>
      obtain ⟨ev0, hev0, hs0⟩ := hflag'.1 hp2
      have hmem : ∀ t, ev0 ∈ Event.reconfigureUnbound t :: p.1.trace := by
        intro t
        refine List.mem_cons_of_mem _ ?_
        rw [htr]
        exact hev0
      by_cases hrc : f.reconfigureFail = true
      · simp only [cfReloadStep, hp2, if_true, unboundApplyChanges, hrc]
        refine ⟨?_, fun _ => trivial, fun hc => absurd hc (by simp)⟩
        constructor
        · intro _
          exact ⟨false, List.mem_cons_self _ _⟩
        · intro _
          exact ⟨ev0, hmem false, hs0⟩
      · have hrc' : f.reconfigureFail = false := eq_false_of_ne_true hrc
        simp only [cfReloadStep, hp2, if_true, unboundApplyChanges, hrc',
          Bool.false_eq_true, if_false]
        refine ⟨?_, fun hc => hc.elim, fun _ => ?_⟩
        · constructor
          · intro _
            exact ⟨true, List.mem_cons_self _ _⟩
          · intro _
            exact ⟨ev0, hmem true, hs0⟩
        · constructor
          · intro _
            exact ⟨ev0, hmem true, hs0⟩
          · intro _
            trivial

/-- **C2** (amended): in `applyCloudflareChanges` (cloudflare.go lines
150–292) the Unbound reconfigure call appears in the trace iff at least
one create/update/delete mutation succeeded; with injected reload
failure the function returns `changesApplied = false` — the reload
failure is folded into the single returned flag rather than leaving it
`true`; without reload failure the returned flag is `true` iff some
mutation succeeded. -/
theorem cloudflareApplierReloadBehavior (f : Faults)
    (options : CloudflareSyncOptions) (hostnameMap : GoMap Str)
    (syncCreatedOverrides : GoMap DNSOverride)
    (toAdd toUpdate toUpdateDesc toRemove : List Str) (env : Env)
    (henv : env.trace = []) :
    ((∃ ev ∈ (applyCloudflareChangesModel f options hostnameMap
        syncCreatedOverrides toAdd toUpdate toUpdateDesc toRemove
        env).1.trace, mutationSucceeded ev = true) ↔
      ∃ ok, Event.reconfigureUnbound ok ∈
        (applyCloudflareChangesModel f options hostnameMap
          syncCreatedOverrides toAdd toUpdate toUpdateDesc toRemove
          env).1.trace) ∧
    (f.reconfigureFail = true →
      (applyCloudflareChangesModel f options hostnameMap
        syncCreatedOverrides toAdd toUpdate toUpdateDesc toRemove
        env).2 = false) ∧
    (f.reconfigureFail = false →
      ((applyCloudflareChangesModel f options hostnameMap
          syncCreatedOverrides toAdd toUpdate toUpdateDesc toRemove
          env).2 = true ↔
        ∃ ev ∈ (applyCloudflareChangesModel f options hostnameMap
          syncCreatedOverrides toAdd toUpdate toUpdateDesc toRemove
          env).1.trace, mutationSucceeded ev = true)) :=
  cfReloadStep_spec f env
    (cfSyncPrePhase f options hostnameMap syncCreatedOverrides toAdd
      toUpdate toUpdateDesc toRemove env) henv
    (cfSyncPrePhase_spec f options hostnameMap syncCreatedOverrides toAdd
      toUpdate toUpdateDesc toRemove env)

/-- Faults for the C2 witness/counterexample: only the reload fails. -/
def fltW2 : Faults := { faultsNone with reconfigureFail := true }

/-- Options for the C2 witness/counterexample. -/
def optW2 : CloudflareSyncOptions :=
  { entryDescription := str r"cloudflare-sync" }

/-- Fresh environment for the C2 witness/counterexample. -/
def envW2 : Env := {}

theorem cloudflareApplierReloadBehavior_witness :
    envW2.trace = [] ∧
    fltW2.reconfigureFail = true ∧
    (applyCloudflareChangesModel fltW2 optW2 [] []
      [str r"svc.example.com"] [] [] [] envW2).2 = false :=
  ⟨rfl, rfl,
    (cloudflareApplierReloadBehavior fltW2 optW2 [] []
      [str r"svc.example.com"] [] [] [] envW2 rfl).2.1 rfl⟩

/-- **C2 counterexample**: one add succeeds, the reload fails, and
`applyCloudflareChanges` returns `changesApplied = false` even though
the trace shows a successful mutation and the (failed) reconfigure
call — refuting the claim that the function "still reports
changesApplied = true" when only activation failed. -/
theorem cloudflareReloadFailureCounterexample :
    (applyCloudflareChangesModel fltW2 optW2 [] []
      [str r"svc.example.com"] [] [] [] envW2).2 = false ∧
    (applyCloudflareChangesModel fltW2 optW2 [] []
      [str r"svc.example.com"] [] [] []
      envW2).1.trace.any mutationSucceeded = true ∧
    (applyCloudflareChangesModel fltW2 optW2 [] []
      [str r"svc.example.com"] [] [] []
      envW2).1.trace.any isReconfigure = true := by
  decide

/-! ### The unified multi-target sync (sync_exec.go lines 869–985) -/

/-- Modelled from the spec: `applyChanges` lives in `sync/caddy.go`,
which is absent from these sources, so this definition follows §4.4 of
the specification rather than code. The applier runs the add, update,
update-description and remove change sets sequentially against the
Unbound client, continuing past per-entry failures, with
`changesApplied` true iff at least one mutation succeeded; the
per-entry mutations are the same resolver calls as in
`applyCloudflareChangesModel`, so its pre-reload phase is reused. After
the mutations the reconfigure/reload call is issued when changes were
made, and per §4.4 a reload failure leaves `changesApplied = true`. -/
def applyChanges (f : Faults) (options : CaddySyncOptions)
    (hostnameMap : GoMap Str) (syncCreatedOverrides : GoMap DNSOverride)
    (toAdd toUpdate toUpdateDesc toRemove : List Str) (env : Env) :
    Env × Bool :=
  let r4 := cfSyncPrePhase f
    { entryDescription := options.entryDescription } hostnameMap
    syncCreatedOverrides toAdd toUpdate toUpdateDesc toRemove env
  if r4.2 then ((unboundApplyChanges f r4.1).1, r4.2)
  else r4

/-- `syncCaddyWithUnboundInternal` (sync_exec.go lines 988–1076): fetch
the existing overrides, classify and diff against the pre-fetched
hostname map, then apply unless dry-run (`applyChanges` itself is
spec-modelled, see above). -/
def syncCaddyWithUnboundInternalModel (f : Faults)
    (options : CaddySyncOptions) (hostnameMap : GoMap Str) (env : Env) :
    Env × Except Str SyncResultM :=
  let g := unboundGetOverrides f env
  match g.2 with
  | Except.error e =>
      (g.1, Except.error (str r"error fetching overrides: " ++ e))
  | Except.ok existingOverrides =>
      let r := computeUnboundChangeSets options hostnameMap
        existingOverrides
      let ap :=
        if options.dryRun then (g.1, false)
        else applyChanges f options hostnameMap r.2.1
          r.1.toAdd r.1.toUpdate r.1.toUpdateDesc r.1.toRemove g.1
      (ap.1, Except.ok
        { hostnameMap := hostnameMap, toAdd := r.1.toAdd,
          toUpdate := r.1.toUpdate, toUpdateDesc := r.1.toUpdateDesc,
          toRemove := r.1.toRemove, changesApplied := ap.2,
          syncOverrides := r.2.1, otherOverrides := r.2.2,
          existingCount := existingOverrides.length })

/-- `sync.CommonSyncOptions` (sync_exec.go lines 870–877). -/
structure CommonSyncOptions where
  dryRun : Bool := false
  caddyServerIP : Str := []
  caddyServerPort : Int := 0
  entryDescription : Str := []
  legacyDescriptions : List Str := []
  verbose : Bool := false

/-- `sync.UnifiedSyncResult` (sync_exec.go lines 880–888); Go errors
are modeled as `Option Str`. -/
structure UnifiedSyncResultM where
  hostnameMap : GoMap Str := []
  unboundResult : Option SyncResultM := none
  adguardResult : Option AdguardSyncResultM := none
  syncedToUnbound : Bool := false
  syncedToAdguard : Bool := false
  unboundError : Option Str := none
  adguardError : Option Str := none
deriving DecidableEq, Repr

/-- Converts a `CommonSyncOptions` into the per-target Unbound options
(sync_exec.go lines 921–928). -/
def toCaddySyncOptions (options : CommonSyncOptions) : CaddySyncOptions :=
  { dryRun := options.dryRun, caddyServerIP := options.caddyServerIP,
    caddyServerPort := options.caddyServerPort,
    entryDescription := options.entryDescription,
    legacyDescriptions := options.legacyDescriptions,
    verbose := options.verbose }

/-- Converts a `CommonSyncOptions` into the per-target AdguardHome
options (sync_exec.go lines 948–955). -/
def toAdguardSyncOptions (options : CommonSyncOptions) :
    CaddyAdguardSyncOptions :=
  { dryRun := options.dryRun, caddyServerIP := options.caddyServerIP,
    caddyServerPort := options.caddyServerPort,
    entryDescription := options.entryDescription,
    legacyDescriptions := options.legacyDescriptions,
    verbose := options.verbose }

/-- `UnifiedCaddySync` (sync_exec.go lines 891–985): fetch the Caddy
hostname map once (`caddyResp` is the fetch outcome, recorded as one
`fetchCaddy` event), return early on fetch error or empty map, then run
each enabled target's internal sync on the same map, storing each
target's error in its own slot; the combined error message names the
failed targets. Go's nil-able clients become the two `Bool` flags, and
the `(result, err)` pair becomes `Option UnifiedSyncResultM ×
Option Str`. -/
def UnifiedCaddySyncModel (f : Faults)
    (unboundEnabled adguardEnabled : Bool) (options : CommonSyncOptions)
    (caddyResp : Except Str (GoMap Str)) (env : Env) :
    Env × Option UnifiedSyncResultM × Option Str :=
  let env1 := { env with trace := Event.fetchCaddy :: env.trace }
  match caddyResp with
  | Except.error e =>
      (env1, none, some (str r"error fetching Caddy hostnames: " ++ e))
  | Except.ok hostnameMap =>
      let result0 : UnifiedSyncResultM :=
        { hostnameMap := hostnameMap,
          syncedToUnbound := unboundEnabled,
          syncedToAdguard := adguardEnabled }
      if hostnameMap.length = 0 then (env1, some result0, none)
      else
        let s1 : Env × Option SyncResultM × Option Str :=
          if unboundEnabled then
            let u := syncCaddyWithUnboundInternalModel f
              (toCaddySyncOptions options) hostnameMap env1
            match u.2 with
            | Except.error e => (u.1, none, some e)
            | Except.ok r => (u.1, some r, none)
          else (env1, none, none)
        let s2 : Env × Option AdguardSyncResultM × Option Str :=
          if adguardEnabled then
            let a := syncCaddyWithAdguardInternalModel f
              (toAdguardSyncOptions options) hostnameMap s1.1
            match a.2 with
            | Except.error e => (a.1, none, some e)
            | Except.ok r => (a.1, some r, none)
          else (s1.1, none, none)
        let result : UnifiedSyncResultM :=
          { result0 with
            unboundResult := s1.2.1, adguardResult := s2.2.1,
            unboundError := s1.2.2, adguardError := s2.2.2 }
        let errMsg : Option Str :=
          match s1.2.2, s2.2.2 with
          | some ue, some ae =>
              some (str r"both UnboundDNS (" ++ ue ++
                str r") and AdguardHome (" ++ ae ++ str r") sync failed")
          | some ue, none => some (str r"UnboundDNS sync failed: " ++ ue)
          | none, some ae => some (str r"AdguardHome sync failed: " ++ ae)
          | none, none => none
        (s2.1, some result, errMsg)

/-! ### Trace classification for the single-fetch property -/

/-- Whether an event is the Caddy hostname fetch. -/
def isFetchCaddy : Event → Bool
  | Event.fetchCaddy => true
  | _ => false

/-- `env'` extends `env` by remote-DNS calls only, no Caddy fetch. -/
def NoFetchExt (env env' : Env) : Prop :=
  ∃ d, env'.trace = d ++ env.trace ∧ ∀ ev ∈ d, isFetchCaddy ev = false

theorem noFetchExt_comp {e1 e2 e3 : Env} (h1 : NoFetchExt e1 e2)
    (h2 : NoFetchExt e2 e3) : NoFetchExt e1 e3 := by
  obtain ⟨d1, ht1, hd1⟩ := h1
  obtain ⟨d2, ht2, hd2⟩ := h2
  refine ⟨d2 ++ d1, by rw [ht2, ht1, List.append_assoc], ?_⟩
  intro ev hev
  rcases List.mem_append.1 hev with h' | h'
  · exact hd2 ev h'
  · exact hd1 ev h'

theorem noFetchExt_countP {env env' : Env} (h : NoFetchExt env env') :
    env'.trace.countP isFetchCaddy = env.trace.countP isFetchCaddy := by
  obtain ⟨d, ht, hd⟩ := h
  rw [ht, List.countP_append]
  have hz : d.countP isFetchCaddy = 0 := by
    rw [List.countP_eq_zero]
    intro ev hev
    simp [hd ev hev]
  omega

theorem unboundGetOverrides_noFetch (f : Faults) (env : Env) :
    NoFetchExt env (unboundGetOverrides f env).1 := by
  refine ⟨[Event.listOverrides], ?_, by simp [isFetchCaddy]⟩
  by_cases hl : f.listOverridesFail = true <;>
    simp [unboundGetOverrides, hl]

theorem unboundAddOverride_noFetch (f : Faults) (env : Env)
    (o : DNSOverride) : NoFetchExt env (unboundAddOverride f env o).1 := by
  simp only [unboundAddOverride, isOverrideExists, unboundGetOverrides]
  by_cases hl : f.listOverridesFail = true
  · refine ⟨[Event.listOverrides], ?_, ?_⟩ <;> simp [hl, isFetchCaddy]
  · simp only [eq_false_of_ne_true hl, Bool.false_eq_true, if_false]
    cases hfind : env.overrides.find?
        (fun e => equalFold e.host o.host && equalFold e.domain o.domain) with
    | some e0 =>
        refine ⟨[Event.listOverrides], ?_, ?_⟩ <;>
          simp [hfind, isFetchCaddy]
    | none =>
        by_cases ha : f.addOverrideFail o = true
        · refine ⟨[Event.addOverride o false, Event.listOverrides],
            ?_, ?_⟩ <;> simp [hfind, ha, isFetchCaddy]
        · refine ⟨[Event.addOverride o true, Event.listOverrides],
            ?_, ?_⟩ <;>
            simp [hfind, eq_false_of_ne_true ha, isFetchCaddy]

theorem unboundUpdateOverride_noFetch (f : Faults) (env : Env)
    (o : DNSOverride) :
    NoFetchExt env (unboundUpdateOverride f env o).1 := by
  simp only [unboundUpdateOverride]
  by_cases hu : o.uuid = []
  · exact ⟨[], by simp [hu], by simp⟩
  · by_cases hf : f.updateOverrideFail o = true
    · refine ⟨[Event.updateOverride o false], ?_, ?_⟩ <;>
        simp [hu, hf, isFetchCaddy]
    · by_cases hp : env.overrides.any (fun e => e.uuid = o.uuid) = true
      · refine ⟨[Event.updateOverride o true], ?_, ?_⟩ <;>
          simp [hu, eq_false_of_ne_true hf, hp, isFetchCaddy]
      · refine ⟨[Event.updateOverride o false], ?_, ?_⟩ <;>
          simp [hu, eq_false_of_ne_true hf, eq_false_of_ne_true hp,
            isFetchCaddy]

theorem unboundDeleteOverride_noFetch (f : Faults) (env : Env)
    (uuid : Str) : NoFetchExt env (unboundDeleteOverride f env uuid).1 := by
  simp only [unboundDeleteOverride]
  by_cases hf : f.deleteOverrideFail uuid = true
  · refine ⟨[Event.deleteOverride uuid false], ?_, ?_⟩ <;>
      simp [hf, isFetchCaddy]
  · by_cases hp : env.overrides.any (fun e => e.uuid = uuid) = true
    · refine ⟨[Event.deleteOverride uuid true], ?_, ?_⟩ <;>
        simp [eq_false_of_ne_true hf, hp, isFetchCaddy]
    · refine ⟨[Event.deleteOverride uuid false], ?_, ?_⟩ <;>
        simp [eq_false_of_ne_true hf, eq_false_of_ne_true hp, isFetchCaddy]

theorem unboundApplyChanges_noFetch (f : Faults) (env : Env) :
    NoFetchExt env (unboundApplyChanges f env).1 := by
  by_cases hrc : f.reconfigureFail = true
  · exact ⟨[Event.reconfigureUnbound false],
      by simp [unboundApplyChanges, hrc], by simp [isFetchCaddy]⟩
  · exact ⟨[Event.reconfigureUnbound true],
      by simp [unboundApplyChanges, eq_false_of_ne_true hrc],
      by simp [isFetchCaddy]⟩

theorem listRewrites_noFetch (f : Faults) (env : Env) :
    NoFetchExt env (listRewrites f env).1 := by
  refine ⟨[Event.listRewrites], ?_, by simp [isFetchCaddy]⟩
  by_cases hl : f.listRewritesFail = true <;> simp [listRewrites, hl]

theorem addRewrite_noFetch (f : Faults) (env : Env) (domain answer : Str) :
    NoFetchExt env (addRewrite f env domain answer).1 := by
  by_cases hf : f.addRewriteFail domain answer = true
  · exact ⟨[Event.addRewrite domain answer false],
      by simp [addRewrite, hf], by simp [isFetchCaddy]⟩
  · exact ⟨[Event.addRewrite domain answer true],
      by simp [addRewrite, eq_false_of_ne_true hf],
      by simp [isFetchCaddy]⟩

theorem updateRewrite_noFetch (f : Faults) (env : Env)
    (target update : Rewrite) :
    NoFetchExt env (updateRewrite f env target update).1 := by
  by_cases hf : f.updateRewriteFail target update = true
  · exact ⟨[Event.updateRewrite target update false],
      by simp [updateRewrite, hf], by simp [isFetchCaddy]⟩
  · exact ⟨[Event.updateRewrite target update true],
      by simp [updateRewrite, eq_false_of_ne_true hf],
      by simp [isFetchCaddy]⟩

theorem deleteRewrite_noFetch (f : Faults) (env : Env)
    (domain answer : Str) :
    NoFetchExt env (deleteRewrite f env domain answer).1 := by
  by_cases hf : f.deleteRewriteFail domain answer = true
  · exact ⟨[Event.deleteRewrite domain answer false],
      by simp [deleteRewrite, hf], by simp [isFetchCaddy]⟩
  · exact ⟨[Event.deleteRewrite domain answer true],
      by simp [deleteRewrite, eq_false_of_ne_true hf],
      by simp [isFetchCaddy]⟩

theorem cfSyncAddLoop_noFetch (f : Faults)
    (options : CloudflareSyncOptions) (hostnameMap : GoMap Str) :
    ∀ (l : List Str) (env : Env) (ch : Bool),
      NoFetchExt env (cfSyncAddLoop f options hostnameMap l env ch).1 := by
  intro l
  induction l with
  | nil => intro env ch; exact ⟨[], rfl, by simp⟩
  | cons hostname rest ih =>
      intro env ch
      simp only [cfSyncAddLoop]
      set o : DNSOverride :=
        { enabled := str r"1", host := (goSplitN2 hostname).getD 0 [],
          domain := (goSplitN2 hostname).getD 1 [],
          server := (mapFind hostnameMap hostname).getD [],
          description := options.entryDescription } with ho
      cases hres : (unboundAddOverride f env o).2 with
      | error e =>
          exact noFetchExt_comp (unboundAddOverride_noFetch f env o)
            (ih (unboundAddOverride f env o).1 ch)
      | ok u =>
          exact noFetchExt_comp (unboundAddOverride_noFetch f env o)
            (ih (unboundAddOverride f env o).1 true)

theorem cfSyncUpdateLoop_noFetch (f : Faults)
    (options : CloudflareSyncOptions) (hostnameMap : GoMap Str)
    (syncCreatedOverrides : GoMap DNSOverride) :
    ∀ (l : List Str) (env : Env) (ch : Bool),
      NoFetchExt env
        (cfSyncUpdateLoop f options hostnameMap syncCreatedOverrides l env
          ch).1 := by
  intro l
  induction l with
  | nil => intro env ch; exact ⟨[], rfl, by simp⟩
  | cons hostname rest ih =>
      intro env ch
      simp only [cfSyncUpdateLoop]
      set o : DNSOverride :=
        { (mapFind syncCreatedOverrides hostname).getD {} with
          server := (mapFind hostnameMap hostname).getD [],
          description := options.entryDescription } with ho
      cases hres : (unboundUpdateOverride f env o).2 with
      | error e =>
          exact noFetchExt_comp (unboundUpdateOverride_noFetch f env o)
            (ih (unboundUpdateOverride f env o).1 ch)
      | ok u =>
          exact noFetchExt_comp (unboundUpdateOverride_noFetch f env o)
            (ih (unboundUpdateOverride f env o).1 true)

theorem cfSyncDescLoop_noFetch (f : Faults)
    (options : CloudflareSyncOptions)
    (syncCreatedOverrides : GoMap DNSOverride) :
    ∀ (l : List Str) (env : Env) (ch : Bool),
      NoFetchExt env
        (cfSyncDescLoop f options syncCreatedOverrides l env ch).1 := by
  intro l
  induction l with
  | nil => intro env ch; exact ⟨[], rfl, by simp⟩
  | cons hostname rest ih =>
      intro env ch
      simp only [cfSyncDescLoop]
      set o : DNSOverride :=
        { (mapFind syncCreatedOverrides hostname).getD {} with
          description := options.entryDescription } with ho
      cases hres : (unboundUpdateOverride f env o).2 with
      | error e =>
          exact noFetchExt_comp (unboundUpdateOverride_noFetch f env o)
            (ih (unboundUpdateOverride f env o).1 ch)
      | ok u =>
          exact noFetchExt_comp (unboundUpdateOverride_noFetch f env o)
            (ih (unboundUpdateOverride f env o).1 true)

theorem cfSyncRemoveLoop_noFetch (f : Faults)
    (syncCreatedOverrides : GoMap DNSOverride) :
    ∀ (l : List Str) (env : Env) (ch : Bool),
      NoFetchExt env
        (cfSyncRemoveLoop f syncCreatedOverrides l env ch).1 := by
  intro l
  induction l with
  | nil => intro env ch; exact ⟨[], rfl, by simp⟩
  | cons hostname rest ih =>
      intro env ch
      simp only [cfSyncRemoveLoop]
      set u : Str := ((mapFind syncCreatedOverrides hostname).getD {}).uuid
        with hu
      cases hres : (unboundDeleteOverride f env u).2 with
      | error e =>
          exact noFetchExt_comp (unboundDeleteOverride_noFetch f env u)
            (ih (unboundDeleteOverride f env u).1 ch)
      | ok _ =>
          exact noFetchExt_comp (unboundDeleteOverride_noFetch f env u)
            (ih (unboundDeleteOverride f env u).1 true)

theorem cfSyncPrePhase_noFetch (f : Faults)
    (options : CloudflareSyncOptions) (hostnameMap : GoMap Str)
    (syncCreatedOverrides : GoMap DNSOverride)
    (toAdd toUpdate toUpdateDesc toRemove : List Str) (env : Env) :
    NoFetchExt env
      (cfSyncPrePhase f options hostnameMap syncCreatedOverrides toAdd
        toUpdate toUpdateDesc toRemove env).1 :=
  noFetchExt_comp
    (noFetchExt_comp
      (noFetchExt_comp
        (cfSyncAddLoop_noFetch f options hostnameMap toAdd env _)
        (cfSyncUpdateLoop_noFetch f options hostnameMap
          syncCreatedOverrides toUpdate _ _))
      (cfSyncDescLoop_noFetch f options syncCreatedOverrides toUpdateDesc
        _ _))
    (cfSyncRemoveLoop_noFetch f syncCreatedOverrides toRemove _ _)

theorem applyChanges_noFetch (f : Faults) (options : CaddySyncOptions)
    (hostnameMap : GoMap Str) (syncCreatedOverrides : GoMap DNSOverride)
    (toAdd toUpdate toUpdateDesc toRemove : List Str) (env : Env) :
    NoFetchExt env
      (applyChanges f options hostnameMap syncCreatedOverrides toAdd
        toUpdate toUpdateDesc toRemove env).1 := by
  simp only [applyChanges]
  by_cases h : (cfSyncPrePhase f
      { entryDescription := options.entryDescription } hostnameMap
      syncCreatedOverrides toAdd toUpdate toUpdateDesc toRemove env).2 =
      true
  · simp only [h, if_true]
    exact noFetchExt_comp
      (cfSyncPrePhase_noFetch f _ hostnameMap syncCreatedOverrides toAdd
        toUpdate toUpdateDesc toRemove env)
      (unboundApplyChanges_noFetch f _)
  · simp only [eq_false_of_ne_true h, Bool.false_eq_true, if_false]
    exact cfSyncPrePhase_noFetch f _ hostnameMap syncCreatedOverrides
      toAdd toUpdate toUpdateDesc toRemove env

theorem applyAdguardAddLoop_noFetch (f : Faults)
    (hostnameMap : GoMap Str) :
    ∀ (l : List Str) (env : Env) (ch : Bool),
      NoFetchExt env (applyAdguardAddLoop f hostnameMap l env ch).1 := by
  intro l
  induction l with
  | nil => intro env ch; exact ⟨[], rfl, by simp⟩
  | cons hostname rest ih =>
      intro env ch
      simp only [applyAdguardAddLoop]
      set ip : Str := (mapFind hostnameMap hostname).getD [] with hip
      cases hres : (addRewrite f env hostname ip).2 with
      | error e =>
          exact noFetchExt_comp (addRewrite_noFetch f env hostname ip)
            (ih (addRewrite f env hostname ip).1 ch)
      | ok _ =>
          exact noFetchExt_comp (addRewrite_noFetch f env hostname ip)
            (ih (addRewrite f env hostname ip).1 true)

theorem applyAdguardUpdateLoop_noFetch (f : Faults)
    (hostnameMap : GoMap Str) (syncRewriteMap : GoMap Rewrite) :
    ∀ (l : List Str) (env : Env) (ch : Bool),
      NoFetchExt env
        (applyAdguardUpdateLoop f hostnameMap syncRewriteMap l env
          ch).1 := by
  intro l
  induction l with
  | nil => intro env ch; exact ⟨[], rfl, by simp⟩
  | cons hostname rest ih =>
      intro env ch
      simp only [applyAdguardUpdateLoop]
      set tgt : Rewrite := (mapFind syncRewriteMap hostname).getD {}
        with htgt
      set upd : Rewrite :=
        ⟨hostname, (mapFind hostnameMap hostname).getD []⟩ with hupd
      cases hres : (updateRewrite f env tgt upd).2 with
      | error e =>
          exact noFetchExt_comp (updateRewrite_noFetch f env tgt upd)
            (ih (updateRewrite f env tgt upd).1 ch)
      | ok _ =>
          exact noFetchExt_comp (updateRewrite_noFetch f env tgt upd)
            (ih (updateRewrite f env tgt upd).1 true)

theorem applyAdguardRemoveLoop_noFetch (f : Faults)
    (syncRewriteMap : GoMap Rewrite) :
    ∀ (l : List Str) (env : Env) (ch : Bool),
      NoFetchExt env
        (applyAdguardRemoveLoop f syncRewriteMap l env ch).1 := by
  intro l
  induction l with
  | nil => intro env ch; exact ⟨[], rfl, by simp⟩
  | cons hostname rest ih =>
      intro env ch
      simp only [applyAdguardRemoveLoop]
      set ans : Str := ((mapFind syncRewriteMap hostname).getD {}).answer
        with hans
      cases hres : (deleteRewrite f env hostname ans).2 with
      | error e =>
          exact noFetchExt_comp (deleteRewrite_noFetch f env hostname ans)
            (ih (deleteRewrite f env hostname ans).1 ch)
      | ok _ =>
          exact noFetchExt_comp (deleteRewrite_noFetch f env hostname ans)
            (ih (deleteRewrite f env hostname ans).1 true)

theorem applyAdguardChanges_noFetch (f : Faults)
    (hostnameMap : GoMap Str) (syncRewriteMap : GoMap Rewrite)
    (toAdd toUpdate toRemove : List Str) (env : Env) :
    NoFetchExt env
      (applyAdguardChanges f hostnameMap syncRewriteMap toAdd toUpdate
        toRemove env).1 :=
  noFetchExt_comp
    (noFetchExt_comp
      (applyAdguardAddLoop_noFetch f hostnameMap toAdd env _)
      (applyAdguardUpdateLoop_noFetch f hostnameMap syncRewriteMap
        toUpdate _ _))
    (applyAdguardRemoveLoop_noFetch f syncRewriteMap toRemove _ _)

theorem syncCaddyWithUnboundInternalModel_noFetch (f : Faults)
    (options : CaddySyncOptions) (hostnameMap : GoMap Str) (env : Env) :
    NoFetchExt env
      (syncCaddyWithUnboundInternalModel f options hostnameMap env).1 := by
  simp only [syncCaddyWithUnboundInternalModel]
  cases hg : (unboundGetOverrides f env).2 with
  | error e =>
      simp only [hg]
      exact unboundGetOverrides_noFetch f env
  | ok existingOverrides =>
      simp only [hg]
      by_cases hd : options.dryRun = true
      · simp only [hd, if_true]
        exact unboundGetOverrides_noFetch f env
      · simp only [eq_false_of_ne_true hd, Bool.false_eq_true, if_false]
        exact noFetchExt_comp (unboundGetOverrides_noFetch f env)
          (applyChanges_noFetch f options hostnameMap _ _ _ _ _ _)

theorem syncCaddyWithAdguardInternalModel_noFetch (f : Faults)
    (options : CaddyAdguardSyncOptions) (hostnameMap : GoMap Str)
    (env : Env) :
    NoFetchExt env
      (syncCaddyWithAdguardInternalModel f options hostnameMap env).1 := by
  simp only [syncCaddyWithAdguardInternalModel]
  cases hl : (listRewrites f env).2 with
  | error e =>
      simp only [hl]
      exact listRewrites_noFetch f env
  | ok existingRewrites =>
      simp only [hl]
      by_cases hd : options.dryRun = true
      · simp only [hd, if_true]
        exact listRewrites_noFetch f env
      · simp only [eq_false_of_ne_true hd, Bool.false_eq_true, if_false]
        exact noFetchExt_comp (listRewrites_noFetch f env)
          (applyAdguardChanges_noFetch f hostnameMap _ _ _ _ _)

theorem syncUnboundInternal_listFail (f : Faults)
    (options : CaddySyncOptions) (hostnameMap : GoMap Str) (env : Env)
    (h : f.listOverridesFail = true) :
    (syncCaddyWithUnboundInternalModel f options hostnameMap env).2 =
      Except.error (str r"error fetching overrides: " ++
        str r"list overrides failed") := by
  simp [syncCaddyWithUnboundInternalModel, unboundGetOverrides, h]

theorem syncAdguardInternal_listOk (f : Faults)
    (options : CaddyAdguardSyncOptions) (hostnameMap : GoMap Str)
    (env : Env) (h : f.listRewritesFail = false) :
    ∃ res, (syncCaddyWithAdguardInternalModel f options hostnameMap
      env).2 = Except.ok res := by
  simp only [syncCaddyWithAdguardInternalModel, listRewrites, h,
    Bool.false_eq_true, if_false]
  exact ⟨_, rfl⟩

theorem syncUnboundInternal_ok_map (f : Faults)
    (options : CaddySyncOptions) (hostnameMap : GoMap Str) (env : Env)
    (r : SyncResultM)
    (h : (syncCaddyWithUnboundInternalModel f options hostnameMap
      env).2 = Except.ok r) : r.hostnameMap = hostnameMap := by
  simp only [syncCaddyWithUnboundInternalModel] at h
  cases hg : (unboundGetOverrides f env).2 with
  | error e =>
      rw [hg] at h
      cases h
  | ok existingOverrides =>
      rw [hg] at h
      cases h
      rfl

theorem syncAdguardInternal_ok_map (f : Faults)
    (options : CaddyAdguardSyncOptions) (hostnameMap : GoMap Str)
    (env : Env) (r : AdguardSyncResultM)
    (h : (syncCaddyWithAdguardInternalModel f options hostnameMap
      env).2 = Except.ok r) : r.hostnameMap = hostnameMap := by
  simp only [syncCaddyWithAdguardInternalModel] at h
  cases hl : (listRewrites f env).2 with
  | error e =>
      rw [hl] at h
      cases h
  | ok existingRewrites =>
      rw [hl] at h
      cases h
      rfl

/-- **C8**: `UnifiedCaddySync` (sync_exec.go lines 891–985), run with
both targets enabled on a successfully fetched non-empty hostname map:
the trace gains exactly one Caddy fetch event (the mapping is fetched
once and shared); the result object is always returned and carries that
mapping, and each target result that exists was computed from the same
mapping; the combined error names exactly the failed targets with the
messages from lines 971–980; and a failed Unbound listing fills only the
Unbound error slot while the AdguardHome sync still runs and produces
its result. `applyChanges` inside the Unbound target is spec-modelled
(its source file is absent). -/
theorem unifiedSyncSharedFetchAndIsolation (f : Faults)
    (options : CommonSyncOptions) (hostnameMap : GoMap Str) (env : Env)
    (hne : hostnameMap.length ≠ 0) :
    (UnifiedCaddySyncModel f true true options (Except.ok hostnameMap)
        env).1.trace.countP isFetchCaddy =
      env.trace.countP isFetchCaddy + 1 ∧
    (∃ res, (UnifiedCaddySyncModel f true true options
        (Except.ok hostnameMap) env).2.1 = some res ∧
      res.hostnameMap = hostnameMap ∧
      (∀ sr, res.unboundResult = some sr →
        sr.hostnameMap = hostnameMap) ∧
      (∀ ar, res.adguardResult = some ar →
        ar.hostnameMap = hostnameMap) ∧
      ((UnifiedCaddySyncModel f true true options
          (Except.ok hostnameMap) env).2.2 =
        match res.unboundError, res.adguardError with
        | some ue, some ae =>
            some (str r"both UnboundDNS (" ++ ue ++
              str r") and AdguardHome (" ++ ae ++ str r") sync failed")
        | some ue, none => some (str r"UnboundDNS sync failed: " ++ ue)
        | none, some ae => some (str r"AdguardHome sync failed: " ++ ae)
        | none, none => none) ∧
      (f.listOverridesFail = true → f.listRewritesFail = false →
        res.unboundError.isSome = true ∧
          res.adguardResult.isSome = true)) := by
  simp only [UnifiedCaddySyncModel, if_neg hne, if_true]
  set env1 : Env := { env with trace := Event.fetchCaddy :: env.trace }
    with henv1
  have hcount1 : env1.trace.countP isFetchCaddy =
      env.trace.countP isFetchCaddy + 1 := by
    rw [henv1]
    simp [List.countP_cons, isFetchCaddy]
  have hnfu : NoFetchExt env1
      (syncCaddyWithUnboundInternalModel f (toCaddySyncOptions options)
        hostnameMap env1).1 :=
    syncCaddyWithUnboundInternalModel_noFetch f _ hostnameMap env1
  cases hu : (syncCaddyWithUnboundInternalModel f
      (toCaddySyncOptions options) hostnameMap env1).2 with
  | error ue =>
      simp only [hu]
      have hnfa : NoFetchExt
          (syncCaddyWithUnboundInternalModel f (toCaddySyncOptions options)
            hostnameMap env1).1
          (syncCaddyWithAdguardInternalModel f
            (toAdguardSyncOptions options) hostnameMap
            (syncCaddyWithUnboundInternalModel f
              (toCaddySyncOptions options) hostnameMap env1).1).1 :=
        syncCaddyWithAdguardInternalModel_noFetch f _ hostnameMap _
      cases ha : (syncCaddyWithAdguardInternalModel f
          (toAdguardSyncOptions options) hostnameMap
          (syncCaddyWithUnboundInternalModel f
            (toCaddySyncOptions options) hostnameMap env1).1).2 with
      | error ae =>
          simp only [ha]
          refine ⟨?_, ⟨_, rfl, rfl, ?_, ?_, rfl, ?_⟩⟩
          · rw [noFetchExt_countP (noFetchExt_comp hnfu hnfa)]
            exact hcount1
          · intro sr hsr
            simp at hsr
          · intro ar har
            simp at har
          · intro _ hlr
            obtain ⟨r0, hr0⟩ := syncAdguardInternal_listOk f
              (toAdguardSyncOptions options) hostnameMap _ hlr
            rw [hr0] at ha
            cases ha
      | ok ar =>
          simp only [ha]
          refine ⟨?_, ⟨_, rfl, rfl, ?_, ?_, rfl, ?_⟩⟩
          · rw [noFetchExt_countP (noFetchExt_comp hnfu hnfa)]
            exact hcount1
          · intro sr hsr
            simp at hsr
          · intro ar' har'
            simp at har'
            rw [← har']
            exact syncAdguardInternal_ok_map f
              (toAdguardSyncOptions options) hostnameMap _ ar ha
          · intro _ _
            simp
  | ok ur =>
      simp only [hu]
      have hnfa : NoFetchExt
          (syncCaddyWithUnboundInternalModel f (toCaddySyncOptions options)
            hostnameMap env1).1
          (syncCaddyWithAdguardInternalModel f
            (toAdguardSyncOptions options) hostnameMap
            (syncCaddyWithUnboundInternalModel f
              (toCaddySyncOptions options) hostnameMap env1).1).1 :=
        syncCaddyWithAdguardInternalModel_noFetch f _ hostnameMap _
      cases ha : (syncCaddyWithAdguardInternalModel f
          (toAdguardSyncOptions options) hostnameMap
          (syncCaddyWithUnboundInternalModel f
            (toCaddySyncOptions options) hostnameMap env1).1).2 with
      | error ae =>
          simp only [ha]
          refine ⟨?_, ⟨_, rfl, rfl, ?_, ?_, rfl, ?_⟩⟩
          · rw [noFetchExt_countP (noFetchExt_comp hnfu hnfa)]
            exact hcount1
          · intro sr hsr
            simp at hsr
            rw [← hsr]
            exact syncUnboundInternal_ok_map f
              (toCaddySyncOptions options) hostnameMap env1 ur hu
          · intro ar har
            simp at har
          · intro hlo _
            rw [syncUnboundInternal_listFail f _ hostnameMap env1 hlo]
              at hu
            cases hu
      | ok ar =>
          simp only [ha]
          refine ⟨?_, ⟨_, rfl, rfl, ?_, ?_, rfl, ?_⟩⟩
          · rw [noFetchExt_countP (noFetchExt_comp hnfu hnfa)]
            exact hcount1
          · intro sr hsr
            simp at hsr
            rw [← hsr]
            exact syncUnboundInternal_ok_map f
              (toCaddySyncOptions options) hostnameMap env1 ur hu
          · intro ar' har'
            simp at har'
            rw [← har']
            exact syncAdguardInternal_ok_map f
              (toAdguardSyncOptions options) hostnameMap _ ar ha
          · intro hlo _
            rw [syncUnboundInternal_listFail f _ hostnameMap env1 hlo]
              at hu
            cases hu

/-- Hostname map for the C8 witness. -/
def mapW8 : GoMap Str := [(str r"svc.example.com", str r"10.0.0.2")]

theorem unifiedSyncSharedFetchAndIsolation_witness :
    mapW8.length ≠ 0 ∧
    ((UnifiedCaddySyncModel faultsNone true true {} (Except.ok mapW8)
        ({} : Env)).1.trace.countP isFetchCaddy =
      ({} : Env).trace.countP isFetchCaddy + 1 ∧
    (∃ res, (UnifiedCaddySyncModel faultsNone true true {}
        (Except.ok mapW8) ({} : Env)).2.1 = some res ∧
      res.hostnameMap = mapW8 ∧
      (∀ sr, res.unboundResult = some sr → sr.hostnameMap = mapW8) ∧
      (∀ ar, res.adguardResult = some ar → ar.hostnameMap = mapW8) ∧
      ((UnifiedCaddySyncModel faultsNone true true {}
          (Except.ok mapW8) ({} : Env)).2.2 =
        match res.unboundError, res.adguardError with
        | some ue, some ae =>
            some (str r"both UnboundDNS (" ++ ue ++
              str r") and AdguardHome (" ++ ae ++ str r") sync failed")
        | some ue, none => some (str r"UnboundDNS sync failed: " ++ ue)
        | none, some ae => some (str r"AdguardHome sync failed: " ++ ae)
        | none, none => none) ∧
      (faultsNone.listOverridesFail = true →
        faultsNone.listRewritesFail = false →
        res.unboundError.isSome = true ∧
          res.adguardResult.isSome = true))) :=
  ⟨by decide,
    unifiedSyncSharedFetchAndIsolation faultsNone {} mapW8 {} (by decide)⟩

/-- **C9**: on an empty extracted hostname map every sync entry point
returns immediately: the unified sync returns the partial result with
no per-target results or errors, the standalone AdguardHome sync and
the Cloudflare sync return a result whose change sets are all empty
with `changesApplied = false`, and in each case the environment is
unchanged except for the single source-fetch trace event — no listing,
no diff, and no mutation against any target, so no owned entry is
touched. -/
theorem emptyMappingEarlyReturn (f : Faults) (ue ae : Bool)
    (co : CommonSyncOptions) (ao : CaddyAdguardSyncOptions)
    (cfo : CloudflareSyncOptions) (env : Env) :
    UnifiedCaddySyncModel f ue ae co (Except.ok []) env =
      ({ env with trace := Event.fetchCaddy :: env.trace },
        some { hostnameMap := [], syncedToUnbound := ue,
               syncedToAdguard := ae }, none) ∧
    syncCaddyWithAdguardModel f ao (Except.ok []) env =
      ({ env with trace := Event.fetchCaddy :: env.trace },
        Except.ok { hostnameMap := [] }) ∧
    syncCloudflareWithUnboundModel f cfo (Except.ok []) env =
      ({ env with trace := Event.fetchTunnel :: env.trace },
        Except.ok { hostnameMap := [] }) :=
  ⟨rfl, rfl, rfl⟩

/-! ### Idempotence of the Cloudflare-to-Unbound sync (C5 development) -/

/-- `strings.SplitN(h, ".", 2)[0]`. -/
def dotHead (h : Str) : Str := (goSplitN2 h).getD 0 []

/-- `strings.SplitN(h, ".", 2)[1]` (empty when there is no dot). -/
def dotTail (h : Str) : Str := (goSplitN2 h).getD 1 []

theorem breakAtDot_append : ∀ {s : Str} {p : Str × Str},
    breakAtDot s = some p → p.1 ++ '.' :: p.2 = s := by
  intro s
  induction s with
  | nil => intro p hp; simp [breakAtDot] at hp
  | cons c cs ih =>
      intro p hp
      by_cases hc : c = '.'
      · simp only [breakAtDot, hc, if_true] at hp
        cases hp
        simp [hc]
      · simp only [breakAtDot, hc, if_false] at hp
        cases hq : breakAtDot cs with
        | none => rw [hq] at hp; cases hp
        | some q =>
            rw [hq] at hp
            cases hp
            have := ih hq
            simp [this]

theorem splitKey_reconstruct {h : Str} (hdot : containsDot h = true) :
    dotHead h ++ '.' :: dotTail h = h := by
  obtain ⟨p, hp⟩ := Option.isSome_iff_exists.1 (breakAtDot_isSome hdot)
  have := breakAtDot_append hp
  simp only [dotHead, dotTail, goSplitN2, hp]
  simpa using this

/-- With pairwise distinct UUIDs, an entry is determined by its UUID. -/
theorem uuid_unique {E : List DNSOverride} {e1 e2 : DNSOverride}
    (hUn : (E.map (fun e => e.uuid)).Nodup) (h1 : e1 ∈ E) (h2 : e2 ∈ E)
    (he : e1.uuid = e2.uuid) : e1 = e2 :=
  List.inj_on_of_nodup_map hUn h1 h2 he

/-- With pairwise distinct keys, an entry is determined by its key. -/
theorem key_unique {E : List DNSOverride} {e1 e2 : DNSOverride}
    (hEk : (E.map overrideKey).Nodup) (h1 : e1 ∈ E) (h2 : e2 ∈ E)
    (he : overrideKey e1 = overrideKey e2) : e1 = e2 :=
  List.inj_on_of_nodup_map hEk h1 h2 he

theorem classifyLoop_sync_isSome_mono {d : Str} {L : List Str}
    {E : List DNSOverride} {k : Str}
    (acc : GoMap DNSOverride × GoMap DNSOverride)
    (h : (mapFind acc.1 k).isSome) :
    (mapFind (classifyLoop d L acc E).1 k).isSome := by
  induction E generalizing acc with
  | nil => exact h
  | cons o rest ih =>
      simp only [classifyLoop]
      by_cases ho : descOwned o.description d L = true
      · simp only [ho, if_true]
        exact ih _ (mapFind_insert_isSome_mono h)
      · simp only [eq_false_of_ne_true ho, Bool.false_eq_true, if_false]
        exact ih _ h

theorem classifyLoop_sync_isSome {d : Str} {L : List Str}
    {E : List DNSOverride} {e : DNSOverride}
    (acc : GoMap DNSOverride × GoMap DNSOverride)
    (hmem : e ∈ E) (hf : descOwned e.description d L = true) :
    (mapFind (classifyLoop d L acc E).1 (overrideKey e)).isSome := by
  induction E generalizing acc with
  | nil => simp at hmem
  | cons o rest ih =>
      simp only [classifyLoop]
      rcases List.mem_cons.1 hmem with h' | h'
      · subst h'
        simp only [hf, if_true]
        exact classifyLoop_sync_isSome_mono _ (by simp [mapFind_insert_self])
      · by_cases ho : descOwned o.description d L = true
        · simp only [ho, if_true]
          exact ih _ h'
        · simp only [eq_false_of_ne_true ho, Bool.false_eq_true, if_false]
          exact ih _ h'

theorem classify_sync_find_of_owned {d : Str} {L : List Str}
    {E : List DNSOverride} {e : DNSOverride}
    (hEk : (E.map overrideKey).Nodup) (he : e ∈ E)
    (ho : descOwned e.description d L = true) :
    mapFind (classifyOverrides E d L).1 (overrideKey e) = some e := by
  have hsome : (mapFind (classifyOverrides E d L).1
      (overrideKey e)).isSome := classifyLoop_sync_isSome _ he ho
  obtain ⟨e', he'⟩ := Option.isSome_iff_exists.1 hsome
  have hmem := mapFind_mem he'
  rcases classifyLoop_sync_mem hmem with h' | h'
  · simp at h'
  · have : e' = e := key_unique hEk h'.1 he h'.2.1.symm
    rw [he', this]

/-- Every existing entry's key is bound in one of the two
classification maps (partition completeness). -/
theorem classify_covers {d : Str} {L : List Str} {E : List DNSOverride}
    {e : DNSOverride} (he : e ∈ E) :
    (mapFind (classifyOverrides E d L).1 (overrideKey e)).isSome ∨
      (mapFind (classifyOverrides E d L).2 (overrideKey e)).isSome := by
  by_cases ho : descOwned e.description d L = true
  · exact Or.inl (classifyLoop_sync_isSome _ he ho)
  · exact Or.inr (classifyLoop_other_isSome _ he (eq_false_of_ne_true ho))

theorem cfReloadStep_overrides (f : Faults) (p : Env × Bool) :
    (cfReloadStep f p).1.overrides = p.1.overrides := by
  simp only [cfReloadStep]
  by_cases h : p.2 = true
  · simp only [h, if_true, unboundApplyChanges]
    by_cases hrc : f.reconfigureFail = true <;> simp [hrc]
  · simp [eq_false_of_ne_true h]

theorem unboundGetOverrides_state (f : Faults) (env : Env) :
    (unboundGetOverrides f env).1.overrides = env.overrides ∧
      (unboundGetOverrides f env).1.uuidSeq = env.uuidSeq := by
  by_cases hl : f.listOverridesFail = true <;>
    simp [unboundGetOverrides, hl]

/-- A fault-free remote with the given server-side UUID generator. -/
def mkFreshFaults (g : Nat → Str) : Faults := { faultsNone with uuidGen := g }

/-- The override stored by a successful add of hostname `h` with UUID
`u` (the record built at cloudflare.go lines 168–174, plus the
server-assigned UUID). -/
def mkAddedOverride (options : CloudflareSyncOptions)
    (hostnameMap : GoMap Str) (h u : Str) : DNSOverride :=
  { uuid := u, enabled := str r"1", host := dotHead h,
    domain := dotTail h,
    server := (mapFind hostnameMap h).getD [],
    description := options.entryDescription }

/-- An existing entry matches hostname `h` under the case-insensitive
duplicate check of `Client.AddOverride`. -/
def caseCollides (e : DNSOverride) (h : Str) : Prop :=
  equalFold e.host (dotHead h) = true ∧
    equalFold e.domain (dotTail h) = true

/-- The stored override targeted at key `h` by the update, description
and remove loops. -/
def updTgt (S : GoMap DNSOverride) (h : Str) : DNSOverride :=
  (mapFind S h).getD {}

/-- The record written by the IP-update loop. -/
def updOvr (options : CloudflareSyncOptions) (hostnameMap : GoMap Str)
    (S : GoMap DNSOverride) (h : Str) : DNSOverride :=
  { updTgt S h with
    server := (mapFind hostnameMap h).getD [],
    description := options.entryDescription }

/-- The record written by the description-update loop. -/
def descOvr (options : CloudflareSyncOptions) (S : GoMap DNSOverride)
    (h : Str) : DNSOverride :=
  { updTgt S h with description := options.entryDescription }

theorem toAdd_of_conds {S O : GoMap DNSOverride} {d : Str}
    {M : List (Str × Str)} {h ip : Str}
    (hm : (h, ip) ∈ M) (hdot : containsDot h = true)
    (hS : mapFind S h = none) (hO : mapFind O h = none) :
    h ∈ (processHostnames S O d M).1 := by
  rw [processHostnames_eq]
  simp only [List.mem_filterMap]
  refine ⟨(h, ip), hm, ?_⟩
  simp [addSel, hdot, hS, hO]

theorem mem_filterMap_keys {α : Type} {M : List (Str × α)}
    {sel : Str × α → Option Str}
    (hsel : ∀ p h, sel p = some h → h = p.1) {h : Str}
    (hmem : h ∈ M.filterMap sel) : h ∈ M.map Prod.fst := by
  simp only [List.mem_filterMap] at hmem
  obtain ⟨p, hp, hs⟩ := hmem
  have := hsel p h hs
  subst this
  exact List.mem_map_of_mem _ hp

theorem filterMap_keys_nodup {α : Type} {M : List (Str × α)}
    {sel : Str × α → Option Str}
    (hsel : ∀ p h, sel p = some h → h = p.1)
    (hnd : (M.map Prod.fst).Nodup) : (M.filterMap sel).Nodup := by
  induction M with
  | nil => simp
  | cons p rest ih =>
      simp only [List.map_cons, List.nodup_cons] at hnd
      simp only [List.filterMap_cons]
      cases hs : sel p with
      | none => exact ih hnd.2
      | some h =>
          have hh := hsel p h hs
          subst hh
          refine List.nodup_cons.2 ⟨?_, ih hnd.2⟩
          intro hmem
          exact hnd.1 (mem_filterMap_keys hsel hmem)

theorem addSel_key {S O : GoMap DNSOverride} :
    ∀ (p : Str × Str) (h : Str), addSel S O p = some h → h = p.1 := by
  intro p h hs
  exact (addSel_eq_some hs).1.symm

theorem updSel_key {S : GoMap DNSOverride} :
    ∀ (p : Str × Str) (h : Str), updSel S p = some h → h = p.1 := by
  intro p h hs
  exact (updSel_eq_some hs).1.symm

theorem descSel_key {S : GoMap DNSOverride} {d : Str} :
    ∀ (p : Str × Str) (h : Str), descSel S d p = some h → h = p.1 := by
  intro p h hs
  exact (descSel_eq_some hs).1.symm

theorem findToRemove_nodup {α : Type} {hostnameMap : GoMap Str}
    {S : GoMap α} (hnd : (mapKeys S).Nodup) :
    (findToRemove hostnameMap S).Nodup := by
  rw [goFindToRemoveSel_eq]
  refine filterMap_keys_nodup ?_ hnd
  intro p h hs
  by_cases h0 : (mapFind hostnameMap p.1).isSome
  · simp [h0] at hs
  · simp only [h0, Bool.false_eq_true, if_false] at hs
    exact (Option.some_inj.1 hs).symm

theorem mem_findToRemove_keys {α : Type} {hostnameMap : GoMap Str}
    {S : GoMap α} {k : Str} (h : k ∈ findToRemove hostnameMap S) :
    k ∈ mapKeys S := by
  rw [goFindToRemoveSel_eq] at h
  refine mem_filterMap_keys ?_ h
  intro p h' hs
  by_cases h0 : (mapFind hostnameMap p.1).isSome
  · simp [h0] at hs
  · simp only [h0, Bool.false_eq_true, if_false] at hs
    exact (Option.some_inj.1 hs).symm

/-- Characterization of the add loop under a fault-free remote: when no
current entry collides case-insensitively with any queued hostname and
the queued hostnames are pairwise non-colliding, every add succeeds and
the overrides list is extended by exactly the built records. -/
theorem cfSyncAddLoop_over (g : Nat → Str)
    (options : CloudflareSyncOptions) (hostnameMap : GoMap Str) :
    ∀ (A : List Str) (env : Env) (ch : Bool),
      (∀ h ∈ A, ∀ e ∈ env.overrides, ¬ caseCollides e h) →
      (A.Pairwise (fun h1 h2 =>
        ¬(equalFold (dotHead h1) (dotHead h2) = true ∧
          equalFold (dotTail h1) (dotTail h2) = true))) →
      ∃ newE,
        (cfSyncAddLoop (mkFreshFaults g) options hostnameMap A env
          ch).1.overrides = env.overrides ++ newE ∧
        (∀ e ∈ newE, ∃ h ∈ A, ∃ n, e = mkAddedOverride options
          hostnameMap h (g n)) ∧
        (∀ h ∈ A, ∃ e ∈ newE, ∃ n, e = mkAddedOverride options
          hostnameMap h (g n)) := by
  intro A
  induction A with
  | nil =>
      intro env ch hnc hpw
      exact ⟨[], by simp [cfSyncAddLoop], by simp, by simp⟩
  | cons h rest ih =>
      intro env ch hnc hpw
      simp only [cfSyncAddLoop]
      have hfind : env.overrides.find?
          (fun e => equalFold e.host ((goSplitN2 h).getD 0 []) &&
            equalFold e.domain ((goSplitN2 h).getD 1 [])) = none := by
        rw [List.find?_eq_none]
        intro e he
        have hne := hnc h (List.mem_cons_self _ _) e he
        simp only [caseCollides, dotHead, dotTail, not_and] at hne
        intro hcontra
        rw [Bool.and_eq_true] at hcontra
        exact hne hcontra.1 hcontra.2
      rw [List.pairwise_cons] at hpw
      have hl : (mkFreshFaults g).listOverridesFail = false := rfl
      have ha : ∀ o, (mkFreshFaults g).addOverrideFail o = false :=
        fun _ => rfl
      have hgen : (mkFreshFaults g).uuidGen = g := rfl
      simp only [unboundAddOverride, isOverrideExists, unboundGetOverrides,
        hl, ha, hgen, Bool.false_eq_true, if_false, hfind]
      set eNew : DNSOverride :=
        { enabled := str r"1", host := (goSplitN2 h).getD 0 [],
          domain := (goSplitN2 h).getD 1 [],
          server := (mapFind hostnameMap h).getD [],
          description := options.entryDescription,
          uuid := g env.uuidSeq } with heNew
      set env' : Env := { env with
        overrides := env.overrides ++ [eNew],
        uuidSeq := env.uuidSeq + 1,
        trace := Event.addOverride
          { enabled := str r"1", host := (goSplitN2 h).getD 0 [],
            domain := (goSplitN2 h).getD 1 [],
            server := (mapFind hostnameMap h).getD [],
            description := options.entryDescription } true ::
          Event.listOverrides :: env.trace } with henv'
      have hncr : ∀ h' ∈ rest, ∀ e ∈ env'.overrides, ¬ caseCollides e h' := by
        intro h' hh' e he
        rw [henv'] at he
        simp only [List.mem_append, List.mem_singleton] at he
        rcases he with he | he
        · exact hnc h' (List.mem_cons_of_mem _ hh') e he
        · subst he
          have hthis := hpw.1 h' hh'
          simp only [dotHead, dotTail] at hthis
          simp only [caseCollides, heNew, dotHead, dotTail]
          exact hthis
      obtain ⟨newE', hov, hmem1, hmem2⟩ := ih env' true hncr hpw.2
      refine ⟨eNew :: newE', ?_, ?_, ?_⟩
      · rw [hov, henv']
        simp
      · intro e he
        rcases List.mem_cons.1 he with he | he
        · subst he
          exact ⟨h, List.mem_cons_self _ _, env.uuidSeq, rfl⟩
        · obtain ⟨h', hh', n, hn⟩ := hmem1 e he
          exact ⟨h', List.mem_cons_of_mem _ hh', n, hn⟩
      · intro h' hh'
        rcases List.mem_cons.1 hh' with hh | hh
        · subst hh
          exact ⟨eNew, List.mem_cons_self _ _, env.uuidSeq, rfl⟩
        · obtain ⟨e, he, n, hn⟩ := hmem2 h' hh
          exact ⟨e, List.mem_cons_of_mem _ he, n, hn⟩

/-- Characterization of the IP-update loop under a fault-free remote:
when every target is stored with a non-empty UUID that is present, and
the targets have pairwise distinct UUIDs, the loop rewrites exactly the
targeted entries. -/
theorem cfSyncUpdateLoop_over (g : Nat → Str)
    (options : CloudflareSyncOptions) (hostnameMap : GoMap Str)
    (S : GoMap DNSOverride) :
    ∀ (U : List Str) (env : Env) (ch : Bool),
      (∀ h ∈ U, (updTgt S h).uuid ≠ [] ∧
        ∃ e ∈ env.overrides, e.uuid = (updTgt S h).uuid) →
      (U.Pairwise (fun h1 h2 => (updTgt S h1).uuid ≠ (updTgt S h2).uuid)) →
      (∀ e ∈ (cfSyncUpdateLoop (mkFreshFaults g) options hostnameMap S U
          env ch).1.overrides,
        (e ∈ env.overrides ∧ ∀ h ∈ U, e.uuid ≠ (updTgt S h).uuid) ∨
          (∃ h ∈ U, e = updOvr options hostnameMap S h)) ∧
      (∀ h ∈ U, updOvr options hostnameMap S h ∈
        (cfSyncUpdateLoop (mkFreshFaults g) options hostnameMap S U env
          ch).1.overrides) ∧
      (∀ e ∈ env.overrides, (∀ h ∈ U, e.uuid ≠ (updTgt S h).uuid) →
        e ∈ (cfSyncUpdateLoop (mkFreshFaults g) options hostnameMap S U
          env ch).1.overrides) := by
  intro U
  induction U with
  | nil =>
      intro env ch hpre hpw
      refine ⟨?_, by simp, ?_⟩
      · intro e he
        exact Or.inl ⟨he, by simp⟩
      · intro e he hc
        exact he
  | cons h rest ih =>
      intro env ch hpre hpw
      rw [List.pairwise_cons] at hpw
      obtain ⟨hu0, e0p, he0p, he0u⟩ := hpre h (List.mem_cons_self _ _)
      have htg : (mapFind S h).getD ({} : DNSOverride) = updTgt S h := rfl
      have hov : (⟨(updTgt S h).uuid, (updTgt S h).enabled,
          (updTgt S h).host, (updTgt S h).domain, (updTgt S h).rr,
          (updTgt S h).mxprio, (updTgt S h).mx,
          (mapFind hostnameMap h).getD [],
          options.entryDescription⟩ : DNSOverride) =
          updOvr options hostnameMap S h := rfl
      have hupdf : ∀ o, (mkFreshFaults g).updateOverrideFail o = false :=
        fun _ => rfl
      have hany : (env.overrides.any
          (fun e => e.uuid = (updTgt S h).uuid)) = true := by
        refine List.any_eq_true.2 ⟨e0p, he0p, ?_⟩
        simp [he0u]
      have hopeq : cfSyncUpdateLoop (mkFreshFaults g) options hostnameMap
          S (h :: rest) env ch =
          cfSyncUpdateLoop (mkFreshFaults g) options hostnameMap S rest
            { env with
              overrides := env.overrides.map (fun e =>
                if e.uuid = (updTgt S h).uuid then
                  updOvr options hostnameMap S h
                else e),
              trace := Event.updateOverride
                (updOvr options hostnameMap S h) true :: env.trace }
            true := by
        simp only [cfSyncUpdateLoop, unboundUpdateOverride, hupdf,
          Bool.false_eq_true, if_false, htg]
        rw [if_neg hu0]
        simp only [hany, if_true, hov]
      rw [hopeq]
      set envm : Env := { env with
        overrides := env.overrides.map (fun e =>
          if e.uuid = (updTgt S h).uuid then
            updOvr options hostnameMap S h
          else e),
        trace := Event.updateOverride
          (updOvr options hostnameMap S h) true :: env.trace } with henvm
      have huu : (updOvr options hostnameMap S h).uuid =
          (updTgt S h).uuid := rfl
      have hprer : ∀ h' ∈ rest, (updTgt S h').uuid ≠ [] ∧
          ∃ e ∈ envm.overrides, e.uuid = (updTgt S h').uuid := by
        intro h' hh'
        obtain ⟨hne, e', he', heu⟩ := hpre h' (List.mem_cons_of_mem _ hh')
        refine ⟨hne, ?_⟩
        refine ⟨e', ?_, ?_⟩
        · rw [henvm]
          refine List.mem_map.2 ⟨e', he', ?_⟩
          rw [if_neg]
          rw [heu]
          exact (hpw.1 h' hh').symm
        · exact heu
      obtain ⟨p1r, p2r, p3r⟩ := ih envm true hprer hpw.2
      refine ⟨?_, ?_, ?_⟩
      · intro e he
        rcases p1r e he with ⟨hin, hres⟩ | ⟨h', hh', he'⟩
        · rw [henvm] at hin
          obtain ⟨e0, he0, hfe⟩ := List.mem_map.1 hin
          by_cases heq : e0.uuid = (updTgt S h).uuid
          · rw [if_pos heq] at hfe
            exact Or.inr ⟨h, List.mem_cons_self _ _, hfe.symm⟩
          · rw [if_neg heq] at hfe
            subst hfe
            refine Or.inl ⟨he0, ?_⟩
            intro h'' hh''
            rcases List.mem_cons.1 hh'' with hh | hh
            · subst hh
              exact heq
            · exact hres h'' hh
        · exact Or.inr ⟨h', List.mem_cons_of_mem _ hh', he'⟩
      · intro h' hh'
        rcases List.mem_cons.1 hh' with hh | hh
        · subst hh
          refine p3r (updOvr options hostnameMap S h') ?_ ?_
          · rw [henvm]
            refine List.mem_map.2 ⟨e0p, he0p, ?_⟩
            rw [if_pos he0u]
          · intro h'' hh''
            rw [huu]
            exact hpw.1 h'' hh''
        · exact p2r h' hh
      · intro e he hc
        refine p3r e ?_ ?_
        · rw [henvm]
          refine List.mem_map.2 ⟨e, he, ?_⟩
          rw [if_neg]
          exact hc h (List.mem_cons_self _ _)
        · intro h' hh'
          exact hc h' (List.mem_cons_of_mem _ hh')

/-- Characterization of the description-update loop under a fault-free
remote (same shape as the IP-update loop). -/
theorem cfSyncDescLoop_over (g : Nat → Str)
    (options : CloudflareSyncOptions) (S : GoMap DNSOverride) :
    ∀ (D : List Str) (env : Env) (ch : Bool),
      (∀ h ∈ D, (updTgt S h).uuid ≠ [] ∧
        ∃ e ∈ env.overrides, e.uuid = (updTgt S h).uuid) →
      (D.Pairwise (fun h1 h2 => (updTgt S h1).uuid ≠ (updTgt S h2).uuid)) →
      (∀ e ∈ (cfSyncDescLoop (mkFreshFaults g) options S D env
          ch).1.overrides,
        (e ∈ env.overrides ∧ ∀ h ∈ D, e.uuid ≠ (updTgt S h).uuid) ∨
          (∃ h ∈ D, e = descOvr options S h)) ∧
      (∀ h ∈ D, descOvr options S h ∈
        (cfSyncDescLoop (mkFreshFaults g) options S D env
          ch).1.overrides) ∧
      (∀ e ∈ env.overrides, (∀ h ∈ D, e.uuid ≠ (updTgt S h).uuid) →
        e ∈ (cfSyncDescLoop (mkFreshFaults g) options S D env
          ch).1.overrides) := by
  intro D
  induction D with
  | nil =>
      intro env ch hpre hpw
      refine ⟨?_, by simp, ?_⟩
      · intro e he
        exact Or.inl ⟨he, by simp⟩
      · intro e he hc
        exact he
  | cons h rest ih =>
      intro env ch hpre hpw
      rw [List.pairwise_cons] at hpw
      obtain ⟨hu0, e0p, he0p, he0u⟩ := hpre h (List.mem_cons_self _ _)
      have htg : (mapFind S h).getD ({} : DNSOverride) = updTgt S h := rfl
      have hov : (⟨(updTgt S h).uuid, (updTgt S h).enabled,
          (updTgt S h).host, (updTgt S h).domain, (updTgt S h).rr,
          (updTgt S h).mxprio, (updTgt S h).mx, (updTgt S h).server,
          options.entryDescription⟩ : DNSOverride) =
          descOvr options S h := rfl
      have hupdf : ∀ o, (mkFreshFaults g).updateOverrideFail o = false :=
        fun _ => rfl
      have hany : (env.overrides.any
          (fun e => e.uuid = (updTgt S h).uuid)) = true := by
        refine List.any_eq_true.2 ⟨e0p, he0p, ?_⟩
        simp [he0u]
      have hopeq : cfSyncDescLoop (mkFreshFaults g) options S
          (h :: rest) env ch =
          cfSyncDescLoop (mkFreshFaults g) options S rest
            { env with
              overrides := env.overrides.map (fun e =>
                if e.uuid = (updTgt S h).uuid then descOvr options S h
                else e),
              trace := Event.updateOverride (descOvr options S h) true ::
                env.trace }
            true := by
        simp only [cfSyncDescLoop, unboundUpdateOverride, hupdf,
          Bool.false_eq_true, if_false, htg]
        rw [if_neg hu0]
        simp only [hany, if_true, hov]
      rw [hopeq]
      set envm : Env := { env with
        overrides := env.overrides.map (fun e =>
          if e.uuid = (updTgt S h).uuid then descOvr options S h
          else e),
        trace := Event.updateOverride (descOvr options S h) true ::
          env.trace } with henvm
      have huu : (descOvr options S h).uuid = (updTgt S h).uuid := rfl
      have hprer : ∀ h' ∈ rest, (updTgt S h').uuid ≠ [] ∧
          ∃ e ∈ envm.overrides, e.uuid = (updTgt S h').uuid := by
        intro h' hh'
        obtain ⟨hne, e', he', heu⟩ := hpre h' (List.mem_cons_of_mem _ hh')
        refine ⟨hne, ?_⟩
        refine ⟨e', ?_, ?_⟩
        · rw [henvm]
          refine List.mem_map.2 ⟨e', he', ?_⟩
          rw [if_neg]
          rw [heu]
          exact (hpw.1 h' hh').symm
        · exact heu
      obtain ⟨p1r, p2r, p3r⟩ := ih envm true hprer hpw.2
      refine ⟨?_, ?_, ?_⟩
      · intro e he
        rcases p1r e he with ⟨hin, hres⟩ | ⟨h', hh', he'⟩
        · rw [henvm] at hin
          obtain ⟨e0, he0, hfe⟩ := List.mem_map.1 hin
          by_cases heq : e0.uuid = (updTgt S h).uuid
          · rw [if_pos heq] at hfe
            exact Or.inr ⟨h, List.mem_cons_self _ _, hfe.symm⟩
          · rw [if_neg heq] at hfe
            subst hfe
            refine Or.inl ⟨he0, ?_⟩
            intro h'' hh''
            rcases List.mem_cons.1 hh'' with hh | hh
            · subst hh
              exact heq
            · exact hres h'' hh
        · exact Or.inr ⟨h', List.mem_cons_of_mem _ hh', he'⟩
      · intro h' hh'
        rcases List.mem_cons.1 hh' with hh | hh
        · subst hh
          refine p3r (descOvr options S h') ?_ ?_
          · rw [henvm]
            refine List.mem_map.2 ⟨e0p, he0p, ?_⟩
            rw [if_pos he0u]
          · intro h'' hh''
            rw [huu]
            exact hpw.1 h'' hh''
        · exact p2r h' hh
      · intro e he hc
        refine p3r e ?_ ?_
        · rw [henvm]
          refine List.mem_map.2 ⟨e, he, ?_⟩
          rw [if_neg]
          exact hc h (List.mem_cons_self _ _)
        · intro h' hh'
          exact hc h' (List.mem_cons_of_mem _ hh')

/-- Characterization of the remove loop under a fault-free remote: with
present, pairwise-distinct target UUIDs the loop removes exactly the
targeted entries. -/
theorem cfSyncRemoveLoop_over (g : Nat → Str) (S : GoMap DNSOverride) :
    ∀ (R : List Str) (env : Env) (ch : Bool),
      (∀ h ∈ R, ∃ e ∈ env.overrides, e.uuid = (updTgt S h).uuid) →
      (R.Pairwise (fun h1 h2 => (updTgt S h1).uuid ≠ (updTgt S h2).uuid)) →
      (∀ e ∈ (cfSyncRemoveLoop (mkFreshFaults g) S R env
          ch).1.overrides,
        e ∈ env.overrides ∧ ∀ h ∈ R, e.uuid ≠ (updTgt S h).uuid) ∧
      (∀ e ∈ env.overrides, (∀ h ∈ R, e.uuid ≠ (updTgt S h).uuid) →
        e ∈ (cfSyncRemoveLoop (mkFreshFaults g) S R env
          ch).1.overrides) := by
  intro R
  induction R with
  | nil =>
      intro env ch hpre hpw
      refine ⟨?_, ?_⟩
      · intro e he
        exact ⟨he, by simp⟩
      · intro e he hc
        exact he
  | cons h rest ih =>
      intro env ch hpre hpw
      rw [List.pairwise_cons] at hpw
      obtain ⟨e0p, he0p, he0u⟩ := hpre h (List.mem_cons_self _ _)
      have htg : (mapFind S h).getD ({} : DNSOverride) = updTgt S h := rfl
      have hdelf : ∀ u, (mkFreshFaults g).deleteOverrideFail u = false :=
        fun _ => rfl
      have hany : (env.overrides.any
          (fun e => e.uuid = (updTgt S h).uuid)) = true := by
        refine List.any_eq_true.2 ⟨e0p, he0p, ?_⟩
        simp [he0u]
      have hopeq : cfSyncRemoveLoop (mkFreshFaults g) S (h :: rest) env
          ch = cfSyncRemoveLoop (mkFreshFaults g) S rest
            { env with
              overrides := env.overrides.filter (fun e =>
                ¬(e.uuid = (updTgt S h).uuid)),
              trace := Event.deleteOverride (updTgt S h).uuid true ::
                env.trace }
            true := by
        simp only [cfSyncRemoveLoop, unboundDeleteOverride, hdelf,
          Bool.false_eq_true, if_false, htg, hany, if_true]
      rw [hopeq]
      set envm : Env := { env with
        overrides := env.overrides.filter (fun e =>
          ¬(e.uuid = (updTgt S h).uuid)),
        trace := Event.deleteOverride (updTgt S h).uuid true ::
          env.trace } with henvm
      have hprer : ∀ h' ∈ rest,
          ∃ e ∈ envm.overrides, e.uuid = (updTgt S h').uuid := by
        intro h' hh'
        obtain ⟨e', he', heu⟩ := hpre h' (List.mem_cons_of_mem _ hh')
        refine ⟨e', ?_, heu⟩
        rw [henvm]
        refine List.mem_filter.2 ⟨he', ?_⟩
        simp only [decide_eq_true_eq]
        rw [heu]
        exact (hpw.1 h' hh').symm
      obtain ⟨p1r, p2r⟩ := ih envm true hprer hpw.2
      refine ⟨?_, ?_⟩
      · intro e he
        obtain ⟨hin, hres⟩ := p1r e he
        rw [henvm] at hin
        obtain ⟨he0, hpred⟩ := List.mem_filter.1 hin
        refine ⟨he0, ?_⟩
        intro h'' hh''
        rcases List.mem_cons.1 hh'' with hh | hh
        · subst hh
          simpa using hpred
        · exact hres h'' hh
      · intro e he hc
        refine p2r e ?_ ?_
        · rw [henvm]
          refine List.mem_filter.2 ⟨he, ?_⟩
          simp only [decide_eq_true_eq]
          exact hc h (List.mem_cons_self _ _)
        · intro h' hh'
          exact hc h' (List.mem_cons_of_mem _ hh')

theorem pairwise_of_nodup_mem {α : Type} {l : List α}
    {Rel : α → α → Prop}
    (h : ∀ a ∈ l, ∀ b ∈ l, a ≠ b → Rel a b) (hnd : l.Nodup) :
    l.Pairwise Rel := by
  induction l with
  | nil => exact List.Pairwise.nil
  | cons x xs ih =>
      rw [List.nodup_cons] at hnd
      refine List.Pairwise.cons ?_ (ih ?_ hnd.2)
      · intro b hb
        refine h x (List.mem_cons_self _ _) b (List.mem_cons_of_mem _ hb)
          ?_
        intro he
        exact hnd.1 (by rw [he]; exact hb)
      · intro a ha b hb hne
        exact h a (List.mem_cons_of_mem _ ha) b
          (List.mem_cons_of_mem _ hb) hne

/-- State after a fault-free, non-dry apply phase: every owned entry
agrees with the mapping (its key is mapped, its server is the mapped
target, its description is current), and every dotted mapping key has
an entry stored under it. -/
theorem cfSyncPrePhase_postState (g : Nat → Str)
    (options : CloudflareSyncOptions) (M : GoMap Str) (env : Env)
    (S O : GoMap DNSOverride) (A U D R : List Str)
    (hS : S = (classifyOverrides env.overrides options.entryDescription
      options.legacyDescriptions).1)
    (hO : O = (classifyOverrides env.overrides options.entryDescription
      options.legacyDescriptions).2)
    (hA : A = (processHostnames S O options.entryDescription M).1)
    (hU : U = (processHostnames S O options.entryDescription M).2.1)
    (hD : D = (processHostnames S O options.entryDescription M).2.2)
    (hR : R = findToRemove M S)
    (hMk : (mapKeys M).Nodup)
    (hEk : (env.overrides.map overrideKey).Nodup)
    (hUne : ∀ e ∈ env.overrides, e.uuid ≠ [])
    (hUnd : (env.overrides.map (fun e => e.uuid)).Nodup)
    (hfresh : ∀ e ∈ env.overrides, ∀ n, g n ≠ e.uuid)
    (hcaseE : ∀ e ∈ env.overrides, ∀ h ∈ mapKeys M,
      equalFold e.host (dotHead h) = true →
      equalFold e.domain (dotTail h) = true → overrideKey e = h)
    (hcaseM : ∀ h1 ∈ mapKeys M, ∀ h2 ∈ mapKeys M,
      equalFold (dotHead h1) (dotHead h2) = true →
      equalFold (dotTail h1) (dotTail h2) = true → h1 = h2) :
    (∀ e ∈ (cfSyncPrePhase (mkFreshFaults g) options M S A U D R
        env).1.overrides,
      descOwned e.description options.entryDescription
        options.legacyDescriptions = true →
      ∃ ip, mapFind M (overrideKey e) = some ip ∧ e.server = ip ∧
        e.description = options.entryDescription) ∧
    (∀ p ∈ M, containsDot (Prod.fst p) = true →
      ∃ e ∈ (cfSyncPrePhase (mkFreshFaults g) options M S A U D R
        env).1.overrides, overrideKey e = Prod.fst p) := by
  have hMfind : ∀ {h : Str} {ip : Str}, (h, ip) ∈ M →
      mapFind M h = some ip := fun hm => mapFind_eq_of_mem_nodup hMk hm
  have hbind : ∀ {h' : Str} {e' : DNSOverride}, mapFind S h' = some e' →
      e' ∈ env.overrides ∧ h' = overrideKey e' ∧
        descOwned e'.description options.entryDescription
          options.legacyDescriptions = true := by
    intro h' e' hf
    rw [hS] at hf
    have hmem := mapFind_mem hf
    rcases classifyLoop_sync_mem hmem with hcontr | hok
    · simp at hcontr
    · exact hok
  have htgt : ∀ {h' : Str} {e' : DNSOverride}, mapFind S h' = some e' →
      updTgt S h' = e' := by
    intro h' e' hf
    simp [updTgt, hf]
  have hSkeys : (mapKeys S).Nodup := by
    rw [hS]
    exact classifyLoop_sync_keysNodup _ (by simp [mapKeys])
  have hsame : ∀ {h' : Str} {e' : DNSOverride}, mapFind S h' = some e' →
      ∀ {e0 : DNSOverride}, e0 ∈ env.overrides →
      e0.uuid = (updTgt S h').uuid →
      e0 = e' ∧ overrideKey e0 = h' := by
    intro h' e' hf e0 he0 hu
    rw [htgt hf] at hu
    obtain ⟨heE, hkey, -⟩ := hbind hf
    have heq : e0 = e' := uuid_unique hUnd he0 heE hu
    exact ⟨heq, by rw [heq]; exact hkey.symm⟩
  have hownedBind : ∀ {e0 : DNSOverride}, e0 ∈ env.overrides →
      descOwned e0.description options.entryDescription
        options.legacyDescriptions = true →
      mapFind S (overrideKey e0) = some e0 := by
    intro e0 he0 ho
    rw [hS]
    exact classify_sync_find_of_owned hEk he0 ho
  have hUfact : ∀ h' ∈ U, ∃ ip e', (h', ip) ∈ M ∧
      mapFind S h' = some e' ∧ e'.server ≠ ip := by
    intro h' hh'
    rw [hU] at hh'
    obtain ⟨ip, hm, hdot, e', hf, hne⟩ := mem_toUpdate hh'
    exact ⟨ip, e', hm, hf, hne⟩
  have hDfact : ∀ h' ∈ D, ∃ ip e', (h', ip) ∈ M ∧
      mapFind S h' = some e' ∧ e'.server = ip ∧
        e'.description ≠ options.entryDescription := by
    intro h' hh'
    rw [hD] at hh'
    obtain ⟨ip, hm, hdot, e', hf, hsv, hds⟩ := mem_toUpdateDesc hh'
    exact ⟨ip, e', hm, hf, hsv, hds⟩
  have hRfact : ∀ k ∈ R, ∃ e', mapFind S k = some e' ∧
      mapFind M k = none := by
    intro k hk
    rw [hR] at hk
    obtain ⟨⟨v, hv⟩, hnone⟩ := mem_findToRemove.1 hk
    exact ⟨v, mapFind_eq_of_mem_nodup hSkeys hv, hnone⟩
  have hAfact : ∀ h' ∈ A, (∃ ip, (h', ip) ∈ M) ∧
      containsDot h' = true ∧ mapFind S h' = none ∧
        mapFind O h' = none := by
    intro h' hh'
    rw [hA] at hh'
    exact mem_toAdd hh'
  have hAin : ∀ h' ∈ A, h' ∈ mapKeys M := by
    intro h' hh'
    obtain ⟨⟨ip, hm⟩, -, -, -⟩ := hAfact h' hh'
    exact List.mem_map_of_mem _ hm
  have hAddPre1 : ∀ h' ∈ A, ∀ e ∈ env.overrides,
      ¬ caseCollides e h' := by
    intro h' hh' e he hc
    obtain ⟨⟨ip, hm⟩, hdot, hSn, hOn⟩ := hAfact h' hh'
    have hkey := hcaseE e he h' (hAin h' hh') hc.1 hc.2
    rcases classify_covers (d := options.entryDescription)
        (L := options.legacyDescriptions) he with hs | ho
    · rw [hkey, ← hS, hSn] at hs
      simp at hs
    · rw [hkey, ← hO, hOn] at ho
      simp at ho
  have hAnd : A.Nodup := by
    rw [hA, processHostnames_eq]
    exact filterMap_keys_nodup addSel_key hMk
  have hAddPre2 : A.Pairwise (fun h1 h2 =>
      ¬(equalFold (dotHead h1) (dotHead h2) = true ∧
        equalFold (dotTail h1) (dotTail h2) = true)) := by
    refine pairwise_of_nodup_mem ?_ hAnd
    intro a ha b hb hne hcol
    exact hne (hcaseM a (hAin a ha) b (hAin b hb) hcol.1 hcol.2)
  simp only [cfSyncPrePhase]
  obtain ⟨newE, hE1, hnewMem, hnewAll⟩ :=
    cfSyncAddLoop_over g options M A env false hAddPre1 hAddPre2
  set env1 : Env :=
    (cfSyncAddLoop (mkFreshFaults g) options M A env false).1 with henv1
  set ch1 : Bool :=
    (cfSyncAddLoop (mkFreshFaults g) options M A env false).2 with hch1
  have hnewFacts : ∀ e ∈ newE, ∃ h' ∈ A, overrideKey e = h' ∧
      e.server = (mapFind M h').getD [] ∧
      e.description = options.entryDescription ∧
      ∃ n, e.uuid = g n := by
    intro e he
    obtain ⟨h', hh', n, hn⟩ := hnewMem e he
    obtain ⟨⟨ip, hm⟩, hdot, -, -⟩ := hAfact h' hh'
    subst hn
    refine ⟨h', hh', ?_, rfl, rfl, n, rfl⟩
    simp only [overrideKey, mkAddedOverride]
    exact splitKey_reconstruct hdot
  have hnewFresh : ∀ e ∈ newE, ∀ e0 ∈ env.overrides,
      e.uuid ≠ e0.uuid := by
    intro e he e0 he0
    obtain ⟨h', hh', n, hn⟩ := hnewMem e he
    subst hn
    simpa [mkAddedOverride] using hfresh e0 he0 n
  have hUpre : ∀ h' ∈ U, (updTgt S h').uuid ≠ [] ∧
      ∃ e ∈ env1.overrides, e.uuid = (updTgt S h').uuid := by
    intro h' hh'
    obtain ⟨ip, e', hm, hf, -⟩ := hUfact h' hh'
    obtain ⟨heE, -, -⟩ := hbind hf
    rw [htgt hf]
    refine ⟨hUne e' heE, e', ?_, rfl⟩
    rw [hE1]
    exact List.mem_append.2 (Or.inl heE)
  have hUpw : U.Pairwise (fun h1 h2 =>
      (updTgt S h1).uuid ≠ (updTgt S h2).uuid) := by
    have hUnodup : U.Nodup := by
      rw [hU, processHostnames_eq]
      exact filterMap_keys_nodup updSel_key hMk
    refine pairwise_of_nodup_mem ?_ hUnodup
    intro a ha b hb hne htu
    obtain ⟨ipa, ea, hma, hfa, -⟩ := hUfact a ha
    obtain ⟨ipb, eb, hmb, hfb, -⟩ := hUfact b hb
    rw [htgt hfa, htgt hfb] at htu
    obtain ⟨heaE, hka, -⟩ := hbind hfa
    obtain ⟨hebE, hkb, -⟩ := hbind hfb
    have heab : ea = eb := uuid_unique hUnd heaE hebE htu
    exact hne (by rw [hka, heab, ← hkb])
  obtain ⟨p1U, p2U, p3U⟩ :=
    cfSyncUpdateLoop_over g options M S U env1 ch1 hUpre hUpw
  set env2 : Env :=
    (cfSyncUpdateLoop (mkFreshFaults g) options M S U env1 ch1).1
    with henv2
  set ch2 : Bool :=
    (cfSyncUpdateLoop (mkFreshFaults g) options M S U env1 ch1).2
    with hch2
  have hDpre : ∀ h' ∈ D, (updTgt S h').uuid ≠ [] ∧
      ∃ e ∈ env2.overrides, e.uuid = (updTgt S h').uuid := by
    intro h' hh'
    obtain ⟨ip, e', hm, hf, hsv, hds⟩ := hDfact h' hh'
    obtain ⟨heE, hk, -⟩ := hbind hf
    rw [htgt hf]
    refine ⟨hUne e' heE, e', ?_, rfl⟩
    refine p3U e' (by rw [hE1]; exact List.mem_append.2 (Or.inl heE)) ?_
    intro hu hhu huuid
    obtain ⟨ipu, eu, hmu, hfu, hneu⟩ := hUfact hu hhu
    obtain ⟨heq, hkey⟩ := hsame hfu heE huuid
    have hh : h' = hu := by rw [hk, hkey]
    rw [← hh] at hmu
    have hip : ip = ipu := mem_pairs_unique hMk hm hmu
    exact hneu (by rw [← heq, hsv]; exact hip)
  have hDpw : D.Pairwise (fun h1 h2 =>
      (updTgt S h1).uuid ≠ (updTgt S h2).uuid) := by
    have hDnodup : D.Nodup := by
      rw [hD, processHostnames_eq]
      exact filterMap_keys_nodup descSel_key hMk
    refine pairwise_of_nodup_mem ?_ hDnodup
    intro a ha b hb hne htu
    obtain ⟨ipa, ea, hma, hfa, -, -⟩ := hDfact a ha
    obtain ⟨ipb, eb, hmb, hfb, -, -⟩ := hDfact b hb
    rw [htgt hfa, htgt hfb] at htu
    obtain ⟨heaE, hka, -⟩ := hbind hfa
    obtain ⟨hebE, hkb, -⟩ := hbind hfb
    have heab : ea = eb := uuid_unique hUnd heaE hebE htu
    exact hne (by rw [hka, heab, ← hkb])
  obtain ⟨p1D, p2D, p3D⟩ :=
    cfSyncDescLoop_over g options S D env2 ch2 hDpre hDpw
  set env3 : Env :=
    (cfSyncDescLoop (mkFreshFaults g) options S D env2 ch2).1 with henv3
  set ch3 : Bool :=
    (cfSyncDescLoop (mkFreshFaults g) options S D env2 ch2).2 with hch3
  have hRpre : ∀ k ∈ R,
      ∃ e ∈ env3.overrides, e.uuid = (updTgt S k).uuid := by
    intro k hk
    obtain ⟨e', hf, hMn⟩ := hRfact k hk
    obtain ⟨heE, hkk, -⟩ := hbind hf
    rw [htgt hf]
    refine ⟨e', ?_, rfl⟩
    refine p3D e' (p3U e'
      (by rw [hE1]; exact List.mem_append.2 (Or.inl heE)) ?_) ?_
    · intro hu hhu huuid
      obtain ⟨ipu, eu, hmu, hfu, -⟩ := hUfact hu hhu
      obtain ⟨heq, hkey⟩ := hsame hfu heE huuid
      have hcon : mapFind M k = some ipu := by
        rw [hkk, hkey]
        exact hMfind hmu
      rw [hMn] at hcon
      cases hcon
    · intro hd hhd huuid
      obtain ⟨ipd, ed, hmd, hfd, -, -⟩ := hDfact hd hhd
      obtain ⟨heq, hkey⟩ := hsame hfd heE huuid
      have hcon : mapFind M k = some ipd := by
        rw [hkk, hkey]
        exact hMfind hmd
      rw [hMn] at hcon
      cases hcon
  have hRpw : R.Pairwise (fun h1 h2 =>
      (updTgt S h1).uuid ≠ (updTgt S h2).uuid) := by
    have hRnd : R.Nodup := by
      rw [hR]
      exact findToRemove_nodup hSkeys
    refine pairwise_of_nodup_mem ?_ hRnd
    intro a ha b hb hne htu
    obtain ⟨ea, hfa, -⟩ := hRfact a ha
    obtain ⟨eb, hfb, -⟩ := hRfact b hb
    rw [htgt hfa, htgt hfb] at htu
    obtain ⟨heaE, hka, -⟩ := hbind hfa
    obtain ⟨hebE, hkb, -⟩ := hbind hfb
    have heab : ea = eb := uuid_unique hUnd heaE hebE htu
    exact hne (by rw [hka, heab, ← hkb])
  obtain ⟨p1R, p2R⟩ := cfSyncRemoveLoop_over g S R env3 ch3 hRpre hRpw
  have hsurvNew : ∀ e ∈ newE,
      (∀ h' ∈ U, e.uuid ≠ (updTgt S h').uuid) ∧
      (∀ h' ∈ D, e.uuid ≠ (updTgt S h').uuid) ∧
      (∀ k ∈ R, e.uuid ≠ (updTgt S k).uuid) := by
    intro e he
    refine ⟨?_, ?_, ?_⟩
    · intro h' hh' hcc
      obtain ⟨ip, e', hm, hf, -⟩ := hUfact h' hh'
      rw [htgt hf] at hcc
      exact hnewFresh e he e' (hbind hf).1 hcc
    · intro h' hh' hcc
      obtain ⟨ip, e', hm, hf, -, -⟩ := hDfact h' hh'
      rw [htgt hf] at hcc
      exact hnewFresh e he e' (hbind hf).1 hcc
    · intro k hk hcc
      obtain ⟨e', hf, -⟩ := hRfact k hk
      rw [htgt hf] at hcc
      exact hnewFresh e he e' (hbind hf).1 hcc
  have hsurvClean : ∀ {e0 : DNSOverride}, e0 ∈ env.overrides →
      mapFind S (overrideKey e0) = some e0 →
      (∃ ip, mapFind M (overrideKey e0) = some ip ∧ e0.server = ip) →
      e0.description = options.entryDescription →
      (∀ h' ∈ U, e0.uuid ≠ (updTgt S h').uuid) ∧
      (∀ h' ∈ D, e0.uuid ≠ (updTgt S h').uuid) ∧
      (∀ k ∈ R, e0.uuid ≠ (updTgt S k).uuid) := by
    intro e0 he0 hbind0 hMok hds
    obtain ⟨ip, hMf, hsv⟩ := hMok
    refine ⟨?_, ?_, ?_⟩
    · intro h' hh' huuid
      obtain ⟨ipu, eu, hmu, hfu, hneu⟩ := hUfact h' hh'
      obtain ⟨heq, hkey⟩ := hsame hfu he0 huuid
      have hfmu : mapFind M (overrideKey e0) = some ipu := by
        rw [hkey]
        exact hMfind hmu
      have hip : ip = ipu := Option.some_inj.1 (hMf.symm.trans hfmu)
      exact hneu (by rw [← heq, hsv]; exact hip)
    · intro h' hh' huuid
      obtain ⟨ipd, ed, hmd, hfd, -, hdd⟩ := hDfact h' hh'
      obtain ⟨heq, hkey⟩ := hsame hfd he0 huuid
      exact hdd (by rw [← heq]; exact hds)
    · intro k hk huuid
      obtain ⟨ek, hfk, hMn⟩ := hRfact k hk
      obtain ⟨heq, hkey⟩ := hsame hfk he0 huuid
      rw [hkey] at hMf
      rw [hMn] at hMf
      cases hMf
  have hsurvForeign : ∀ {e0 : DNSOverride}, e0 ∈ env.overrides →
      descOwned e0.description options.entryDescription
        options.legacyDescriptions = false →
      (∀ h' ∈ U, e0.uuid ≠ (updTgt S h').uuid) ∧
      (∀ h' ∈ D, e0.uuid ≠ (updTgt S h').uuid) ∧
      (∀ k ∈ R, e0.uuid ≠ (updTgt S k).uuid) := by
    intro e0 he0 hforeign
    refine ⟨?_, ?_, ?_⟩
    · intro h' hh' huuid
      obtain ⟨ip, e', hm, hf, -⟩ := hUfact h' hh'
      obtain ⟨heq, -⟩ := hsame hf he0 huuid
      obtain ⟨-, -, howned⟩ := hbind hf
      rw [← heq] at howned
      rw [hforeign] at howned
      cases howned
    · intro h' hh' huuid
      obtain ⟨ip, e', hm, hf, -, -⟩ := hDfact h' hh'
      obtain ⟨heq, -⟩ := hsame hf he0 huuid
      obtain ⟨-, -, howned⟩ := hbind hf
      rw [← heq] at howned
      rw [hforeign] at howned
      cases howned
    · intro k hk huuid
      obtain ⟨e', hf, -⟩ := hRfact k hk
      obtain ⟨heq, -⟩ := hsame hf he0 huuid
      obtain ⟨-, -, howned⟩ := hbind hf
      rw [← heq] at howned
      rw [hforeign] at howned
      cases howned
  have hsurvive : ∀ e, e ∈ env1.overrides →
      (∀ h' ∈ U, e.uuid ≠ (updTgt S h').uuid) →
      (∀ h' ∈ D, e.uuid ≠ (updTgt S h').uuid) →
      (∀ k ∈ R, e.uuid ≠ (updTgt S k).uuid) →
      e ∈ (cfSyncRemoveLoop (mkFreshFaults g) S R env3
        ch3).1.overrides := by
    intro e he hU' hD' hR'
    exact p2R e (p3D e (p3U e he hU') hD') hR'
  constructor
  · -- K1: every owned entry in the final state agrees with the mapping
    intro e he4 howned
    obtain ⟨he3, hnotR⟩ := p1R e he4
    rcases p1D e he3 with ⟨he2, hnotD⟩ | ⟨hd, hhd, hde⟩
    · rcases p1U e he2 with ⟨he1, hnotU⟩ | ⟨hu, hhu, hue⟩
      · rw [hE1] at he1
        rcases List.mem_append.1 he1 with heE | heNew
        · -- an untouched pre-existing entry
          have hbind0 := hownedBind heE howned
          cases hMf : mapFind M (overrideKey e) with
          | none =>
              exfalso
              have hinR : overrideKey e ∈ R := by
                rw [hR]
                exact mem_findToRemove.2
                  ⟨⟨e, mapFind_mem hbind0⟩, hMf⟩
              have := hnotR (overrideKey e) hinR
              rw [htgt hbind0] at this
              exact this rfl
          | some ip =>
              have hmem : (overrideKey e, ip) ∈ M := mapFind_mem hMf
              have hdot := containsDot_overrideKey e
              have hsv : e.server = ip := by
                by_contra hne
                have hinU : overrideKey e ∈ U := by
                  rw [hU]
                  exact toUpdate_of_conds hmem hdot hbind0 hne
                have := hnotU (overrideKey e) hinU
                rw [htgt hbind0] at this
                exact this rfl
              have hds : e.description = options.entryDescription := by
                by_contra hne
                have hinD : overrideKey e ∈ D := by
                  rw [hD]
                  exact toUpdateDesc_of_conds hmem hdot hbind0 hsv hne
                have := hnotD (overrideKey e) hinD
                rw [htgt hbind0] at this
                exact this rfl
              exact ⟨ip, rfl, hsv, hds⟩
        · -- a freshly added entry
          obtain ⟨h', hh', hkey, hsv, hds, -⟩ := hnewFacts e heNew
          obtain ⟨⟨ip, hm⟩, -, -, -⟩ := hAfact h' hh'
          refine ⟨ip, ?_, ?_, hds⟩
          · rw [hkey]
            exact hMfind hm
          · rw [hsv, hMfind hm]
            rfl
      · -- rewritten by the IP-update loop
        obtain ⟨ipu, eu, hmu, hfu, -⟩ := hUfact hu hhu
        obtain ⟨-, hk, -⟩ := hbind hfu
        have hkey : overrideKey e = hu := by
          rw [hue]
          show overrideKey (updTgt S hu) = hu
          rw [htgt hfu, ← hk]
        refine ⟨ipu, ?_, ?_, ?_⟩
        · rw [hkey]
          exact hMfind hmu
        · rw [hue]
          show (mapFind M hu).getD [] = ipu
          rw [hMfind hmu]
          rfl
        · rw [hue]
          rfl
    · -- rewritten by the description-update loop
      obtain ⟨ipd, ed, hmd, hfd, hsvd, -⟩ := hDfact hd hhd
      obtain ⟨-, hk, -⟩ := hbind hfd
      have hkey : overrideKey e = hd := by
        rw [hde]
        show overrideKey (updTgt S hd) = hd
        rw [htgt hfd, ← hk]
      refine ⟨ipd, ?_, ?_, ?_⟩
      · rw [hkey]
        exact hMfind hmd
      · rw [hde]
        show (updTgt S hd).server = ipd
        rw [htgt hfd]
        exact hsvd
      · rw [hde]
        rfl
  · -- K2: every dotted mapping key is stored in the final state
    intro p hp hdot
    cases hSf : mapFind S p.1 with
    | some e0 =>
        obtain ⟨he0E, hk0, howned0⟩ := hbind hSf
        have hMf : mapFind M p.1 = some p.2 := hMfind hp
        by_cases hsv : e0.server = p.2
        · by_cases hds : e0.description = options.entryDescription
          · -- already in sync: the stored entry survives untouched
            have hbind0 : mapFind S (overrideKey e0) = some e0 := by
              rw [← hk0]
              exact hSf
            obtain ⟨c1, c2, c3⟩ := hsurvClean he0E hbind0
              ⟨p.2, by rw [← hk0]; exact hMf, hsv⟩ hds
            refine ⟨e0, ?_, hk0.symm⟩
            exact hsurvive e0
              (by rw [hE1]; exact List.mem_append.2 (Or.inl he0E))
              c1 c2 c3
          · -- description refresh: the desc loop writes it back
            have hinD : p.1 ∈ D := by
              rw [hD]
              exact toUpdateDesc_of_conds hp hdot hSf hsv hds
            refine ⟨descOvr options S p.1, ?_, ?_⟩
            · refine p2R _ (p2D p.1 hinD) ?_
              intro k hk hcc
              obtain ⟨ek, hfk, hMn⟩ := hRfact k hk
              have huu : (descOvr options S p.1).uuid = e0.uuid := by
                show (updTgt S p.1).uuid = e0.uuid
                rw [htgt hSf]
              rw [huu] at hcc
              obtain ⟨heq, hkey⟩ := hsame hfk he0E hcc
              rw [hk0, hkey] at hMf
              rw [hMn] at hMf
              cases hMf
            · show overrideKey (updTgt S p.1) = p.1
              rw [htgt hSf, ← hk0]
        · -- server refresh: the update loop writes it back
          have hinU : p.1 ∈ U := by
            rw [hU]
            exact toUpdate_of_conds hp hdot hSf hsv
          refine ⟨updOvr options M S p.1, ?_, ?_⟩
          · have huu : (updOvr options M S p.1).uuid = e0.uuid := by
              show (updTgt S p.1).uuid = e0.uuid
              rw [htgt hSf]
            refine p2R _ (p3D _ (p2U p.1 hinU) ?_) ?_
            · intro h' hh' hcc
              rw [huu] at hcc
              obtain ⟨ipd, ed, hmd, hfd, -, -⟩ := hDfact h' hh'
              obtain ⟨heq, hkey⟩ := hsame hfd he0E hcc
              -- p.1 = h' would put the key in both U and D
              have hph : p.1 = h' := by rw [hk0, hkey]
              rw [← hph] at hmd
              have hips : p.2 = ipd := mem_pairs_unique hMk hp hmd
              obtain ⟨ipd2, ed2, hmd2, hfd2, hsvd2, -⟩ :=
                hDfact h' hh'
              rw [← hph] at hfd2 hmd2
              rw [hSf] at hfd2
              have hee : e0 = ed2 := Option.some_inj.1 hfd2
              have hips2 : p.2 = ipd2 := mem_pairs_unique hMk hp hmd2
              exact hsv (by rw [← hee, ← hips2] at hsvd2; exact hsvd2)
            · intro k hk hcc
              rw [huu] at hcc
              obtain ⟨ek, hfk, hMn⟩ := hRfact k hk
              obtain ⟨heq, hkey⟩ := hsame hfk he0E hcc
              rw [hk0, hkey] at hMf
              rw [hMn] at hMf
              cases hMf
          · show overrideKey (updTgt S p.1) = p.1
            rw [htgt hSf, ← hk0]
    | none =>
        cases hOf : mapFind O p.1 with
        | some ef =>
            -- a foreign entry owns the key; it is never touched
            have hmemO : (p.1, ef) ∈ O := mapFind_mem hOf
            have hefE : ef ∈ env.overrides ∧ p.1 = overrideKey ef ∧
                descOwned ef.description options.entryDescription
                  options.legacyDescriptions = false := by
              rw [hO] at hmemO
              rcases classifyLoop_other_mem hmemO with hc | hok
              · simp at hc
              · exact hok
            obtain ⟨c1, c2, c3⟩ := hsurvForeign hefE.1 hefE.2.2
            refine ⟨ef, ?_, hefE.2.1.symm⟩
            exact hsurvive ef
              (by rw [hE1]; exact List.mem_append.2 (Or.inl hefE.1))
              c1 c2 c3
        | none =>
            -- absent from both maps: the add loop created it
            have hinA : p.1 ∈ A := by
              rw [hA]
              exact toAdd_of_conds hp hdot hSf hOf
            obtain ⟨e, he, n, hn⟩ := hnewAll p.1 hinA
            obtain ⟨h2, hh2, hkey, -, -, -⟩ := hnewFacts e he
            obtain ⟨c1, c2, c3⟩ := hsurvNew e he
            refine ⟨e, ?_, ?_⟩
            · exact hsurvive e
                (by rw [hE1]; exact List.mem_append.2 (Or.inr he)) c1 c2
                c3
            · subst hn
              simp only [overrideKey, mkAddedOverride]
              exact splitKey_reconstruct hdot

/-- A state satisfying the two post-conditions produces four empty
change sets on the next diff. -/
theorem secondRun_empty (options : CloudflareSyncOptions) (M : GoMap Str)
    (E4 : List DNSOverride)
    (hMk : (mapKeys M).Nodup)
    (K1 : ∀ e ∈ E4, descOwned e.description options.entryDescription
        options.legacyDescriptions = true →
      ∃ ip, mapFind M (overrideKey e) = some ip ∧ e.server = ip ∧
        e.description = options.entryDescription)
    (K2 : ∀ p ∈ M, containsDot (Prod.fst p) = true →
      ∃ e ∈ E4, overrideKey e = Prod.fst p) :
    processHostnames
      (classifyOverrides E4 options.entryDescription
        options.legacyDescriptions).1
      (classifyOverrides E4 options.entryDescription
        options.legacyDescriptions).2
      options.entryDescription M = ([], [], []) ∧
    findToRemove M
      (classifyOverrides E4 options.entryDescription
        options.legacyDescriptions).1 = [] := by
  have hbind2 : ∀ {h : Str} {e : DNSOverride},
      mapFind (classifyOverrides E4 options.entryDescription
        options.legacyDescriptions).1 h = some e →
      e ∈ E4 ∧ h = overrideKey e ∧
        descOwned e.description options.entryDescription
          options.legacyDescriptions = true := by
    intro h e hf
    have hmem := mapFind_mem hf
    rcases classifyLoop_sync_mem hmem with hc | hok
    · simp at hc
    · exact hok
  have hMfind : ∀ {h ip : Str}, (h, ip) ∈ M → mapFind M h = some ip :=
    fun hm => mapFind_eq_of_mem_nodup hMk hm
  have h1 : (processHostnames
      (classifyOverrides E4 options.entryDescription
        options.legacyDescriptions).1
      (classifyOverrides E4 options.entryDescription
        options.legacyDescriptions).2
      options.entryDescription M).1 = [] := by
    rw [List.eq_nil_iff_forall_not_mem]
    intro h hmem
    obtain ⟨⟨ip, hm⟩, hdot, hSn, hOn⟩ := mem_toAdd hmem
    obtain ⟨e, heE4, hkey⟩ := K2 (h, ip) hm hdot
    rcases classify_covers (d := options.entryDescription)
        (L := options.legacyDescriptions) heE4 with hs | ho
    · rw [hkey, hSn] at hs
      simp at hs
    · rw [hkey, hOn] at ho
      simp at ho
  have h2 : (processHostnames
      (classifyOverrides E4 options.entryDescription
        options.legacyDescriptions).1
      (classifyOverrides E4 options.entryDescription
        options.legacyDescriptions).2
      options.entryDescription M).2.1 = [] := by
    rw [List.eq_nil_iff_forall_not_mem]
    intro h hmem
    obtain ⟨ip, hm, hdot, ovr, hf, hne⟩ := mem_toUpdate hmem
    obtain ⟨heE4, hkey, howned⟩ := hbind2 hf
    obtain ⟨ip0, hMf0, hsv0, -⟩ := K1 ovr heE4 howned
    rw [← hkey] at hMf0
    have hip : ip0 = ip :=
      Option.some_inj.1 (hMf0.symm.trans (hMfind hm))
    exact hne (by rw [hsv0, hip])
  have h3 : (processHostnames
      (classifyOverrides E4 options.entryDescription
        options.legacyDescriptions).1
      (classifyOverrides E4 options.entryDescription
        options.legacyDescriptions).2
      options.entryDescription M).2.2 = [] := by
    rw [List.eq_nil_iff_forall_not_mem]
    intro h hmem
    obtain ⟨ip, hm, hdot, ovr, hf, hsv, hds⟩ := mem_toUpdateDesc hmem
    obtain ⟨heE4, hkey, howned⟩ := hbind2 hf
    obtain ⟨ip0, hMf0, hsv0, hds0⟩ := K1 ovr heE4 howned
    exact hds hds0
  refine ⟨?_, ?_⟩
  · exact Prod.ext h1 (Prod.ext h2 h3)
  · rw [List.eq_nil_iff_forall_not_mem]
    intro k hmem
    obtain ⟨⟨v, hv⟩, hnone⟩ := mem_findToRemove.1 hmem
    rcases classifyLoop_sync_mem hv with hc | hok
    · simp at hc
    · obtain ⟨hvE4, hkey, howned⟩ := hok
      obtain ⟨ip0, hMf0, -, -⟩ := K1 v hvE4 howned
      rw [← hkey] at hMf0
      rw [hnone] at hMf0
      cases hMf0

/-- A fault-free, non-dry, non-empty-map run of
`SyncCloudflareWithUnbound`, written as one explicit equation. -/
theorem syncCF_run_eq (g : Nat → Str) (options : CloudflareSyncOptions)
    (M : GoMap Str) (env : Env) (hM0 : ¬(M.length = 0))
    (hdry : options.dryRun = false) :
    syncCloudflareWithUnboundModel (mkFreshFaults g) options
      (Except.ok M) env =
    ((cfReloadStep (mkFreshFaults g) (cfSyncPrePhase (mkFreshFaults g)
        options M
        (classifyOverrides env.overrides options.entryDescription
          options.legacyDescriptions).1
        (processHostnames
          (classifyOverrides env.overrides options.entryDescription
            options.legacyDescriptions).1
          (classifyOverrides env.overrides options.entryDescription
            options.legacyDescriptions).2
          options.entryDescription M).1
        (processHostnames
          (classifyOverrides env.overrides options.entryDescription
            options.legacyDescriptions).1
          (classifyOverrides env.overrides options.entryDescription
            options.legacyDescriptions).2
          options.entryDescription M).2.1
        (processHostnames
          (classifyOverrides env.overrides options.entryDescription
            options.legacyDescriptions).1
          (classifyOverrides env.overrides options.entryDescription
            options.legacyDescriptions).2
          options.entryDescription M).2.2
        (findToRemove M
          (classifyOverrides env.overrides options.entryDescription
            options.legacyDescriptions).1)
        { env with trace := Event.listOverrides ::
            Event.fetchTunnel :: env.trace })).1,
      Except.ok
        { hostnameMap := M,
          toAdd := (processHostnames
            (classifyOverrides env.overrides options.entryDescription
              options.legacyDescriptions).1
            (classifyOverrides env.overrides options.entryDescription
              options.legacyDescriptions).2
            options.entryDescription M).1,
          toUpdate := (processHostnames
            (classifyOverrides env.overrides options.entryDescription
              options.legacyDescriptions).1
            (classifyOverrides env.overrides options.entryDescription
              options.legacyDescriptions).2
            options.entryDescription M).2.1,
          toUpdateDesc := (processHostnames
            (classifyOverrides env.overrides options.entryDescription
              options.legacyDescriptions).1
            (classifyOverrides env.overrides options.entryDescription
              options.legacyDescriptions).2
            options.entryDescription M).2.2,
          toRemove := findToRemove M
            (classifyOverrides env.overrides options.entryDescription
              options.legacyDescriptions).1,
          changesApplied := (cfReloadStep (mkFreshFaults g)
            (cfSyncPrePhase (mkFreshFaults g) options M
              (classifyOverrides env.overrides options.entryDescription
                options.legacyDescriptions).1
              (processHostnames
                (classifyOverrides env.overrides
                  options.entryDescription
                  options.legacyDescriptions).1
                (classifyOverrides env.overrides
                  options.entryDescription
                  options.legacyDescriptions).2
                options.entryDescription M).1
              (processHostnames
                (classifyOverrides env.overrides
                  options.entryDescription
                  options.legacyDescriptions).1
                (classifyOverrides env.overrides
                  options.entryDescription
                  options.legacyDescriptions).2
                options.entryDescription M).2.1
              (processHostnames
                (classifyOverrides env.overrides
                  options.entryDescription
                  options.legacyDescriptions).1
                (classifyOverrides env.overrides
                  options.entryDescription
                  options.legacyDescriptions).2
                options.entryDescription M).2.2
              (findToRemove M
                (classifyOverrides env.overrides
                  options.entryDescription
                  options.legacyDescriptions).1)
              { env with trace := Event.listOverrides ::
                  Event.fetchTunnel :: env.trace })).2,
          syncOverrides := (classifyOverrides env.overrides
            options.entryDescription options.legacyDescriptions).1,
          otherOverrides := (classifyOverrides env.overrides
            options.entryDescription options.legacyDescriptions).2,
          existingCount := env.overrides.length }) := by
  have hl : (mkFreshFaults g).listOverridesFail = false := rfl
  simp only [syncCloudflareWithUnboundModel, unboundGetOverrides,
    applyCloudflareChangesModel, hl, Bool.false_eq_true, if_false,
    cfDiffLoop_eq_processHostnames]
  rw [if_neg hM0]
  simp only [hdry, Bool.false_eq_true, if_false]

/-- **C5** (amended): running `SyncCloudflareWithUnbound` twice in a
row against a fault-free remote (same mapping, same options, live mode)
yields empty toAdd/toUpdate/toUpdateDesc/toRemove sets on the second
run, PROVIDED the initial state is well-formed: Go-map key uniqueness
on the mapping; pairwise distinct `host.domain` keys and pairwise
distinct, non-empty UUIDs among the existing overrides; server-assigned
UUIDs fresh; and no case-insensitive host/domain collision that is not
an exact key match (between an existing entry and a mapping key, or
between two mapping keys). Without the key-uniqueness/case hypotheses
the code is not idempotent (see the counterexample). -/
theorem cloudflareSyncIdempotent (g : Nat → Str)
    (options : CloudflareSyncOptions) (M : GoMap Str) (env : Env)
    (hdry : options.dryRun = false)
    (hMk : (mapKeys M).Nodup)
    (hEk : (env.overrides.map overrideKey).Nodup)
    (hUne : ∀ e ∈ env.overrides, e.uuid ≠ [])
    (hUnd : (env.overrides.map (fun e => e.uuid)).Nodup)
    (hfresh : ∀ e ∈ env.overrides, ∀ n, g n ≠ e.uuid)
    (hcaseE : ∀ e ∈ env.overrides, ∀ h ∈ mapKeys M,
      equalFold e.host (dotHead h) = true →
      equalFold e.domain (dotTail h) = true → overrideKey e = h)
    (hcaseM : ∀ h1 ∈ mapKeys M, ∀ h2 ∈ mapKeys M,
      equalFold (dotHead h1) (dotHead h2) = true →
      equalFold (dotTail h1) (dotTail h2) = true → h1 = h2) :
    ∃ res2, (syncCloudflareWithUnboundModel (mkFreshFaults g) options
        (Except.ok M)
        (syncCloudflareWithUnboundModel (mkFreshFaults g) options
          (Except.ok M) env).1).2 = Except.ok res2 ∧
      res2.toAdd = [] ∧ res2.toUpdate = [] ∧ res2.toUpdateDesc = [] ∧
      res2.toRemove = [] := by
  by_cases hM0 : M.length = 0
  · have hMnil : M = [] := List.length_eq_zero.1 hM0
    subst hMnil
    exact ⟨{ hostnameMap := [] }, rfl, rfl, rfl, rfl, rfl⟩
  · have hrun1 := syncCF_run_eq g options M env hM0 hdry
    have hcore := cfSyncPrePhase_postState g options M
      { env with trace := Event.listOverrides ::
          Event.fetchTunnel :: env.trace }
      (classifyOverrides env.overrides options.entryDescription
        options.legacyDescriptions).1
      (classifyOverrides env.overrides options.entryDescription
        options.legacyDescriptions).2
      (processHostnames
        (classifyOverrides env.overrides options.entryDescription
          options.legacyDescriptions).1
        (classifyOverrides env.overrides options.entryDescription
          options.legacyDescriptions).2
        options.entryDescription M).1
      (processHostnames
        (classifyOverrides env.overrides options.entryDescription
          options.legacyDescriptions).1
        (classifyOverrides env.overrides options.entryDescription
          options.legacyDescriptions).2
        options.entryDescription M).2.1
      (processHostnames
        (classifyOverrides env.overrides options.entryDescription
          options.legacyDescriptions).1
        (classifyOverrides env.overrides options.entryDescription
          options.legacyDescriptions).2
        options.entryDescription M).2.2
      (findToRemove M
        (classifyOverrides env.overrides options.entryDescription
          options.legacyDescriptions).1)
      rfl rfl rfl rfl rfl rfl hMk hEk hUne hUnd hfresh hcaseE hcaseM
    obtain ⟨K1, K2⟩ := hcore
    have hemptied := secondRun_empty options M _ hMk K1 K2
    have hrun2 := syncCF_run_eq g options M
      (syncCloudflareWithUnboundModel (mkFreshFaults g) options
        (Except.ok M) env).1 hM0 hdry
    rw [hrun2]
    refine ⟨_, rfl, ?_, ?_, ?_, ?_⟩
    · show (processHostnames _ _ _ M).1 = []
      simp only [hrun1, cfReloadStep_overrides]
      rw [hemptied.1]
    · show (processHostnames _ _ _ M).2.1 = []
      simp only [hrun1, cfReloadStep_overrides]
      rw [hemptied.1]
    · show (processHostnames _ _ _ M).2.2 = []
      simp only [hrun1, cfReloadStep_overrides]
      rw [hemptied.1]
    · show findToRemove M _ = []
      simp only [hrun1, cfReloadStep_overrides]
      rw [hemptied.2]

/-- Server-side UUID generator for the C5 witness/counterexample. -/
def gW5 : Nat → Str := fun _ => str r"gen-uuid"

/-- Options for the C5 witness/counterexample. -/
def optW5 : CloudflareSyncOptions := { entryDescription := str r"d" }

/-- Mapping for the C5 witness. -/
def mapW5 : GoMap Str := [(str r"svc.example.com", str r"10.0.0.5")]

theorem cloudflareSyncIdempotent_witness :
    ∃ res2, (syncCloudflareWithUnboundModel (mkFreshFaults gW5) optW5
        (Except.ok mapW5)
        (syncCloudflareWithUnboundModel (mkFreshFaults gW5) optW5
          (Except.ok mapW5) ({} : Env)).1).2 = Except.ok res2 ∧
      res2.toAdd = [] ∧ res2.toUpdate = [] ∧ res2.toUpdateDesc = [] ∧
      res2.toRemove = [] :=
  cloudflareSyncIdempotent gW5 optW5 mapW5 {} rfl (by decide) (by decide)
    (fun e he => by simp at he) (by decide) (fun e he => by simp at he)
    (fun e he => by simp at he) (by decide)

/-- Projection helper: the toRemove set of a sync result. -/
def resToRemove : Except Str SyncResultM → List Str
  | Except.ok r => r.toRemove
  | Except.error _ => []

/-- Projection helper: the changesApplied flag of a sync result. -/
def resChangesApplied : Except Str SyncResultM → Bool
  | Except.ok r => r.changesApplied
  | Except.error _ => false

/-- First duplicate-keyed override for the C5 counterexample. -/
def o5a : DNSOverride :=
  { uuid := str r"u1", host := str r"old", domain := str r"a",
    server := str r"10.0.0.5", description := str r"d" }

/-- Second duplicate-keyed override for the C5 counterexample. -/
def o5b : DNSOverride :=
  { uuid := str r"u2", host := str r"old", domain := str r"a",
    server := str r"10.0.0.5", description := str r"d" }

/-- Mapping for the C5 counterexample. -/
def mapW5c : GoMap Str := [(str r"svc.a", str r"10.0.0.5")]

/-- Environment with two owned overrides sharing the key `old.a`. -/
def envW5c : Env := { overrides := [o5a, o5b] }

/-- **C5 counterexample**: with two tool-owned overrides stored under
the same `host.domain` key (which the classification map silently
shadows), a fault-free live run deletes only the map binding, so the
second run still finds an owned `old.a` entry absent from the mapping
and queues it for removal again — `toRemove` is NOT empty on the second
run even though the first run applied all its changes successfully. -/
theorem cloudflareIdempotenceCounterexample :
    resChangesApplied (syncCloudflareWithUnboundModel
      (mkFreshFaults gW5) optW5 (Except.ok mapW5c) envW5c).2 = true ∧
    resToRemove (syncCloudflareWithUnboundModel (mkFreshFaults gW5)
      optW5 (Except.ok mapW5c)
      (syncCloudflareWithUnboundModel (mkFreshFaults gW5) optW5
        (Except.ok mapW5c) envW5c).1).2 = [str r"old.a"] := by
  decide

end UnboundCLI
